import Mathlib

/-!
# ExamSystem: exam delivery and result store of `server.c`

A shallow embedding of the server's exam-delivery path (`send_exam_data`,
`start_exam`), of the session handler `handle_client` (login, registration,
result receipt, deregistration), of the result log (`append_result`,
`loadDashboardData`), of the dashboard passes (`flagSuspiciousActivity`,
`rankStudents`), of the instructor's rule edits, of the question loader
`load_questions`, of the client's `conduct_exam` with the part of its `main`
that calls it and the result record it sends, and of `append_result` and
`loadDashboardData` of the standalone `project.c` (namespace `Project`),
followed by the properties proved about them.

Conventions of the embedding:
* a C string held in a `char` array is the list of its characters before the
  terminating NUL;
* `int` values are `Int`; counts that the program only ever assigns from a
  loop counter (`totalQuestions`, `clientCount`, `studentCount`) are `Nat`;
* `float` marks are read as exact rationals;
* a global array together with its element count is a list (the question
  store, the client registry) or a list with a separate count (the dashboard
  array, whose unused slots keep their old contents);
* the outside world (results of `send`, values of `rand`, the outcome of
  `recv` and `fopen`) enters as explicit parameters.
-/

namespace ExamSystem

/-! ## Constants -/

def MAX_QUESTIONS : Nat := 200
def MAX_LINE : Nat := 512
def MAX_STUDENTS : Nat := 100
def NUM_EXAM_QUESTIONS : Nat := 5

/-- The NUL character that terminates a C string. -/
def NUL : Char := Char.ofNat 0

/-- The line terminator written by `fprintf(fp, "\n")`. -/
def NL : Char := Char.ofNat 10

/-! ## Data model -/

/-- The struct `Question` of `server.c` (padding left out). -/
structure Question where
  question : List Char
  optionA : List Char
  optionB : List Char
  optionC : List Char
  optionD : List Char
  correct : Char
  difficulty : Int
deriving DecidableEq, Repr

/-- The struct `DashboardStudent` of `server.c`; `responseTimes` is the array
of `NUM_EXAM_QUESTIONS` ints. -/
structure DashboardStudent where
  roll : List Char
  name : List Char
  responseTimes : List Int
  totalTime : Int
  correctAnswers : Int
  totalQuestions : Int
  rank : Int
  flagged : Int
deriving DecidableEq, Repr

/-- The struct `Client` of `server.c`. -/
structure Client where
  sock : Int
  roll : List Char
deriving DecidableEq, Repr

/-- The global state of the server that exam delivery reads and writes:
the rules, the start flag, the question store (`questions` with
`totalQuestions` its length) and the client registry (`clients` with
`clientCount` its length). -/
structure Server where
  answerTimeout : Int
  marksForCorrectAnswer : ℚ
  marksDeductedForWrongAnswer : ℚ
  examStarted : Int
  questions : List Question
  clients : List Client
deriving DecidableEq

/-- The global `totalQuestions`. -/
def Server.totalQuestions (st : Server) : Nat := st.questions.length

/-- The global `clientCount`. -/
def Server.clientCount (st : Server) : Nat := st.clients.length

/-- A buffer handed to `send`. -/
inductive Msg where
  | bytes (data : List Char)
  | int (v : Int)
  | float (v : ℚ)
  | question (q : Question)
deriving DecidableEq

/-- One call of `send`: the socket, the buffer, and whether the call returned
the full length of the buffer. -/
structure SendEvent where
  sock : Int
  msg : Msg
  ok : Bool
deriving DecidableEq

/-! ## Question validation and the canonical default record -/

/-- The C library `strchr(s, c) != NULL`: `c` occurs in `s` or is the
terminating NUL of `s`. -/
def strchr (s : List Char) (c : Char) : Bool :=
  decide (c ∈ s) || decide (c = NUL)

/-- The record `default_q` of `send_exam_data`. -/
def default_q : Question :=
  { question := "What is the default question?".toList
    optionA := "Option A".toList
    optionB := "Option B".toList
    optionC := "Option C".toList
    optionD := "Option D".toList
    correct := 'A'
    difficulty := 1 }

/-- An all-zero `Question`, the content of a slot of the zero-initialised
global array that was never written. -/
def zeroQuestion : Question :=
  { question := [], optionA := [], optionB := [], optionC := [], optionD := [],
    correct := NUL, difficulty := 0 }

/-- The condition of the `if` in the delivery loop of `send_exam_data`
(server.c line 657), under which the default record is sent instead. -/
def deliveryInvalid (q : Question) : Bool :=
  decide (q.question = []) || !strchr "ABCD".toList q.correct ||
    decide (q.difficulty < 1) || decide (q.difficulty > 3)

/-- The question invariant of the data model: the five texts are non-empty,
the correct tag is one of A, B, C, D and the difficulty is 1, 2 or 3. -/
def questionInvariant (q : Question) : Prop :=
  q.question ≠ [] ∧ q.optionA ≠ [] ∧ q.optionB ≠ [] ∧ q.optionC ≠ [] ∧ q.optionD ≠ [] ∧
    q.correct ∈ ['A', 'B', 'C', 'D'] ∧ 1 ≤ q.difficulty ∧ q.difficulty ≤ 3

instance (q : Question) : Decidable (questionInvariant q) := by
  unfold questionInvariant; infer_instance

/-! ## `send_exam_data` -/

/-- A call `send(sock, buf, len, 0) == len`: the event is appended to the
trace and the oracle `ok`, asked with the number of earlier calls, tells
whether the full length was sent. -/
def send (ok : Nat → Bool) (tr : List SendEvent) (sock : Int) (m : Msg) :
    List SendEvent × Bool :=
  (tr ++ [{ sock := sock, msg := m, ok := ok tr.length }], ok tr.length)

/-- The three assignments that exchange `indices[i]` and `indices[j]`. -/
def swapIndices (indices : List Nat) (i j : Nat) : List Nat :=
  let temp := indices.getD i 0
  let indices := indices.set i (indices.getD j 0)
  indices.set j temp

/-- The shuffle loop
`for (i = totalQuestions - 1; i > 0 && i >= totalQuestions - num_questions; i--)`
entered with loop variable `i`; `lo` is `totalQuestions - num_questions`, and
`rand k` is the value of the `k`-th call of `rand()` after `srand`, `k` counting
the calls already made. -/
def shuffleLoop (rand : Nat → Nat) (lo : Nat) : Nat → Nat → List Nat → List Nat
  | 0, _, indices => indices
  | i + 1, k, indices =>
    if lo ≤ i + 1 then
      let j := rand k % (i + 1 + 1)
      shuffleLoop rand lo i (k + 1) (swapIndices indices (i + 1) j)
    else indices

/-- The value `num_questions` of `send_exam_data`. -/
def numQuestions (totalQuestions : Nat) : Nat :=
  if totalQuestions < NUM_EXAM_QUESTIONS then totalQuestions else NUM_EXAM_QUESTIONS

/-- The array `indices` of `send_exam_data` after the initialisation loop and
the shuffle loop, for a store of `totalQuestions` records. -/
def shuffledIndices (rand : Nat → Nat) (totalQuestions : Nat) : List Nat :=
  shuffleLoop rand (totalQuestions - numQuestions totalQuestions) (totalQuestions - 1) 0
    (List.range totalQuestions)

/-- The store indices `indices[0], ..., indices[num_questions - 1]` that the
delivery loop reads. -/
def selectedIndices (rand : Nat → Nat) (totalQuestions : Nat) : List Nat :=
  (List.range (numQuestions totalQuestions)).map
    (fun i => (shuffledIndices rand totalQuestions).getD i 0)

/-- The record sent for store index `idx`: the stored record, or `default_q`
when the check of line 657 rejects it. -/
def deliveredRecord (questions : List Question) (idx : Nat) : Question :=
  let q := questions.getD idx zeroQuestion
  if deliveryInvalid q then default_q else q

/-- The delivery loop `for (i = 0; i < num_questions; i++)` entered with loop
variable `i` and `n = num_questions - i` iterations to go; it returns at the
first `send` that does not send the whole record. -/
def sendQuestions (ok : Nat → Bool) (questions : List Question) (indices : List Nat)
    (client_sock : Int) : Nat → Nat → List SendEvent → List SendEvent
  | 0, _, tr => tr
  | n + 1, i, tr =>
    let q := deliveredRecord questions (indices.getD i 0)
    let r := send ok tr client_sock (Msg.question q)
    if r.2 then sendQuestions ok questions indices client_sock n (i + 1) r.1 else r.1

/-- The validated timeout `valid_answerTimeout`. -/
def validAnswerTimeout (st : Server) : Int :=
  if 0 < st.answerTimeout ∧ st.answerTimeout ≤ 3600 then st.answerTimeout else 30

/-- The validated marks `valid_marksForCorrectAnswer`. -/
def validMarksForCorrectAnswer (st : Server) : ℚ :=
  if 0 < st.marksForCorrectAnswer ∧ st.marksForCorrectAnswer ≤ 100
  then st.marksForCorrectAnswer else 1

/-- The validated marks `valid_marksDeductedForWrongAnswer`. -/
def validMarksDeductedForWrongAnswer (st : Server) : ℚ :=
  if 0 ≤ st.marksDeductedForWrongAnswer ∧ st.marksDeductedForWrongAnswer ≤ 100
  then st.marksDeductedForWrongAnswer else 1 / 4

/-- The function `send_exam_data`: four configuration values, then the
selected question records; each failed `send` returns at once. The result is
the trace of `send` calls extended by the calls made here. -/
def send_exam_data (st : Server) (ok : Nat → Bool) (rand : Nat → Nat)
    (tr : List SendEvent) (client_sock : Int) : List SendEvent :=
  let num_questions := numQuestions st.totalQuestions
  let r1 := send ok tr client_sock (Msg.int (validAnswerTimeout st))
  if !r1.2 then r1.1 else
  let r2 := send ok r1.1 client_sock (Msg.float (validMarksForCorrectAnswer st))
  if !r2.2 then r2.1 else
  let r3 := send ok r2.1 client_sock (Msg.float (validMarksDeductedForWrongAnswer st))
  if !r3.2 then r3.1 else
  let r4 := send ok r3.1 client_sock (Msg.int (num_questions : Int))
  if !r4.2 then r4.1 else
  let indices := shuffledIndices rand st.totalQuestions
  sendQuestions ok st.questions indices client_sock num_questions 0 r4.1

/-- The question records handed to `send` in a trace, in order. -/
def questionsSent : List SendEvent → List Question
  | [] => []
  | e :: es =>
    match e.msg with
    | Msg.question q => q :: questionsSent es
    | _ => questionsSent es

/-! ## `start_exam` -/

/-- The marker `"START"` with its terminator, 6 bytes. -/
def startMarker : List Char := "START".toList ++ [NUL]

/-- The loop `for (i = 0; i < clientCount; i++)` of `start_exam` over the
registry entries from index `i` on; `rands i` is the `rand` stream of the
delivery to the `i`-th registry entry. -/
def startLoop (st : Server) (ok : Nat → Bool) (rands : Nat → Nat → Nat) :
    List Client → Nat → List SendEvent → List SendEvent
  | [], _, tr => tr
  | c :: cs, i, tr =>
    let r := send ok tr c.sock (Msg.bytes startMarker)
    if r.2 then startLoop st ok rands cs (i + 1) (send_exam_data st ok (rands i) r.1 c.sock)
    else startLoop st ok rands cs (i + 1) r.1

/-- The function `start_exam`: nothing happens with an empty registry;
otherwise the flag is set and every registry entry is sent the marker and,
when that went through, the exam data. Returns the new state and the trace of
`send` calls made. -/
def start_exam (st : Server) (ok : Nat → Bool) (rands : Nat → Nat → Nat) :
    Server × List SendEvent :=
  if st.clientCount = 0 then (st, [])
  else
    let st1 := { st with examStarted := 1 }
    (st1, startLoop st1 ok rands st1.clients 0 [])

/-- The messages fully written to socket `sock` in a trace, in order. -/
def messagesTo (sock : Int) (tr : List SendEvent) : List Msg :=
  (tr.filter (fun e => e.ok && decide (e.sock = sock))).map (fun e => e.msg)

/-! ## Decimal conversion: `%d` and `atoi` -/

/-- The character of the decimal digit `d`. -/
def digitChar (d : Nat) : Char := Char.ofNat (48 + d)

/-- The decimal digits of `n`, most significant first; `fuel` bounds their
number and `n + 1` is always enough. -/
def natDigits : Nat → Nat → List Char
  | 0, _ => []
  | fuel + 1, n =>
    if n < 10 then [digitChar n] else natDigits fuel (n / 10) ++ [digitChar (n % 10)]

/-- The conversion `%d` of `fprintf`. -/
def fmt_d : Int → List Char
  | Int.ofNat n => natDigits (n + 1) n
  | Int.negSucc n => '-' :: natDigits (n + 2) (n + 1)

/-- The C library `isspace` in the C locale. -/
def isspace (c : Char) : Bool :=
  decide (c = ' ') || decide (9 ≤ c.toNat ∧ c.toNat ≤ 13)

/-- The C library `isdigit`. -/
def isdigit (c : Char) : Bool :=
  decide (48 ≤ c.toNat ∧ c.toNat ≤ 57)

/-- The value of the leading decimal digits of a text, continuing from the
value `acc` of the digits already read. -/
def digitsValue (acc : Nat) : List Char → Nat
  | [] => acc
  | c :: cs => if isdigit c then digitsValue (acc * 10 + (c.toNat - 48)) cs else acc

/-- The C library `atoi`: leading white space, an optional sign, then the
leading decimal digits; values outside the range of `int` are not modelled. -/
def atoi (s : List Char) : Int :=
  match s.dropWhile isspace with
  | '-' :: cs => -(digitsValue 0 cs : Int)
  | '+' :: cs => (digitsValue 0 cs : Int)
  | cs => (digitsValue 0 cs : Int)

/-! ## The result log: `append_result` -/

/-- The loop `for (i = 0; i < s->totalQuestions; i++) fprintf(fp, "%d,", ...)`
entered with loop variable `i` and `n` iterations to go; `none` when
`responseTimes` is read outside the array. -/
def writeTimes (s : DashboardStudent) : Nat → Nat → List Char → Option (List Char)
  | 0, _, out => some out
  | n + 1, i, out =>
    match s.responseTimes[i]? with
    | none => none
    | some t => writeTimes s n (i + 1) (out ++ fmt_d t ++ [','])

/-- The function `append_result` of `server.c` on the content `log` of the
result file: when `fopen` fails nothing is written; otherwise the six fields,
the response times and a line terminator are written at the end of the file.
The result is `none` when `responseTimes` is read outside the array. -/
def append_result (fopenOk : Bool) (log : List Char) (s : DashboardStudent) :
    Option (List Char) :=
  if !fopenOk then some log
  else
    let out := log ++ s.roll ++ ['|'] ++ s.name ++ ['|'] ++ fmt_d s.correctAnswers ++ ['|'] ++
      fmt_d s.totalQuestions ++ ['|'] ++ fmt_d s.flagged ++ ['|'] ++ fmt_d s.totalTime ++ ['|']
    match writeTimes s s.totalQuestions.toNat 0 out with
    | none => none
    | some out => some (out ++ [NL])

/-- The persisted result-log line of the specification:
`roll|name|correctCount|attemptedCount|flagged|totalTime|t1,t2,...,tn,`
followed by a line terminator, `n` being `totalQuestions`. -/
def resultLine (s : DashboardStudent) : List Char :=
  s.roll ++ ['|'] ++ s.name ++ ['|'] ++ fmt_d s.correctAnswers ++ ['|'] ++
    fmt_d s.totalQuestions ++ ['|'] ++ fmt_d s.flagged ++ ['|'] ++ fmt_d s.totalTime ++ ['|'] ++
    (s.responseTimes.take s.totalQuestions.toNat).flatMap (fun t => fmt_d t ++ [',']) ++ [NL]

/-- The log obtained from `log` by appending the records of a list in order,
every `fopen` succeeding. -/
def appendAll : List Char → List DashboardStudent → Option (List Char)
  | log, [] => some log
  | log, s :: rest =>
    match append_result true log s with
    | none => none
    | some log1 => appendAll log1 rest

/-! ## Result receipt in `handle_client` -/

/-- The value of `sizeof(DashboardStudent)`: two texts of `MAX_LINE` bytes,
the response times and five more ints. -/
def sizeofDashboardStudent : Nat := 2 * MAX_LINE + 4 * NUM_EXAM_QUESTIONS + 5 * 4

/-- The result receipt of `handle_client` (server.c lines 762 to 769): `n` is
the value returned by `recv` and `result` the content of the receive buffer
after the call; the result is the new content of the result file. -/
def handle_client_receive_result (n : Int) (result : DashboardStudent) (fopenOk : Bool)
    (log : List Char) : Option (List Char) :=
  if n ≤ 0 then some log else append_result fopenOk log result

/-! ## Reloading the log: `loadDashboardData` -/

/-- The characters `fgets` stores from the stream `file` when at most `n` more
fit, and the rest of the stream. -/
def fgetsChars : Nat → List Char → List Char × List Char
  | 0, file => ([], file)
  | _ + 1, [] => ([], [])
  | n + 1, c :: cs =>
    if c = NL then ([c], cs)
    else ((c :: (fgetsChars n cs).1), (fgetsChars n cs).2)

/-- The C library `fgets(line, size, file)`: `none` at the end of the file,
otherwise the line read (terminator included) and the rest of the stream. -/
def fgets (size : Nat) (file : List Char) : Option (List Char × List Char) :=
  match file with
  | [] => none
  | _ :: _ => some (fgetsChars (size - 1) file)

/-- Membership of a character in the delimiter set of `strtok`. -/
def isDelim (delims : List Char) (c : Char) : Bool := decide (c ∈ delims)

/-- The C library `strtok` continued at the saved position `p`: leading
delimiters are skipped; `none` when no token is left, otherwise the token and
the position saved for the next call (after the delimiter that ended the
token, or the end of the text). -/
def strtok (delims : List Char) (p : List Char) : Option (List Char × List Char) :=
  match p.dropWhile (isDelim delims) with
  | [] => none
  | c :: cs =>
    some ((c :: cs).takeWhile (fun x => !isDelim delims x),
      ((c :: cs).dropWhile (fun x => !isDelim delims x)).drop 1)

/-- The loop `while (timeToken != NULL && i < NUM_EXAM_QUESTIONS)` of
`loadDashboardData`, entered with the current token, the loop variable `i`
and `n = NUM_EXAM_QUESTIONS - i`. -/
def readTimes : Nat → Option (List Char × List Char) → Nat → List Int → List Int
  | 0, _, _, times => times
  | _ + 1, none, _, times => times
  | n + 1, some (timeToken, p), i, times =>
    readTimes n (strtok [','] p) (i + 1) (times.set i (atoi timeToken))

/-- The body of the reading loop of `loadDashboardData` for one line: the
fields are parsed into the array slot `s`; `none` when a token is missing
(the program then passes a null pointer to `strncpy` or `atoi`). -/
def parseResultLine (line : List Char) (s : DashboardStudent) : Option DashboardStudent := do
  let (token, p) ← strtok ['|'] line
  let s := { s with roll := token.take (MAX_LINE - 1) }
  let (token, p) ← strtok ['|'] p
  let s := { s with name := token.take (MAX_LINE - 1) }
  let (token, p) ← strtok ['|'] p
  let s := { s with correctAnswers := atoi token }
  let (token, p) ← strtok ['|'] p
  let s := { s with totalQuestions := atoi token }
  let (token, p) ← strtok ['|'] p
  let s := { s with flagged := atoi token }
  let (token, p) ← strtok ['|'] p
  let s := { s with totalTime := atoi token }
  some { s with responseTimes := readTimes NUM_EXAM_QUESTIONS (strtok [','] p) 0 s.responseTimes }

/-- The loop `while (fgets(line, sizeof(line), file) && studentCount < MAX_STUDENTS)`
of `loadDashboardData` on the rest `file` of the stream, the array
`dashboardStudents` and `studentCount`; `fuel` bounds the number of
iterations (each consumes at least one character). -/
def loadLoop : Nat → List Char → List DashboardStudent → Nat →
    Option (List DashboardStudent × Nat)
  | 0, _, _, _ => none
  | fuel + 1, file, dashboardStudents, studentCount =>
    match fgets MAX_LINE file with
    | none => some (dashboardStudents, studentCount)
    | some (line, rest) =>
      if studentCount < MAX_STUDENTS then
        match dashboardStudents[studentCount]? with
        | none => none
        | some s =>
          match parseResultLine line s with
          | none => none
          | some s1 => loadLoop fuel rest (dashboardStudents.set studentCount s1) (studentCount + 1)
      else some (dashboardStudents, studentCount)

/-- The function `loadDashboardData` of `server.c`: `file` is the content of
the result file, or `none` when `fopen` fails (the globals then stay as they
are); the result is the array `dashboardStudents` and `studentCount`, or
`none` when a line lacks a field. -/
def loadDashboardData (file : Option (List Char)) (dashboardStudents : List DashboardStudent)
    (studentCount : Nat) : Option (List DashboardStudent × Nat) :=
  match file with
  | none => some (dashboardStudents, studentCount)
  | some content => loadLoop (content.length + 1) content dashboardStudents 0

/-! ## Ranking: `rankStudents` -/

/-- The body of the inner loop of `rankStudents`: the records at `j` and
`j + 1` are exchanged when the first has fewer correct answers. -/
def compareSwap (a : List DashboardStudent) (j : Nat) : List DashboardStudent :=
  match a[j]?, a[j + 1]? with
  | some x, some y =>
    if x.correctAnswers < y.correctAnswers then
      let temp := x
      (a.set j y).set (j + 1) temp
    else a
  | _, _ => a

/-- The inner loop `for (j = 0; j < studentCount - i - 1; ++j)` entered with
loop variable `j` and `n` iterations to go. -/
def innerLoop : Nat → Nat → List DashboardStudent → List DashboardStudent
  | 0, _, a => a
  | n + 1, j, a => innerLoop n (j + 1) (compareSwap a j)

/-- The outer loop `for (i = 0; i < studentCount - 1; ++i)` entered with loop
variable `i` and `n` iterations to go. -/
def outerLoop (studentCount : Nat) : Nat → Nat → List DashboardStudent → List DashboardStudent
  | 0, _, a => a
  | n + 1, i, a => outerLoop studentCount n (i + 1) (innerLoop (studentCount - i - 1) 0 a)

/-- The loop `for (i = 0; i < studentCount; ++i) dashboardStudents[i].rank = i + 1`
entered with loop variable `i` and `n` iterations to go. -/
def assignRanks : Nat → Nat → List DashboardStudent → List DashboardStudent
  | 0, _, a => a
  | n + 1, i, a =>
    match a[i]? with
    | some s => assignRanks n (i + 1) (a.set i { s with rank := (i : Int) + 1 })
    | none => assignRanks n (i + 1) a

/-- The function `rankStudents` of `server.c` on the array `dashboardStudents`
and `studentCount`. -/
def rankStudents (dashboardStudents : List DashboardStudent) (studentCount : Nat) :
    List DashboardStudent :=
  assignRanks studentCount 0 (outerLoop studentCount (studentCount - 1) 0 dashboardStudents)

/-- A record with its rank field cleared, for comparing records up to rank. -/
def eraseRank (s : DashboardStudent) : DashboardStudent := { s with rank := 0 }

/-! ## The flag pass: `flagSuspiciousActivity` -/

/-- The inner loop `for (j = 0; j < dashboardStudents[i].totalQuestions; ++j)`
of `flagSuspiciousActivity` for the record `s`, entered with loop variable `j`
and `n` iterations to go; `none` when `responseTimes` is read outside the
array. -/
def flagLoop (s : DashboardStudent) : Nat → Nat → Option DashboardStudent
  | 0, _ => some s
  | n + 1, j =>
    match s.responseTimes[j]? with
    | none => none
    | some t => if t < 2 then some { s with flagged := 1 } else flagLoop s n (j + 1)

/-- The outer loop `for (i = 0; i < studentCount; ++i)` of
`flagSuspiciousActivity`, entered with loop variable `i` and `n` iterations
to go. -/
def flagStudents : Nat → Nat → List DashboardStudent → Option (List DashboardStudent)
  | 0, _, a => some a
  | n + 1, i, a =>
    match a[i]? with
    | none => none
    | some s =>
      match flagLoop s s.totalQuestions.toNat 0 with
      | none => none
      | some s1 => flagStudents n (i + 1) (a.set i s1)

/-- The function `flagSuspiciousActivity` of `server.c` on the array
`dashboardStudents` and `studentCount`. -/
def flagSuspiciousActivity (dashboardStudents : List DashboardStudent) (studentCount : Nat) :
    Option (List DashboardStudent) :=
  flagStudents studentCount 0 dashboardStudents

/-! ## The client registry in `handle_client` -/

/-- The registration of `handle_client` (server.c lines 747 to 753): the
session is stored at index `clientCount` and `clientCount` is incremented.
The program makes no test on `clientCount`; the result is `none` when the
index lies outside the array `clients` of `MAX_STUDENTS` entries. -/
def register (clients : List Client) (client_sock : Int) (roll : List Char) :
    Option (List Client) :=
  if clients.length < MAX_STUDENTS then
    some (clients ++ [{ sock := client_sock, roll := roll.take (MAX_LINE - 1) }])
  else none

/-- The loop `for (j = i; j < clientCount - 1; j++) clients[j] = clients[j + 1]`
entered with loop variable `j` and `n` iterations to go. -/
def shiftLeft : Nat → Nat → List Client → List Client
  | 0, _, clients => clients
  | n + 1, j, clients =>
    match clients[j + 1]? with
    | some c => shiftLeft n (j + 1) (clients.set j c)
    | none => shiftLeft n (j + 1) clients

/-- The loop `for (i = 0; i < clientCount; i++)` of the deregistration,
entered with loop variable `i` and `n` iterations to go: at the first entry
with the socket the entries after it are moved down by one, `clientCount` is
decremented and the loop is left. -/
def deregisterLoop (client_sock : Int) : Nat → Nat → List Client → List Client
  | 0, _, clients => clients
  | n + 1, i, clients =>
    match clients[i]? with
    | none => clients
    | some c =>
      if c.sock = client_sock then
        (shiftLeft (clients.length - 1 - i) i clients).take (clients.length - 1)
      else deregisterLoop client_sock n (i + 1) clients

/-- The deregistration of `handle_client` (server.c lines 771 to 783) on the
registry. -/
def deregister (clients : List Client) (client_sock : Int) : List Client :=
  deregisterLoop client_sock clients.length 0 clients

/-! ## Login in `handle_client` -/

/-- One line of the student details file as `fscanf` reads it in
`verify_student`: four blank-separated texts. -/
structure StudentEntry where
  fileName : List Char
  fileRoll : List Char
  fileRegNo : List Char
  filePass : List Char
deriving DecidableEq, Repr

/-- The function `verify_student` of `server.c`: `directory` holds the entries
read from the student details file, or is `none` when `fopen` fails; on a
match of roll and password the name and the registration number of the first
matching entry are returned. -/
def verify_student (directory : Option (List StudentEntry)) (roll pass : List Char) :
    Option (List Char × List Char) :=
  match directory with
  | none => none
  | some entries =>
    match entries.find? (fun e => decide (e.fileRoll = roll) && decide (e.filePass = pass)) with
    | none => none
    | some e => some (e.fileName.take 49, e.fileRegNo.take 49)

/-- The call `sscanf(buffer, "%49[^|]|%49s", roll, password)`: a conversion
that fails leaves its destination and the later ones as they were (`roll0`,
`password0`, the content of the uninitialised arrays). -/
def scanLogin (buffer roll0 password0 : List Char) : List Char × List Char :=
  let roll := (buffer.takeWhile (fun c => c ≠ '|')).take 49
  if roll = [] then (roll0, password0)
  else
    match buffer.drop roll.length with
    | '|' :: rest =>
      let password := ((rest.dropWhile isspace).takeWhile (fun c => !isspace c)).take 49
      if password = [] then (roll, password0) else (roll, password)
    | _ => (roll, password0)

/-- The state that the operations of the server act on: the globals of
`Server`, the content of the result file, the trace of `send` calls, and the
dashboard array with `studentCount`. -/
structure System where
  server : Server
  log : List Char
  trace : List SendEvent
  dashboardStudents : List DashboardStudent
  studentCount : Nat

/-- The rejection marker `"INVALID"` with its terminator, 8 bytes. -/
def invalidMarker : List Char := "INVALID".toList ++ [NUL]

/-- The first part of `handle_client` (server.c lines 716 to 753), up to the
registration: `n` and `buffer` are the result of the first `recv` (`buffer`
the text received). The result holds the new state and whether the session
goes on to wait for the start of the exam; otherwise `handle_client` has
returned. `none` stands for a registration outside the array `clients`. -/
def handle_client_login (directory : Option (List StudentEntry)) (ok : Nat → Bool)
    (client_sock : Int) (n : Int) (buffer roll0 password0 : List Char) (sys : System) :
    Option (System × Bool) :=
  if n ≤ 0 then some (sys, false)
  else
    let rp := scanLogin buffer roll0 password0
    match verify_student directory rp.1 rp.2 with
    | none =>
      let r := send ok sys.trace client_sock (Msg.bytes invalidMarker)
      some ({ sys with trace := r.1 }, false)
    | some (name, reg_no) =>
      let response := (name ++ ['|'] ++ reg_no).take 99
      let r := send ok sys.trace client_sock (Msg.bytes (response ++ [NUL]))
      if !r.2 then some ({ sys with trace := r.1 }, false)
      else
        match register sys.server.clients client_sock rp.1 with
        | none => none
        | some clients =>
          some ({ sys with trace := r.1, server := { sys.server with clients := clients } }, true)

/-- The last part of `handle_client` (server.c lines 762 to 786), entered
once the exam has started: the result is received and appended, and the
session is removed from the registry. -/
def handle_client_finish (client_sock : Int) (n : Int) (result : DashboardStudent)
    (fopenOk : Bool) (sys : System) : Option System :=
  match handle_client_receive_result n result fopenOk sys.log with
  | none => none
  | some log =>
    some { sys with log := log,
                    server := { sys.server with
                                clients := deregister sys.server.clients client_sock } }

/-! ## The instructor menu -/

/-- The function `set_time_limit`: `new_time` is the number read by `scanf`. -/
def set_time_limit (new_time : Int) (st : Server) : Server :=
  { st with answerTimeout := if new_time ≤ 0 ∨ new_time > 3600 then 30 else new_time }

/-- The function `set_marking_scheme`: `correct` and `wrong` are the numbers
read by `scanf`. -/
def set_marking_scheme (correct wrong : ℚ) (st : Server) : Server :=
  { st with
    marksForCorrectAnswer := if correct ≤ 0 ∨ correct > 100 then 1 else correct
    marksDeductedForWrongAnswer := if wrong < 0 ∨ wrong > 100 then 1 / 4 else wrong }

/-- The function `displayDashboard` on the dashboard array: reload, flag pass
and rank pass; `file` is the content of the result file, or `none` when
`fopen` fails. -/
def displayDashboard (file : Option (List Char)) (dashboardStudents : List DashboardStudent)
    (studentCount : Nat) : Option (List DashboardStudent × Nat) :=
  match loadDashboardData file dashboardStudents studentCount with
  | none => none
  | some (loaded, count) =>
    match flagSuspiciousActivity loaded count with
    | none => none
    | some flagged => some (rankStudents flagged count, count)

/-- The operations of the server that act on its state: the two parts of a
session (`handle_client`), and the choices of the instructor menu. For
`add_question` followed by `load_questions` the store that `load_questions`
builds from the question file enters as `questions`. -/
inductive Op where
  | login (directory : Option (List StudentEntry)) (ok : Nat → Bool) (client_sock : Int)
      (n : Int) (buffer roll0 password0 : List Char)
  | finish (client_sock : Int) (n : Int) (result : DashboardStudent) (fopenOk : Bool)
  | startExam (ok : Nat → Bool) (rands : Nat → Nat → Nat)
  | viewDashboard (fopenOk : Bool)
  | setTimeLimit (new_time : Int)
  | setMarkingScheme (correct wrong : ℚ)
  | addQuestion (questions : List Question)

/-- One operation of the server on the state; `none` when the operation
leaves the defined behaviour of the program (a write or read outside an
array, a missing field in the result file). -/
def step (sys : System) : Op → Option System
  | Op.login directory ok client_sock n buffer roll0 password0 =>
    (handle_client_login directory ok client_sock n buffer roll0 password0 sys).map (fun r => r.1)
  | Op.finish client_sock n result fopenOk => handle_client_finish client_sock n result fopenOk sys
  | Op.startExam ok rands =>
    let r := start_exam sys.server ok rands
    some { sys with server := r.1, trace := sys.trace ++ r.2 }
  | Op.viewDashboard fopenOk =>
    match displayDashboard (if fopenOk then some sys.log else none) sys.dashboardStudents
        sys.studentCount with
    | none => none
    | some (a, count) => some { sys with dashboardStudents := a, studentCount := count }
  | Op.setTimeLimit new_time => some { sys with server := set_time_limit new_time sys.server }
  | Op.setMarkingScheme correct wrong =>
    some { sys with server := set_marking_scheme correct wrong sys.server }
  | Op.addQuestion questions => some { sys with server := { sys.server with questions := questions } }

/-- A sequence of operations of the server, from left to right. -/
def run : System → List Op → Option System
  | sys, [] => some sys
  | sys, op :: ops =>
    match step sys op with
    | none => none
    | some sys1 => run sys1 ops

/-- The globals of `server.c` as initialised at program start, the result
file being empty. -/
def initialSystem : System :=
  { server := { answerTimeout := 30, marksForCorrectAnswer := 1,
                marksDeductedForWrongAnswer := 1 / 4, examStarted := 0, questions := [],
                clients := [] }
    log := []
    trace := []
    dashboardStudents := List.replicate MAX_STUDENTS
      { roll := [], name := [], responseTimes := List.replicate NUM_EXAM_QUESTIONS 0,
        totalTime := 0, correctAnswers := 0, totalQuestions := 0, rank := 0, flagged := 0 }
    studentCount := 0 }

/-! ## The client: `conduct_exam` of `client.c` -/

/-- The struct `ExamResult` of `client.c`. -/
structure ExamResult where
  roll : List Char
  name : List Char
  responseTimes : List Int
  totalTime : Int
  correctAnswers : Int
  totalQuestions : Int
  flagged : Int
deriving DecidableEq, Repr

/-- The threshold `MIN_ANSWER_TIME` of `client.c`. -/
def MIN_ANSWER_TIME : Int := 5

/-- What the student does on one question: whether
`get_input_with_timeout` returned 1, the seconds elapsed around the call,
and the text it stored in `answerBuf`. -/
structure Outcome where
  gotInput : Bool
  answerTime : Int
  answerBuf : List Char
deriving DecidableEq, Repr

/-- The local variables of `conduct_exam` that the question loop updates. -/
structure ExamState where
  responseTimes : List Int
  weightedScore : ℚ
  wrongCount : Int
  attempted : Int
  isCheating : Int
  totalAnswerTime : Int
deriving DecidableEq

/-- The table `diffWeights` of `conduct_exam` at index `d`: 0, 1.0, 1.5, 2.0. -/
def diffWeights (d : Int) : ℚ :=
  if d = 1 then 1 else if d = 2 then 3 / 2 else if d = 3 then 2 else 0

/-- The C library `toupper` in the C locale. -/
def toupper (c : Char) : Char := c.toUpper

/-- The check of `conduct_exam` under which a question is skipped. -/
def questionSkipped (q : Question) : Bool :=
  decide (q.question = []) || decide (q.difficulty < 1) || decide (q.difficulty > 3)

/-- The question `questions[indices[i]]` of iteration `i` of the question
loop. -/
def shownQuestion (questions : List Question) (indices : List Nat) (i : Nat) : Question :=
  questions.getD (indices.getD i 0) zeroQuestion

/-- The question loop `for (i = 0; i < totalQuestions; i++)` of `conduct_exam`,
entered with loop variable `i` and `n` iterations to go. `examTimeUp i` is the
value of the flag at the test that opens iteration `i`, and `input i` what the
student does on the question shown in iteration `i` (within `answerTimeout`
seconds). `none` when `responseTimes` is written outside the array. -/
def examLoop (questions : List Question) (indices : List Nat) (examTimeUp : Nat → Bool)
    (input : Nat → Outcome) : Nat → Nat → ExamState → Option ExamState
  | 0, _, s => some s
  | n + 1, i, s =>
    if examTimeUp i then some s
    else
      let q := shownQuestion questions indices i
      if questionSkipped q then
        examLoop questions indices examTimeUp input n (i + 1)
          { s with wrongCount := s.wrongCount + 1, attempted := s.attempted + 1 }
      else if s.responseTimes.length ≤ i then none
      else
        let o := input i
        let s := { s with totalAnswerTime := s.totalAnswerTime + o.answerTime,
                          responseTimes := s.responseTimes.set i o.answerTime }
        if !o.gotInput then
          examLoop questions indices examTimeUp input n (i + 1)
            { s with wrongCount := s.wrongCount + 1, attempted := s.attempted + 1 }
        else if o.answerBuf.headD NUL = 'e' ∨ o.answerBuf.headD NUL = 'E' then some s
        else
          let userAns := toupper (o.answerBuf.headD NUL)
          if !strchr "ABCD".toList userAns then
            examLoop questions indices examTimeUp input n (i + 1)
              { s with wrongCount := s.wrongCount + 1, attempted := s.attempted + 1 }
          else
            let s := { s with attempted := s.attempted + 1 }
            let s := if o.answerTime < MIN_ANSWER_TIME then { s with isCheating := 1 } else s
            if userAns = q.correct then
              examLoop questions indices examTimeUp input n (i + 1)
                { s with weightedScore := s.weightedScore + diffWeights q.difficulty }
            else
              examLoop questions indices examTimeUp input n (i + 1)
                { s with wrongCount := s.wrongCount + 1 }

/-- The array `indices` of `conduct_exam` after its shuffle loop
`for (i = totalQuestions - 1; i > 0; i--)`. -/
def clientIndices (rand : Nat → Nat) (totalQuestions : Nat) : List Nat :=
  shuffleLoop rand 0 (totalQuestions - 1) 0 (List.range totalQuestions)

/-- The local variables of `conduct_exam` before the question loop. -/
def initialExamState : ExamState :=
  { responseTimes := List.replicate NUM_EXAM_QUESTIONS 0, weightedScore := 0, wrongCount := 0,
    attempted := 0, isCheating := 0, totalAnswerTime := 0 }

/-- The function `conduct_exam` of `client.c`: `questions` is the array of
`totalQuestions` received questions, `rand` the values of `rand()`,
`examTimeUp` and `input` as in `examLoop`, the student answering within
`answerTimeout` seconds per question as `input answerTimeout` tells. The
result is the record handed to `send` and the weighted score; `none` when
`responseTimes` is written outside the array. -/
def conduct_exam (roll name : List Char) (questions : List Question) (answerTimeout : Int)
    (rand : Nat → Nat) (examTimeUp : Nat → Bool) (input : Int → Nat → Outcome) :
    Option (ExamResult × ℚ) :=
  let totalQuestions := questions.length
  let indices := clientIndices rand totalQuestions
  match examLoop questions indices examTimeUp (input answerTimeout) totalQuestions 0
      initialExamState with
  | none => none
  | some s =>
    let isCheating :=
      if s.attempted > 0 ∧ Int.tdiv s.totalAnswerTime s.attempted < MIN_ANSWER_TIME then 1
      else s.isCheating
    let correctCount := s.attempted - s.wrongCount
    some ({ roll := roll, name := name, responseTimes := s.responseTimes,
            totalTime := s.totalAnswerTime, correctAnswers := correctCount,
            totalQuestions := s.attempted, flagged := isCheating }, s.weightedScore)

/-! ## The result record on the wire -/

/-- The value of `sizeof(ExamResult)` in `client.c`: two texts of `MAX_LINE`
bytes, the response times and four more ints of 4 bytes. -/
def sizeofExamResult : Nat := 2 * MAX_LINE + 4 * NUM_EXAM_QUESTIONS + 4 * 4

/-- The ints of an `ExamResult` in the order of their declaration, which
follow the two texts in memory. -/
def ExamResult.ints (r : ExamResult) : List Int :=
  r.responseTimes ++ [r.totalTime, r.correctAnswers, r.totalQuestions, r.flagged]

/-- The ints of a `DashboardStudent` in the order of their declaration, which
follow the two texts in memory. -/
def DashboardStudent.ints (s : DashboardStudent) : List Int :=
  s.responseTimes ++ [s.totalTime, s.correctAnswers, s.totalQuestions, s.rank, s.flagged]

/-- The receive buffer `result` of `handle_client` after
`recv(client_sock, &result, sizeof(DashboardStudent), 0)` has delivered the
`sizeof(ExamResult)` bytes that the client sent: the two texts and the ints
of the client's record overwrite the start of the buffer, and the ints
behind them keep the content `buffer` they had. Both structs hold the texts
at offsets 0 and `MAX_LINE` and their ints, 4 bytes each, from offset
`2 * MAX_LINE` on. -/
def recvResult (sent : ExamResult) (buffer : DashboardStudent) : DashboardStudent :=
  let ints := sent.ints ++ buffer.ints.drop sent.ints.length
  { roll := sent.roll
    name := sent.name
    responseTimes := ints.take NUM_EXAM_QUESTIONS
    totalTime := ints.getD NUM_EXAM_QUESTIONS 0
    correctAnswers := ints.getD (NUM_EXAM_QUESTIONS + 1) 0
    totalQuestions := ints.getD (NUM_EXAM_QUESTIONS + 2) 0
    rank := ints.getD (NUM_EXAM_QUESTIONS + 3) 0
    flagged := ints.getD (NUM_EXAM_QUESTIONS + 4) 0 }

/-! ## The client: the exam part of `main` of `client.c` -/

/-- The value of `answerTimeout` that `main` of `client.c` keeps of the
received one: 30 when the received value is not in 1..3600. -/
def clientAnswerTimeout (answerTimeout : Int) : Int :=
  if answerTimeout ≤ 0 ∨ answerTimeout > 3600 then 30 else answerTimeout

/-- The value of `marksForCorrectAnswer` that `main` of `client.c` keeps of
the received one. -/
def clientMarksForCorrectAnswer (marksForCorrectAnswer : ℚ) : ℚ :=
  if marksForCorrectAnswer ≤ 0 ∨ marksForCorrectAnswer > 100 then 1 else marksForCorrectAnswer

/-- The value of `marksDeductedForWrongAnswer` that `main` of `client.c` keeps
of the received one. -/
def clientMarksDeductedForWrongAnswer (marksDeductedForWrongAnswer : ℚ) : ℚ :=
  if marksDeductedForWrongAnswer < 0 ∨ marksDeductedForWrongAnswer > 100 then 1 / 4
  else marksDeductedForWrongAnswer

/-- The value of `num_questions` that `main` of `client.c` keeps of the
received one: `NUM_EXAM_QUESTIONS` when the received value is not in
1..`NUM_EXAM_QUESTIONS`. -/
def clientNumQuestions (num_questions : Int) : Nat :=
  if num_questions ≤ 0 ∨ num_questions > NUM_EXAM_QUESTIONS then NUM_EXAM_QUESTIONS
  else num_questions.toNat

/-- What `main` of `client.c` does to a received question record: each text
is cut at `MAX_LINE - 1` characters, and the question text is emptied when
the record fails the check of the receive loop. -/
def markReceived (q : Question) : Question :=
  let q := { q with question := q.question.take (MAX_LINE - 1),
                    optionA := q.optionA.take (MAX_LINE - 1),
                    optionB := q.optionB.take (MAX_LINE - 1),
                    optionC := q.optionC.take (MAX_LINE - 1),
                    optionD := q.optionD.take (MAX_LINE - 1) }
  if q.question = [] ∨ strchr "ABCD".toList q.correct = false ∨ q.difficulty < 1 ∨
      q.difficulty > 3 then
    { q with question := [] }
  else q

/-- The receive loop `for (i = 0; i < num_questions; i++)` of `main` of
`client.c`, entered with loop variable `i` and `n` iterations to go;
`received i` is the record that the `recv` of iteration `i` delivers, `none`
when it does not deliver `sizeof(Question)` bytes, on which `main` exits. -/
def receiveQuestions (received : Nat → Option Question) : Nat → Nat → Option (List Question)
  | 0, _ => some []
  | n + 1, i =>
    match received i with
    | none => none
    | some q =>
      match receiveQuestions received n (i + 1) with
      | none => none
      | some qs => some (markReceived q :: qs)

/-- What a run of the client shows and sends: the four values of the rules
summary (number of questions, time per question, marks for a correct answer,
marks deducted for a wrong one), the record handed to `send`, and the
weighted score. -/
structure ExamRun where
  rules : Nat × Int × ℚ × ℚ
  result : ExamResult
  weightedScore : ℚ

/-- The part of `main` of `client.c` from the receipt of the exam
configuration to the call of `conduct_exam`: `answerTimeout`,
`marksForCorrectAnswer`, `marksDeductedForWrongAnswer` and `num_questions`
are the values received, `received` the question records as in
`receiveQuestions`, the other arguments those of `conduct_exam`. `none` when
`main` exits before the exam or `conduct_exam` gives `none`. -/
def client_main (roll name : List Char) (answerTimeout : Int)
    (marksForCorrectAnswer marksDeductedForWrongAnswer : ℚ) (num_questions : Int)
    (received : Nat → Option Question) (rand : Nat → Nat) (examTimeUp : Nat → Bool)
    (input : Int → Nat → Outcome) : Option ExamRun :=
  let answerTimeout := clientAnswerTimeout answerTimeout
  let marksForCorrectAnswer := clientMarksForCorrectAnswer marksForCorrectAnswer
  let marksDeductedForWrongAnswer :=
    clientMarksDeductedForWrongAnswer marksDeductedForWrongAnswer
  let num_questions := clientNumQuestions num_questions
  match receiveQuestions received num_questions 0 with
  | none => none
  | some questions =>
    match conduct_exam roll name questions answerTimeout rand examTimeUp input with
    | none => none
    | some (result, weightedScore) =>
      some { rules := (num_questions, answerTimeout, marksForCorrectAnswer,
                       marksDeductedForWrongAnswer),
             result := result, weightedScore := weightedScore }

/-! ## The seed of the shuffle: `srand(time(NULL))` in `send_exam_data` -/

/-- The function `start_exam` with the seeding of each delivery made
explicit: `send_exam_data` calls `srand(time(NULL))` before its shuffle, so
the values of `rand()` in the delivery to the `i`-th registry entry are
`prng (time i)`, where `prng seed k` is the value of the `k`-th call of
`rand()` after `srand(seed)` and `time i` the value of `time(NULL)` in that
delivery. -/
def start_exam_at (st : Server) (ok : Nat → Bool) (prng : Nat → Nat → Nat) (time : Nat → Nat) :
    Server × List SendEvent :=
  start_exam st ok (fun i => prng (time i))

/-! ## The standalone program `project.c`: `append_result` and `loadDashboardData` -/

namespace Project

/-- The conversion `%.2f` of `fprintf` for a value of which the second
decimal is the last one, as the weighted score, a sum of the weights 1, 1.5
and 2: the sign, the integer part, a point and two decimals (other values
are rounded to the nearest hundredth). -/
def fmt_2f (x : ℚ) : List Char :=
  let hundredths := (x.num.natAbs * 200 + x.den) / (2 * x.den)
  (if x.num < 0 then ['-'] else []) ++ natDigits (hundredths / 100 + 1) (hundredths / 100) ++
    ['.', digitChar (hundredths / 10 % 10), digitChar (hundredths % 10)]

/-- The loop `for (i = 0; i < attempted; i++) fprintf(fp, "%d,", responseTimes[i])`
of `append_result` of `project.c`, entered with loop variable `i` and `n`
iterations to go; `none` when `responseTimes` is read outside the array. -/
def writeTimes (responseTimes : List Int) : Nat → Nat → List Char → Option (List Char)
  | 0, _, out => some out
  | n + 1, i, out =>
    match responseTimes[i]? with
    | none => none
    | some t => writeTimes responseTimes n (i + 1) (out ++ fmt_d t ++ [','])

/-- The function `append_result` of `project.c` on the content `log` of the
result file: when `fopen` fails nothing is written; otherwise the seven
fields of the format `"%s|%s|%.2f|%d|%d|%d|%d|"` (roll, name, score, wrong,
attempted, isCheating, totalTime), the response times and a line terminator
are written at the end of the file. -/
def append_result (fopenOk : Bool) (log : List Char) (name roll : List Char) (score : ℚ)
    (wrong attempted isCheating : Int) (responseTimes : List Int) (totalTime : Int) :
    Option (List Char) :=
  if !fopenOk then some log
  else
    let out := log ++ roll ++ ['|'] ++ name ++ ['|'] ++ fmt_2f score ++ ['|'] ++ fmt_d wrong ++
      ['|'] ++ fmt_d attempted ++ ['|'] ++ fmt_d isCheating ++ ['|'] ++ fmt_d totalTime ++ ['|']
    match writeTimes responseTimes attempted.toNat 0 out with
    | none => none
    | some out => some (out ++ [NL])

/-- The body of the reading loop of `loadDashboardData` of `project.c` for
one line: roll and name are copied with `strcpy`, four numbers are read, and
the response times are read from the tokens of `strtok(token, ",")`, a new
scan of the token of the total time; `none` when a token is missing. -/
def parseResultLine (line : List Char) (s : DashboardStudent) : Option DashboardStudent := do
  let (token, p) ← strtok ['|'] line
  let s := { s with roll := token }
  let (token, p) ← strtok ['|'] p
  let s := { s with name := token }
  let (token, p) ← strtok ['|'] p
  let s := { s with correctAnswers := atoi token }
  let (token, p) ← strtok ['|'] p
  let s := { s with totalQuestions := atoi token }
  let (token, p) ← strtok ['|'] p
  let s := { s with flagged := atoi token }
  let (token, _) ← strtok ['|'] p
  let s := { s with totalTime := atoi token }
  some { s with responseTimes := readTimes NUM_EXAM_QUESTIONS (strtok [','] token) 0 s.responseTimes }

/-- The loop `while (fgets(line, sizeof(line), file) && studentCount < MAX_STUDENTS)`
of `loadDashboardData` of `project.c`; `fuel` bounds the number of iterations
(each consumes at least one character). -/
def loadLoop : Nat → List Char → List DashboardStudent → Nat →
    Option (List DashboardStudent × Nat)
  | 0, _, _, _ => none
  | fuel + 1, file, dashboardStudents, studentCount =>
    match fgets MAX_LINE file with
    | none => some (dashboardStudents, studentCount)
    | some (line, rest) =>
      if studentCount < MAX_STUDENTS then
        match dashboardStudents[studentCount]? with
        | none => none
        | some s =>
          match parseResultLine line s with
          | none => none
          | some s1 => loadLoop fuel rest (dashboardStudents.set studentCount s1) (studentCount + 1)
      else some (dashboardStudents, studentCount)

/-- The function `loadDashboardData` of `project.c`: `file` is the content of
the result file, or `none` when `fopen` fails; the result is the array
`dashboardStudents` and `studentCount`, or `none` when a line lacks a field. -/
def loadDashboardData (file : Option (List Char)) (dashboardStudents : List DashboardStudent)
    (studentCount : Nat) : Option (List DashboardStudent × Nat) :=
  match file with
  | none => some (dashboardStudents, studentCount)
  | some content => loadLoop (content.length + 1) content dashboardStudents 0

end Project

/-! ## Loading the question store: `load_questions` -/

/-- The function `read_nonempty_line` of `server.c`, called with `MAX_LINE`,
on the rest `fp` of the stream: each line that `fgets` reads is cut at its
line terminator (or at a NUL) and loses its leading white space, and the
first one of which something is left is returned with the rest of the
stream. `some none` stands for the return value 0 at the end of the file;
`fuel` bounds the number of lines read, and the outer `none` says that it
ran out (it does not when `fuel` exceeds the length of `fp`). -/
def read_nonempty_line : Nat → List Char → Option (Option (List Char × List Char))
  | 0, _ => none
  | fuel + 1, fp =>
    match fgets MAX_LINE fp with
    | none => some none
    | some (buffer, rest) =>
      let start :=
        (buffer.takeWhile (fun c => decide (c ≠ NL) && decide (c ≠ NUL))).dropWhile isspace
      if start ≠ [] then some (some (start, rest)) else read_nonempty_line fuel rest

/-- The calls of `read_nonempty_line` of one iteration of the loop of
`load_questions`, `n` of the seven still to make: the lines read, in order,
with the rest of the stream, or `some none` when one of the calls returns 0
(each call is followed by the same `break`). -/
def readFields : Nat → List Char → Option (Option (List (List Char) × List Char))
  | 0, fp => some (some ([], fp))
  | n + 1, fp =>
    match read_nonempty_line (fp.length + 1) fp with
    | none => none
    | some none => some none
    | some (some (line, rest)) =>
      match readFields n rest with
      | none => none
      | some none => some none
      | some (some (lines, rest1)) => some (some (line :: lines, rest1))

/-- The record `q` that an iteration of the loop of `load_questions` builds
from its seven lines: five texts copied with `strncpy`, the correct tag
`toupper(line[0])` and the difficulty `atoi(line)`. -/
def questionOfLines (lines : List (List Char)) : Question :=
  { question := (lines.getD 0 []).take (MAX_LINE - 1)
    optionA := (lines.getD 1 []).take (MAX_LINE - 1)
    optionB := (lines.getD 2 []).take (MAX_LINE - 1)
    optionC := (lines.getD 3 []).take (MAX_LINE - 1)
    optionD := (lines.getD 4 []).take (MAX_LINE - 1)
    correct := toupper ((lines.getD 5 []).headD NUL)
    difficulty := atoi (lines.getD 6 []) }

/-- The condition of the `if` in the loop of `load_questions` (server.c line
293), under which the record is skipped. -/
def loadInvalid (q : Question) : Bool :=
  decide (q.question = []) || decide (q.optionA = []) || decide (q.optionB = []) ||
    decide (q.optionC = []) || decide (q.optionD = []) || !strchr "ABCD".toList q.correct ||
    decide (q.difficulty < 1) || decide (q.difficulty > 3)

/-- The loop `while (qIndex < MAX_QUESTIONS)` of `load_questions` on the rest
`fp` of the stream; `questions` holds the `qIndex` records stored so far.
`fuel` bounds the number of iterations (each consumes at least one
character), and `none` says that it ran out. -/
def loadQuestionsLoop : Nat → List Char → List Question → Option (List Question)
  | 0, _, _ => none
  | fuel + 1, fp, questions =>
    if questions.length < MAX_QUESTIONS then
      match readFields 7 fp with
      | none => none
      | some none => some questions
      | some (some (lines, rest)) =>
        let q := questionOfLines lines
        if loadInvalid q then loadQuestionsLoop fuel rest questions
        else loadQuestionsLoop fuel rest (questions ++ [q])
    else some questions

/-- The loop
`while (totalQuestions < NUM_EXAM_QUESTIONS && totalQuestions < MAX_QUESTIONS)`
of `load_questions` that appends `default_q`, with `n` bounding the number
of iterations. -/
def padQuestions : Nat → List Question → List Question
  | 0, questions => questions
  | n + 1, questions =>
    if questions.length < NUM_EXAM_QUESTIONS ∧ questions.length < MAX_QUESTIONS then
      padQuestions n (questions ++ [default_q])
    else questions

/-- The text that `load_questions` writes to a question file that it has to
create. -/
def defaultQuestionFile : List Char :=
  "What is the default question?\nOption A\nOption B\nOption C\nOption D\nA\n1\n".toList

/-- The function `load_questions` of `server.c`: `file` is the content of the
question file, or `none` when it cannot be opened and is created with
`defaultQuestionFile`; the result is the question store, the first
`totalQuestions` records of the array `questions`. `none` only when a loop
runs out of fuel. -/
def load_questions (file : Option (List Char)) : Option (List Question) :=
  let content := match file with
    | none => defaultQuestionFile
    | some content => content
  match loadQuestionsLoop (content.length + 1) content [] with
  | none => none
  | some questions => some (padQuestions NUM_EXAM_QUESTIONS questions)

/-! ## Definitions used to state and prove the properties -/

/-- One pass of the inner loop of `rankStudents` in list form: `x` is the
record carried along, exchanged with the next one when it has fewer correct
answers. -/
def bubbleFrom (x : DashboardStudent) : List DashboardStudent → List DashboardStudent
  | [] => [x]
  | y :: t =>
    if x.correctAnswers < y.correctAnswers then y :: bubbleFrom x t else x :: bubbleFrom y t

/-- The records of a list with ranks `i + 1`, `i + 2`, ... written to them. -/
def withRanks : Nat → List DashboardStudent → List DashboardStudent
  | _, [] => []
  | i, s :: l => { s with rank := (i : Int) + 1 } :: withRanks (i + 1) l

/-- The order in which `rankStudents` leaves two records: first the one with
at least as many correct answers. -/
def rankedBefore (u v : DashboardStudent) : Prop := v.correctAnswers ≤ u.correctAnswers

/-- The messages one client is to receive from `start_exam`. -/
def examMessages (st : Server) (rand : Nat → Nat) : List Msg :=
  [Msg.bytes startMarker, Msg.int (validAnswerTimeout st),
    Msg.float (validMarksForCorrectAnswer st),
    Msg.float (validMarksDeductedForWrongAnswer st),
    Msg.int (min NUM_EXAM_QUESTIONS st.totalQuestions : Nat)] ++
  (selectedIndices rand st.totalQuestions).map
    (fun idx => Msg.question (deliveredRecord st.questions idx))

/-- The successful `send` calls that write `examMessages` to each registry
entry in turn, the entries numbered from `i`. -/
def expectedTrace (st : Server) (rands : Nat → Nat → Nat) : List Client → Nat → List SendEvent
  | [], _ => []
  | c :: cs, i =>
    (examMessages st (rands i)).map (fun m => { sock := c.sock, msg := m, ok := true }) ++
      expectedTrace st rands cs (i + 1)

/-- The fields that reloading a line of the log recovers from the appended
record `r`: all fields but rank, and the first `totalQuestions` response
times. -/
def reloadedFrom (r s : DashboardStudent) : Prop :=
  s.roll = r.roll ∧ s.name = r.name ∧ s.correctAnswers = r.correctAnswers ∧
    s.totalQuestions = r.totalQuestions ∧ s.flagged = r.flagged ∧ s.totalTime = r.totalTime ∧
    s.responseTimes.take r.totalQuestions.toNat = r.responseTimes.take r.totalQuestions.toNat

/-- The condition on an appended record under which its line can be read
back: roll and name are non-empty and free of the field delimiter and of the
line terminator, `totalQuestions` is between 0 and `NUM_EXAM_QUESTIONS`, the
response-time array has its `NUM_EXAM_QUESTIONS` entries, and the line with
its terminator fits the buffer of `fgets`. -/
def reloadable (r : DashboardStudent) : Prop :=
  r.roll ≠ [] ∧ r.name ≠ [] ∧ (∀ c ∈ r.roll, c ≠ '|' ∧ c ≠ NL) ∧ (∀ c ∈ r.name, c ≠ '|' ∧ c ≠ NL) ∧
    0 ≤ r.totalQuestions ∧ r.totalQuestions ≤ NUM_EXAM_QUESTIONS ∧
    r.responseTimes.length = NUM_EXAM_QUESTIONS ∧ (resultLine r).length ≤ MAX_LINE - 1

instance (r : DashboardStudent) : Decidable (reloadable r) := by
  unfold reloadable; infer_instance

/-- The record that the flag pass is to leave for the record `s`: the flag is
set to 1 when one of the first `totalQuestions` response times is below 2,
and nothing else changes. -/
def flaggedRecord (s : DashboardStudent) : DashboardStudent :=
  { s with
    flagged :=
      if (s.responseTimes.take s.totalQuestions.toNat).any (fun t => decide (t < 2)) then 1
      else s.flagged }

/-- The calls of `send` made when the messages of a list are sent to `sock`
one after the other, each call made only if the one before sent its whole
buffer; `k` is the number of calls made before. -/
def sendEvents (ok : Nat → Bool) (sock : Int) : List Msg → Nat → List SendEvent
  | [], _ => []
  | m :: ms, k =>
    { sock := sock, msg := m, ok := ok k } ::
      (if ok k then sendEvents ok sock ms (k + 1) else [])

/-- The calls of `send` that `start_exam` makes for the registry entries of a
list, numbered from `i`, after `k` earlier calls: for each entry the messages
of `examMessages`, up to the first failing call. -/
def traceFrom (st : Server) (ok : Nat → Bool) (rands : Nat → Nat → Nat) :
    List Client → Nat → Nat → List SendEvent
  | [], _, _ => []
  | c :: cs, i, k =>
    sendEvents ok c.sock (examMessages st (rands i)) k ++
      traceFrom st ok rands cs (i + 1) (k + (sendEvents ok c.sock (examMessages st (rands i)) k).length)

/-- The kinds of outcome of a question shown to the student: no answer in
time, the exit letter, an answer that is no option letter, or an option
letter (in upper case). -/
inductive Answer where
  | timeout
  | exit
  | invalid
  | letter (c : Char)
deriving DecidableEq, Repr

/-- The kind of an outcome, as `conduct_exam` tells them apart. -/
def classify (o : Outcome) : Answer :=
  if !o.gotInput then Answer.timeout
  else if o.answerBuf.headD NUL = 'e' ∨ o.answerBuf.headD NUL = 'E' then Answer.exit
  else if !strchr "ABCD".toList (toupper (o.answerBuf.headD NUL)) then Answer.invalid
  else Answer.letter (toupper (o.answerBuf.headD NUL))

/-- Iteration `i` ends the exam: the overall time is up, or the question is
shown and the student answers with the exit letter. -/
def endsExam (questions : List Question) (indices : List Nat) (examTimeUp : Nat → Bool)
    (input : Nat → Outcome) (i : Nat) : Bool :=
  examTimeUp i ||
    (!questionSkipped (shownQuestion questions indices i) &&
      decide (classify (input i) = Answer.exit))

/-- The iterations of the question loop that are run to their end: those
before the first one that ends the exam. -/
def iterationsRun (questions : List Question) (indices : List Nat) (examTimeUp : Nat → Bool)
    (input : Nat → Outcome) : List Nat :=
  (List.range questions.length).takeWhile
    (fun i => !endsExam questions indices examTimeUp input i)

/-- The points of iteration `i`: the difficulty weight of the question when
it is shown and answered with the letter equal to its correct tag, and
nothing otherwise. -/
def pointsEarned (questions : List Question) (indices : List Nat) (input : Nat → Outcome)
    (i : Nat) : ℚ :=
  if questionSkipped (shownQuestion questions indices i) = false ∧
      classify (input i) = Answer.letter (shownQuestion questions indices i).correct then
    diffWeights (shownQuestion questions indices i).difficulty
  else 0

/-- Iteration `i` of the question loop counts as a correct answer: the
question is shown and answered with the letter equal to its correct tag. -/
def answeredCorrectly (questions : List Question) (indices : List Nat) (input : Nat → Outcome)
    (i : Nat) : Bool :=
  !questionSkipped (shownQuestion questions indices i) &&
    decide (classify (input i) = Answer.letter (shownQuestion questions indices i).correct)

/-- The iterations run to their end among `n` iterations from loop variable
`i` on. -/
def iterationsFrom (questions : List Question) (indices : List Nat) (examTimeUp : Nat → Bool)
    (input : Nat → Outcome) (i n : Nat) : List Nat :=
  (List.range' i n).takeWhile (fun i => !endsExam questions indices examTimeUp input i)

/-! ## Sample data -/

/-- A server with two stored questions and two registered clients. -/
def demoServer : Server :=
  { answerTimeout := 30, marksForCorrectAnswer := 1, marksDeductedForWrongAnswer := 1 / 4,
    examStarted := 0,
    questions := [default_q, { default_q with question := "2 + 2 = ?".toList, correct := 'B' }],
    clients := [{ sock := 7, roll := "r1".toList }, { sock := 8, roll := "r2".toList }] }

/-- A stored record whose option A is empty. -/
def emptyOptionQuestion : Question := { default_q with optionA := [] }

/-- A server whose question store holds the record with the empty option and
four default records. -/
def emptyOptionServer : Server :=
  { demoServer with
    questions := [emptyOptionQuestion, default_q, default_q, default_q, default_q] }

/-- The draws of five calls of `rand()` in the order of the calls: `a` at loop
step 6, then `b`, `c`, `d`, `e` at the steps 5, 4, 3, 2. -/
def drawsOf (a b c d e : Nat) : Nat → Nat := fun k => [a, b, c, d, e].getD k 0

/-- A result record: three questions attempted, one answered correctly. -/
def demoResult : DashboardStudent :=
  { roll := "r1".toList, name := "Al".toList, responseTimes := [10, 30, 8, 0, 0], totalTime := 48,
    correctAnswers := 1, totalQuestions := 3, rank := 0, flagged := 0 }

/-- A second result record, with more correct answers. -/
def demoResult2 : DashboardStudent :=
  { roll := "r2".toList, name := "Bo".toList, responseTimes := [9, 9, 9, 9, 9], totalTime := 45,
    correctAnswers := 3, totalQuestions := 5, rank := 0, flagged := 0 }

/-- Two result records in the order in which they were appended. -/
def demoDashboard : List DashboardStudent := [demoResult, demoResult2]

/-- An all-zero `DashboardStudent`, a slot of the zero-initialised global array. -/
def zeroStudent : DashboardStudent :=
  { roll := [], name := [], responseTimes := List.replicate NUM_EXAM_QUESTIONS 0, totalTime := 0,
    correctAnswers := 0, totalQuestions := 0, rank := 0, flagged := 0 }

/-- The global array `dashboardStudents` before anything was loaded. -/
def emptyDashboard : List DashboardStudent := List.replicate MAX_STUDENTS zeroStudent

/-- A registry in which two entries have the same socket. -/
def duplicateRegistry : List Client :=
  [{ sock := 7, roll := "r1".toList }, { sock := 7, roll := "r2".toList }]

/-- A student details file with one entry. -/
def demoDirectory : Option (List StudentEntry) :=
  some [{ fileName := "Al".toList, fileRoll := "r1".toList, fileRegNo := "reg1".toList,
          filePass := "pw".toList }]

/-- A state of the server in which the exam has started, one client being
registered. -/
def startedSystem : System :=
  { initialSystem with
    server := { answerTimeout := 30, marksForCorrectAnswer := 1,
                marksDeductedForWrongAnswer := 0, examStarted := 1, questions := [default_q],
                clients := [{ sock := 7, roll := "r1".toList }] } }

/-- Operations after the start of the exam: a new time limit, a question
edit, a late login with a wrong password, and the end of the session on
socket 7 by a disconnect. -/
def laterOps : List Op :=
  [Op.setTimeLimit 10, Op.addQuestion [],
    Op.login demoDirectory (fun _ => true) 9 5 "r1|no".toList [] [], Op.finish 7 0 zeroStudent true]

/-- Three questions of difficulty 1, 2 and 3 with correct tags A, B and C. -/
def sampleQuestions : List Question :=
  [{ default_q with question := "Q1".toList, correct := 'A', difficulty := 1 },
   { default_q with question := "Q2".toList, correct := 'B', difficulty := 2 },
   { default_q with question := "Q3".toList, correct := 'C', difficulty := 3 }]

/-- Values of `rand()` under which the shuffle of `conduct_exam` leaves three
questions in their order. -/
def identityDraws : Nat → Nat := fun k => [2, 1].getD k 0

/-- The student answers the first question with `a` after 10 seconds, lets the
second run into the time limit, and answers the third with `D` after 8
seconds. -/
def sampleInput : Int → Nat → Outcome := fun answerTimeout i =>
  [{ gotInput := true, answerTime := 10, answerBuf := ['a'] },
   { gotInput := false, answerTime := answerTimeout, answerBuf := [] },
   { gotInput := true, answerTime := 8, answerBuf := ['D'] }].getD i
    { gotInput := false, answerTime := answerTimeout, answerBuf := [] }

/-- The student answers every question with `A` after one second. -/
def fastInput : Int → Nat → Outcome := fun _ _ =>
  { gotInput := true, answerTime := 1, answerBuf := ['A'] }

/-- The record that `conduct_exam` sends for `fastInput` on the default
question. -/
def fastResult : ExamResult :=
  { roll := "r1".toList, name := "Al".toList, responseTimes := [1, 0, 0, 0, 0], totalTime := 1,
    correctAnswers := 1, totalQuestions := 1, flagged := 1 }

/-- As `sampleInput`, but the wait for the second answer, which runs into the
time limit, is measured as one second more than the limit. -/
def lateInput : Int → Nat → Outcome := fun answerTimeout i =>
  [{ gotInput := true, answerTime := 10, answerBuf := ['a'] },
   { gotInput := false, answerTime := answerTimeout + 1, answerBuf := [] },
   { gotInput := true, answerTime := 8, answerBuf := ['D'] }].getD i
    { gotInput := false, answerTime := answerTimeout + 1, answerBuf := [] }

/-- The student answers the first question with `x` after one second, the
second with `B` after 30 seconds and the third with `C` after 14 seconds. -/
def fastInvalidInput : Int → Nat → Outcome := fun _ i =>
  [{ gotInput := true, answerTime := 1, answerBuf := ['x'] },
   { gotInput := true, answerTime := 30, answerBuf := ['B'] },
   { gotInput := true, answerTime := 14, answerBuf := ['C'] }].getD i
    { gotInput := false, answerTime := 0, answerBuf := [] }

/-- The record that `conduct_exam` sends for `fastInvalidInput` on
`sampleQuestions`. -/
def fastInvalidResult : ExamResult :=
  { roll := "r1".toList, name := "Al".toList, responseTimes := [1, 30, 14, 0, 0],
    totalTime := 45, correctAnswers := 2, totalQuestions := 3, flagged := 0 }

/-- A received record with `totalQuestions` 6, one more than the capacity of
its response-time array. -/
def overlongResult : DashboardStudent :=
  { roll := "r1".toList, name := "Al".toList, responseTimes := [10, 30, 8, 9, 9], totalTime := 66,
    correctAnswers := 1, totalQuestions := 6, rank := 0, flagged := 0 }

/-- A line of the result log with attempted count 6 and six response times. -/
def overlongLine : List Char := "r1|Al|1|6|0|66|10,30,8,9,9,7,\n".toList

/-- A generator whose `k`-th value after seeding with `seed` is `seed + k`. -/
def demoGenerator : Nat → Nat → Nat := fun seed k => seed + k

/-- A question file of two groups of seven lines, with blank lines between
them: the first group has difficulty 7, the second is well-formed. -/
def sampleQuestionFile : List Char :=
  "Bad?\nw\nx\ny\nz\nA\n7\n\n   \n  2 + 2 = ?\n3\n4\n5\n6\nb\n2\n".toList

/-! ## Question selection: the shuffle of `send_exam_data` -/

theorem swapIndices_perm (l : List Nat) (i j : Nat) (hi : i < l.length) (hj : j < l.length) :
    (swapIndices l i j).Perm l := by
  unfold swapIndices
  rw [List.perm_iff_count]
  intro a
  simp only [List.getD_eq_getElem _ _ hi, List.getD_eq_getElem _ _ hj]
  have hj' : j < (l.set i l[j]).length := by simpa using hj
  rw [List.count_set _ _ _ _ hj', List.count_set _ _ _ _ hi]
  have h1 : l[i] = a → 0 < l.count a := fun h => List.count_pos_iff.mpr (h ▸ List.getElem_mem hi)
  have h2 : l[j] = a → 0 < l.count a := fun h => List.count_pos_iff.mpr (h ▸ List.getElem_mem hj)
  simp only [List.getElem_set, beq_iff_eq]
  by_cases hij : i = j
  · subst hij
    simp only [if_true]
    split <;> rename_i h <;> simp_all
  · simp only [if_neg hij]
    by_cases ha : l[i] = a <;> by_cases hb : l[j] = a <;> simp_all

theorem shuffleLoop_perm (rand : Nat → Nat) (lo : Nat) :
    ∀ (i k : Nat) (l : List Nat), i < l.length → (shuffleLoop rand lo i k l).Perm l
  | 0, _, _, _ => by simp [shuffleLoop]
  | i + 1, k, l, h => by
    unfold shuffleLoop
    split
    · have hj : rand k % (i + 1 + 1) < l.length :=
        lt_of_lt_of_le (Nat.mod_lt _ (by omega)) (by omega)
      have hp := swapIndices_perm l (i + 1) (rand k % (i + 1 + 1)) h hj
      exact (shuffleLoop_perm rand lo i (k + 1) _ (by rw [hp.length_eq]; omega)).trans hp
    · exact List.Perm.refl _

theorem shuffledIndices_perm (rand : Nat → Nat) (T : Nat) :
    (shuffledIndices rand T).Perm (List.range T) := by
  unfold shuffledIndices
  rcases Nat.eq_zero_or_pos T with h | h
  · subst h; simp [shuffleLoop]
  · exact shuffleLoop_perm rand _ _ _ _ (by simp; omega)

theorem map_getD_range_eq_take (l : List Nat) (n : Nat) (h : n ≤ l.length) :
    (List.range n).map (fun i => l.getD i 0) = l.take n := by
  apply List.ext_getElem?
  intro i
  by_cases hi : i < n
  · rw [List.getElem?_take_of_lt hi, List.getElem?_map, List.getElem?_range hi]
    rw [List.getElem?_eq_getElem (show i < l.length by omega)]
    simp [List.getElem?_eq_getElem (show i < l.length by omega)]
  · rw [List.getElem?_take_eq_none (by omega), List.getElem?_eq_none (by simp; omega)]

theorem numQuestions_eq_min (T : Nat) : numQuestions T = min NUM_EXAM_QUESTIONS T := by
  unfold numQuestions
  split <;> omega

theorem numQuestions_le (T : Nat) : numQuestions T ≤ T := by
  rw [numQuestions_eq_min]; exact Nat.min_le_right _ _

set_option maxRecDepth 1000000 in
theorem selection_never_swapped : ∀ a : Fin 7, ∀ b : Fin 6, ∀ c : Fin 5, ∀ d : Fin 4, ∀ e : Fin 3,
    selectedIndices (drawsOf a b c d e) 7 ≠ [1, 0, 2, 3, 4] := by decide

theorem selectedIndices_seven (rand : Nat → Nat) : selectedIndices rand 7 =
    selectedIndices (drawsOf (rand 0 % 7) (rand 1 % 6) (rand 2 % 5) (rand 3 % 4) (rand 4 % 3)) 7 := by
  simp [selectedIndices, shuffledIndices, shuffleLoop, numQuestions, NUM_EXAM_QUESTIONS, drawsOf]

/-! ## Delivery: `send_exam_data` and `start_exam` when every send succeeds -/

theorem sendQuestions_all_ok (ok : Nat → Bool) (hok : ∀ k, ok k = true) (qs : List Question)
    (idx : List Nat) (sock : Int) :
    ∀ (n i : Nat) (tr : List SendEvent),
      sendQuestions ok qs idx sock n i tr =
        tr ++ (List.range' i n).map (fun p =>
          { sock := sock, msg := Msg.question (deliveredRecord qs (idx.getD p 0)), ok := true })
  | 0, _, tr => by simp [sendQuestions]
  | n + 1, i, tr => by
    rw [sendQuestions]
    simp only [send, hok, if_true]
    rw [sendQuestions_all_ok ok hok qs idx sock n (i + 1)]
    simp [List.range'_succ]

theorem selectedIndices_map (rand : Nat → Nat) (T : Nat) (f : Nat → SendEvent) :
    (List.range' 0 (numQuestions T)).map (fun p => f ((shuffledIndices rand T).getD p 0)) =
      (selectedIndices rand T).map f := by
  simp [selectedIndices, List.range_eq_range', Function.comp_def]

theorem send_exam_data_all_ok (st : Server) (ok : Nat → Bool) (hok : ∀ k, ok k = true)
    (rand : Nat → Nat) (tr : List SendEvent) (sock : Int) :
    send_exam_data st ok rand tr sock =
      tr ++ ((examMessages st rand).drop 1).map (fun m => { sock := sock, msg := m, ok := true }) := by
  unfold send_exam_data
  simp only [send, hok, Bool.not_true, Bool.false_eq_true, if_false]
  rw [sendQuestions_all_ok ok hok]
  rw [selectedIndices_map rand st.totalQuestions
    (fun idx => { sock := sock, msg := Msg.question (deliveredRecord st.questions idx), ok := true })]
  simp [examMessages, numQuestions_eq_min]

theorem examMessages_flag (st : Server) (rand : Nat → Nat) :
    examMessages { st with examStarted := 1 } rand = examMessages st rand := rfl

theorem startLoop_all_ok (st : Server) (ok : Nat → Bool) (hok : ∀ k, ok k = true)
    (rands : Nat → Nat → Nat) :
    ∀ (cs : List Client) (i : Nat) (tr : List SendEvent),
      startLoop st ok rands cs i tr = tr ++ expectedTrace st rands cs i
  | [], _, tr => by simp [startLoop, expectedTrace]
  | c :: cs, i, tr => by
    rw [startLoop]
    simp only [send, hok, if_true]
    rw [send_exam_data_all_ok st ok hok, startLoop_all_ok st ok hok rands cs (i + 1)]
    simp [expectedTrace, examMessages]

theorem messagesTo_append (sock : Int) (a b : List SendEvent) :
    messagesTo sock (a ++ b) = messagesTo sock a ++ messagesTo sock b := by
  simp [messagesTo]

theorem messagesTo_block (sock s : Int) (ms : List Msg) :
    messagesTo sock (ms.map (fun m => { sock := s, msg := m, ok := true })) =
      if s = sock then ms else [] := by
  unfold messagesTo
  split
  · rename_i h
    subst h
    induction ms with
    | nil => rfl
    | cons m ms ih => simpa using ih
  · rename_i h
    induction ms with
    | nil => rfl
    | cons m ms ih => simp [h]

theorem messagesTo_expectedTrace (st : Server) (rands : Nat → Nat → Nat) :
    ∀ (cs : List Client) (k i : Nat) (hi : i < cs.length),
      (∀ (j : Nat) (hj : j < cs.length), cs[j].sock = cs[i].sock → j = i) →
      messagesTo cs[i].sock (expectedTrace st rands cs k) = examMessages st (rands (k + i))
  | [], _, i, hi, _ => by simp at hi
  | c :: cs, k, 0, _, huniq => by
    simp only [expectedTrace, messagesTo_append, messagesTo_block, List.getElem_cons_zero,
      if_true, Nat.add_zero]
    suffices h : ∀ (l : List Client) (m : Nat), (∀ x ∈ l, x.sock ≠ c.sock) →
        messagesTo c.sock (expectedTrace st rands l m) = [] by
      rw [h cs (k + 1)]
      · simp
      · intro x hx hsock
        obtain ⟨j, hj, rfl⟩ := List.getElem_of_mem hx
        have h0 : j + 1 = 0 := huniq (j + 1) (by simpa using hj) (by simpa using hsock)
        omega
    intro l
    induction l with
    | nil => intro m _; rfl
    | cons x l ih =>
      intro m hne
      simp only [expectedTrace, messagesTo_append, messagesTo_block]
      rw [if_neg (hne x (List.mem_cons_self _ _)), ih (m + 1) (fun y hy => hne y (List.mem_cons_of_mem _ hy))]
      rfl
  | c :: cs, k, i + 1, hi, huniq => by
    have hi' : i < cs.length := by simpa using hi
    have hc : c.sock ≠ cs[i].sock := by
      intro h
      have h0 : 0 = i + 1 := huniq 0 (by simp) (by simpa using h)
      omega
    simp only [expectedTrace, messagesTo_append, messagesTo_block, List.getElem_cons_succ,
      if_neg hc, List.nil_append]
    rw [messagesTo_expectedTrace st rands cs (k + 1) i hi']
    · rw [show k + 1 + i = k + (i + 1) by omega]
    · intro j hj h
      have h0 : j + 1 = i + 1 := huniq (j + 1) (by simpa using hj) (by simpa using h)
      omega

theorem start_exam_trace (st : Server) (ok : Nat → Bool) (rands : Nat → Nat → Nat)
    (hok : ∀ k, ok k = true) :
    (start_exam st ok rands).2 = expectedTrace st rands st.clients 0 := by
  unfold start_exam
  split
  · rename_i h
    have : st.clients = [] := List.length_eq_zero.mp h
    simp [this, expectedTrace]
  · simp only [startLoop_all_ok _ ok hok, List.nil_append]
    suffices h : ∀ (cs : List Client) (k : Nat),
        expectedTrace { st with examStarted := 1 } rands cs k = expectedTrace st rands cs k from h _ _
    intro cs
    induction cs with
    | nil => intro k; rfl
    | cons c cs ih => intro k; simp only [expectedTrace, ih, examMessages_flag]

/-! ## Decimal conversion -/

theorem digitChar_spec (d : Nat) (h : d < 10) :
    isdigit (digitChar d) = true ∧ (digitChar d).toNat - 48 = d ∧ isspace (digitChar d) = false ∧
      digitChar d ≠ '-' ∧ digitChar d ≠ '+' ∧ digitChar d ≠ '|' ∧ digitChar d ≠ ',' ∧
      digitChar d ≠ NL := by
  interval_cases d <;> decide

theorem natDigits_digits : ∀ (fuel n : Nat), ∀ c ∈ natDigits fuel n, ∃ d, d < 10 ∧ c = digitChar d
  | 0, _ => by simp [natDigits]
  | fuel + 1, n => by
    intro c hc
    unfold natDigits at hc
    split at hc
    · rename_i h
      exact ⟨n, h, by simpa using hc⟩
    · rcases List.mem_append.mp hc with hc | hc
      · exact natDigits_digits fuel (n / 10) c hc
      · exact ⟨n % 10, Nat.mod_lt _ (by omega), by simpa using hc⟩

theorem natDigits_ne_nil : ∀ (fuel n : Nat), natDigits (fuel + 1) n ≠ []
  | fuel, n => by
    unfold natDigits
    split <;> simp

theorem digitsValue_natDigits : ∀ (fuel n acc : Nat) (rest : List Char), n < fuel →
    digitsValue acc (natDigits fuel n ++ rest) =
      digitsValue (acc * 10 ^ (natDigits fuel n).length + n) rest
  | 0, _, _, _, h => by omega
  | fuel + 1, n, acc, rest, h => by
    unfold natDigits
    split
    · rename_i hn
      obtain ⟨h1, h2, -⟩ := digitChar_spec n hn
      simp [digitsValue, h1, h2]
    · rename_i hn
      have hlt : n / 10 < fuel := by omega
      obtain ⟨h1, h2, -⟩ := digitChar_spec (n % 10) (Nat.mod_lt _ (by omega))
      rw [List.append_assoc, digitsValue_natDigits fuel (n / 10) acc _ hlt]
      simp only [List.singleton_append, digitsValue, h1, if_true, h2, List.length_append,
        List.length_singleton]
      congr 1
      rw [Nat.pow_succ]
      have := Nat.div_add_mod n 10
      nlinarith [Nat.div_add_mod n 10]

theorem digitsValue_natDigits_self (n : Nat) : digitsValue 0 (natDigits (n + 1) n) = n := by
  have h := digitsValue_natDigits (n + 1) n 0 [] (Nat.lt_succ_self n)
  simpa [digitsValue] using h

theorem atoi_of_digits (ds : List Char) (hne : ds ≠ [])
    (h : ∀ c ∈ ds, ∃ d, d < 10 ∧ c = digitChar d) : atoi ds = (digitsValue 0 ds : Int) := by
  match ds, hne with
  | c :: cs, _ =>
    obtain ⟨d, hd, rfl⟩ := h c (List.mem_cons_self _ _)
    obtain ⟨-, -, h3, h4, h5, -⟩ := digitChar_spec d hd
    unfold atoi
    rw [List.dropWhile_cons_of_neg (by simp [h3])]
    split
    · rename_i heq
      exact absurd (List.cons.inj heq).1 h4
    · rename_i heq
      exact absurd (List.cons.inj heq).1 h5
    · rfl

theorem atoi_fmt_d (v : Int) : atoi (fmt_d v) = v := by
  cases v with
  | ofNat n =>
    unfold fmt_d
    rw [atoi_of_digits _ (natDigits_ne_nil n n) (natDigits_digits _ _), digitsValue_natDigits_self]
    rfl
  | negSucc n =>
    unfold fmt_d atoi
    rw [List.dropWhile_cons_of_neg (by decide)]
    simp only
    have h := digitsValue_natDigits_self (n + 1)
    rw [h]
    rfl

/-- The characters `%d` can print: a minus sign or a digit. -/
theorem fmt_d_chars (v : Int) : ∀ c ∈ fmt_d v, c ≠ '|' ∧ c ≠ ',' ∧ c ≠ NL := by
  intro c hc
  have hdig : ∀ (fuel n : Nat), c ∈ natDigits fuel n → c ≠ '|' ∧ c ≠ ',' ∧ c ≠ NL := by
    intro fuel n hmem
    obtain ⟨d, hd, rfl⟩ := natDigits_digits fuel n c hmem
    obtain ⟨-, -, -, -, -, h6, h7, h8⟩ := digitChar_spec d hd
    exact ⟨h6, h7, h8⟩
  cases v with
  | ofNat n => exact hdig _ _ hc
  | negSucc n =>
    unfold fmt_d at hc
    rcases List.mem_cons.mp hc with rfl | hc
    · decide
    · exact hdig _ _ hc

theorem fmt_d_ne_nil (v : Int) : fmt_d v ≠ [] := by
  cases v with
  | ofNat n => exact natDigits_ne_nil n n
  | negSucc n => simp [fmt_d]

/-! ## The result log -/

theorem writeTimes_eq (s : DashboardStudent) :
    ∀ (n i : Nat) (out : List Char), i + n ≤ s.responseTimes.length →
      writeTimes s n i out =
        some (out ++ ((s.responseTimes.drop i).take n).flatMap (fun t => fmt_d t ++ [',']))
  | 0, _, out, _ => by simp [writeTimes]
  | n + 1, i, out, h => by
    have hi : i < s.responseTimes.length := by omega
    rw [writeTimes, List.getElem?_eq_getElem hi]
    simp only
    rw [writeTimes_eq s n (i + 1) _ (by omega)]
    have hd : s.responseTimes.drop i = s.responseTimes[i] :: s.responseTimes.drop (i + 1) :=
      (List.getElem_cons_drop _ _ hi).symm
    rw [hd, List.take_succ_cons, List.flatMap_cons]
    simp only [List.append_assoc, List.singleton_append, List.cons_append, List.nil_append]

theorem append_result_eq (log : List Char) (s : DashboardStudent)
    (h : s.totalQuestions.toNat ≤ s.responseTimes.length) :
    append_result true log s = some (log ++ resultLine s) := by
  unfold append_result
  simp only [Bool.not_true, Bool.false_eq_true, if_false]
  rw [writeTimes_eq s _ 0 _ (by omega)]
  simp [resultLine]

theorem appendAll_eq : ∀ (rs : List DashboardStudent) (log : List Char),
    (∀ r ∈ rs, r.totalQuestions.toNat ≤ r.responseTimes.length) →
    appendAll log rs = some (log ++ rs.flatMap resultLine)
  | [], log, _ => by simp [appendAll]
  | r :: rs, log, h => by
    rw [appendAll, append_result_eq log r (h r (List.mem_cons_self _ _))]
    simp only
    rw [appendAll_eq rs _ (fun x hx => h x (List.mem_cons_of_mem _ hx))]
    simp [List.flatMap_cons]

theorem fgetsChars_line : ∀ (body : List Char) (n : Nat) (rest : List Char),
    (∀ c ∈ body, c ≠ NL) → body.length < n →
    fgetsChars n (body ++ NL :: rest) = (body ++ [NL], rest)
  | [], n + 1, rest, _, _ => by simp [fgetsChars]
  | [], 0, _, _, h => by simp at h
  | c :: body, 0, _, _, h => by simp at h
  | c :: body, n + 1, rest, hb, h => by
    have hc : c ≠ NL := hb c (List.mem_cons_self _ _)
    have ih := fgetsChars_line body n rest (fun x hx => hb x (List.mem_cons_of_mem _ hx))
      (by simpa using h)
    simp [fgetsChars, hc, ih]

theorem strtok_token (delims : List Char) (tok : List Char) (d : Char) (rest : List Char)
    (hne : tok ≠ []) (htok : ∀ c ∈ tok, c ∉ delims) (hd : d ∈ delims) :
    strtok delims (tok ++ d :: rest) = some (tok, rest) := by
  match tok, hne with
  | c :: cs, _ =>
    have hc : isDelim delims c = false := by simpa [isDelim] using htok c (List.mem_cons_self _ _)
    unfold strtok
    rw [List.cons_append, List.dropWhile_cons_of_neg (by simp [hc])]
    simp only
    have hall : ∀ x ∈ c :: cs, (fun x => !isDelim delims x) x = true := by
      intro x hx
      simpa [isDelim] using htok x hx
    rw [← List.cons_append, List.takeWhile_append_of_pos hall, List.dropWhile_append_of_pos hall]
    simp [List.takeWhile_cons, List.dropWhile_cons, isDelim, hd]

theorem readTimes_none : ∀ (n i : Nat) (times : List Int), readTimes n none i times = times
  | 0, _, _ => rfl
  | _ + 1, _, _ => rfl

theorem readTimes_spec : ∀ (ts : List Int) (n i : Nat) (times : List Int),
    ts.length ≤ n → i + ts.length ≤ times.length →
    ∃ out : List Int,
      readTimes n (strtok [','] (ts.flatMap (fun t => fmt_d t ++ [',']) ++ [NL])) i times = out ∧
      out.length = times.length ∧ (∀ m : Nat, m < i → out[m]? = times[m]?) ∧
      ∀ (j : Nat) (hj : j < ts.length), out[i + j]? = some ts[j]
  | [], 0, i, times, _, _ => ⟨times, by simp [readTimes], rfl, fun _ _ => rfl, by simp⟩
  | [], n + 1, i, times, _, _ => by
    have h1 : strtok [','] ([] ++ [NL]) = some ([NL], []) := by decide
    have h2 : strtok [','] [] = none := by decide
    refine ⟨times.set i (atoi [NL]), ?_, by simp, ?_, by simp⟩
    · show readTimes (n + 1) (strtok [','] ([] ++ [NL])) i times = _
      rw [h1, readTimes, h2, readTimes_none]
    · intro m hm
      rw [List.getElem?_set_ne (by omega)]
  | t :: ts, 0, _, _, h, _ => by simp at h
  | t :: ts, n + 1, i, times, hn, hlen => by
    have htok : strtok [','] ((t :: ts).flatMap (fun t => fmt_d t ++ [',']) ++ [NL]) =
        some (fmt_d t, ts.flatMap (fun t => fmt_d t ++ [',']) ++ [NL]) := by
      rw [List.flatMap_cons, List.append_assoc, List.append_assoc, List.singleton_append]
      exact strtok_token [','] (fmt_d t) ',' _ (fmt_d_ne_nil t)
        (fun c hc => by simpa using (fmt_d_chars t c hc).2.1) (by simp)
    simp only [List.length_cons] at hn hlen
    obtain ⟨out, hout, hl, hframe, hcontent⟩ :=
      readTimes_spec ts n (i + 1) (times.set i t) (by omega) (by simp; omega)
    refine ⟨out, ?_, by simpa using hl, ?_, ?_⟩
    · rw [htok, readTimes, atoi_fmt_d]
      exact hout
    · intro m hm
      rw [hframe m (by omega), List.getElem?_set_ne (by omega)]
    · intro j hj
      match j, hj with
      | 0, _ =>
        rw [Nat.add_zero, hframe i (by omega), List.getElem?_set_self (by omega)]
        rfl
      | j + 1, hj =>
        have := hcontent j (by simpa using hj)
        rw [show i + (j + 1) = i + 1 + j by omega, this]
        rfl

theorem parseResultLine_resultLine (r s : DashboardStudent) (hr : reloadable r)
    (hs : s.responseTimes.length = NUM_EXAM_QUESTIONS) :
    ∃ s1 : DashboardStudent, parseResultLine (resultLine r) s = some s1 ∧
      s1.responseTimes.length = NUM_EXAM_QUESTIONS ∧ reloadedFrom r s1 := by
  obtain ⟨hroll, hname, hrc, hnc, h0, h5, hrt, hlen⟩ := hr
  have hbar : ∀ (tok rest : List Char), tok ≠ [] → (∀ c ∈ tok, c ≠ '|') →
      strtok ['|'] (tok ++ '|' :: rest) = some (tok, rest) := fun tok rest h1 h2 =>
    strtok_token ['|'] tok '|' rest h1 (fun c hc => by simpa using h2 c hc) (by simp)
  have hnum : ∀ (v : Int) (rest : List Char),
      strtok ['|'] (fmt_d v ++ '|' :: rest) = some (fmt_d v, rest) := fun v rest =>
    hbar _ rest (fmt_d_ne_nil v) (fun c hc => (fmt_d_chars v c hc).1)
  have htq : r.totalQuestions.toNat ≤ NUM_EXAM_QUESTIONS := by
    have : r.totalQuestions ≤ 5 := h5
    unfold NUM_EXAM_QUESTIONS
    omega
  obtain ⟨out, hout, hl, -, hcontent⟩ :=
    readTimes_spec (r.responseTimes.take r.totalQuestions.toNat) NUM_EXAM_QUESTIONS 0
      s.responseTimes (by rw [List.length_take]; omega) (by rw [List.length_take]; omega)
  have hline : resultLine r = r.roll ++ '|' :: (r.name ++ '|' :: (fmt_d r.correctAnswers ++ '|' ::
      (fmt_d r.totalQuestions ++ '|' :: (fmt_d r.flagged ++ '|' :: (fmt_d r.totalTime ++ '|' ::
      ((r.responseTimes.take r.totalQuestions.toNat).flatMap (fun t => fmt_d t ++ [',']) ++
        [NL])))))) := by
    simp [resultLine]
  have hlenroll : r.roll.length ≤ MAX_LINE - 1 := by
    rw [hline] at hlen
    simp only [List.length_append, List.length_cons] at hlen
    omega
  have hlenname : r.name.length ≤ MAX_LINE - 1 := by
    rw [hline] at hlen
    simp only [List.length_append, List.length_cons] at hlen
    omega
  refine ⟨DashboardStudent.mk r.roll r.name out r.totalTime r.correctAnswers r.totalQuestions
    s.rank r.flagged, ?_, by simpa [hs] using hl, rfl, rfl, rfl, rfl, rfl, rfl, ?_⟩
  · rw [hline]
    unfold parseResultLine
    simp only [hbar r.roll _ hroll (fun c hc => (hrc c hc).1),
      hbar r.name _ hname (fun c hc => (hnc c hc).1), hnum, atoi_fmt_d, Option.bind_eq_bind,
      Option.some_bind, hout, List.take_of_length_le hlenroll, List.take_of_length_le hlenname]
  · simp only
    apply List.ext_getElem?
    intro j
    by_cases hj : j < r.totalQuestions.toNat
    · have hj2 : j < (r.responseTimes.take r.totalQuestions.toNat).length := by
        rw [List.length_take]; omega
      have := hcontent j hj2
      rw [Nat.zero_add] at this
      rw [List.getElem?_take_of_lt hj, this, List.getElem?_eq_getElem hj2]
    · rw [List.getElem?_take_eq_none (by omega), List.getElem?_take_eq_none (by omega)]

theorem fgets_resultLine (r : DashboardStudent) (hr : reloadable r) (rest : List Char) :
    fgets MAX_LINE (resultLine r ++ rest) = some (resultLine r, rest) := by
  obtain ⟨-, -, hrc, hnc, -, -, -, hlen⟩ := hr
  have hbody : ∃ body : List Char, resultLine r = body ++ [NL] ∧ ∀ c ∈ body, c ≠ NL := by
    refine ⟨_, rfl, ?_⟩
    intro c hc
    simp only [List.mem_append, List.mem_singleton, List.mem_flatMap] at hc
    have hbar : '|' ≠ NL := by decide
    have hcomma : ',' ≠ NL := by decide
    rcases hc with (((((((((((h | h) | h) | h) | h) | h) | h) | h) | h) | h) | h) | h) | h
    · exact (hrc c h).2
    · exact h ▸ hbar
    · exact (hnc c h).2
    · exact h ▸ hbar
    · exact (fmt_d_chars _ c h).2.2
    · exact h ▸ hbar
    · exact (fmt_d_chars _ c h).2.2
    · exact h ▸ hbar
    · exact (fmt_d_chars _ c h).2.2
    · exact h ▸ hbar
    · exact (fmt_d_chars _ c h).2.2
    · exact h ▸ hbar
    · obtain ⟨t, -, ht⟩ := h
      rcases ht with ht | ht
      · exact (fmt_d_chars _ c ht).2.2
      · exact ht ▸ hcomma
  obtain ⟨body, hb, hnl⟩ := hbody
  rw [hb] at hlen ⊢
  have hlt : body.length < MAX_LINE - 1 := by
    simp only [List.length_append, List.length_singleton] at hlen
    omega
  rw [List.append_assoc, List.singleton_append]
  have hfile : ∃ c cs, body ++ NL :: rest = c :: cs := by
    cases body with
    | nil => exact ⟨_, _, rfl⟩
    | cons c cs => exact ⟨_, _, rfl⟩
  obtain ⟨c, cs, hcs⟩ := hfile
  unfold fgets
  rw [hcs]
  simp only
  rw [← hcs, fgetsChars_line body _ rest hnl hlt]

theorem resultLine_length_pos (r : DashboardStudent) : 0 < (resultLine r).length := by
  simp [resultLine]

theorem flatMap_resultLine_length : ∀ rs : List DashboardStudent,
    rs.length ≤ (rs.flatMap resultLine).length
  | [] => by simp
  | r :: rs => by
    have h1 := resultLine_length_pos r
    have h2 := flatMap_resultLine_length rs
    simp only [List.flatMap_cons, List.length_append, List.length_cons]
    omega

theorem loadLoop_appended : ∀ (rs : List DashboardStudent) (fuel : Nat)
    (arr : List DashboardStudent) (cnt : Nat),
    rs.length < fuel → cnt + rs.length ≤ MAX_STUDENTS → cnt + rs.length ≤ arr.length →
    (∀ s ∈ arr, s.responseTimes.length = NUM_EXAM_QUESTIONS) → (∀ r ∈ rs, reloadable r) →
    ∃ arr1 : List DashboardStudent,
      loadLoop fuel (rs.flatMap resultLine) arr cnt = some (arr1, cnt + rs.length) ∧
      arr1.length = arr.length ∧ (∀ m : Nat, m < cnt → arr1[m]? = arr[m]?) ∧
      ∀ (j : Nat) (hj : j < rs.length), ∃ s : DashboardStudent,
        arr1[cnt + j]? = some s ∧ reloadedFrom rs[j] s
  | [], fuel + 1, arr, cnt, _, _, _, _, _ =>
    ⟨arr, by simp [loadLoop, fgets], rfl, fun _ _ => rfl, by simp⟩
  | [], 0, _, _, h, _, _, _, _ => by simp at h
  | r :: rs, 0, _, _, h, _, _, _, _ => by simp at h
  | r :: rs, fuel + 1, arr, cnt, hfuel, hmax, hlen, harr, hrs => by
    simp only [List.length_cons] at hfuel hmax hlen
    have hr := hrs r (List.mem_cons_self _ _)
    have hcnt : cnt < arr.length := by omega
    obtain ⟨s1, hparse, hs1, hfrom⟩ := parseResultLine_resultLine r arr[cnt] hr
      (harr _ (List.getElem_mem hcnt))
    obtain ⟨arr1, hload, hl, hframe, hcontent⟩ :=
      loadLoop_appended rs fuel (arr.set cnt s1) (cnt + 1) (by omega) (by omega)
        (by rw [List.length_set]; omega)
        (fun s hs => by
          rcases List.mem_or_eq_of_mem_set hs with h | h
          · exact harr s h
          · exact h ▸ hs1)
        (fun x hx => hrs x (List.mem_cons_of_mem _ hx))
    refine ⟨arr1, ?_, by simpa using hl, ?_, ?_⟩
    · rw [List.flatMap_cons, loadLoop, fgets_resultLine r hr]
      simp only [if_pos (show cnt < MAX_STUDENTS by omega), List.getElem?_eq_getElem hcnt, hparse]
      rw [hload]
      congr 2
      simp only [List.length_cons]
      omega
    · intro m hm
      rw [hframe m (by omega), List.getElem?_set_ne (by omega)]
    · intro j hj
      match j, hj with
      | 0, _ =>
        refine ⟨s1, ?_, hfrom⟩
        rw [Nat.add_zero, hframe cnt (by omega), List.getElem?_set_self hcnt]
      | j + 1, hj =>
        obtain ⟨s, hs, hsf⟩ := hcontent j (by simpa using hj)
        refine ⟨s, ?_, hsf⟩
        rw [show cnt + (j + 1) = cnt + 1 + j by omega, hs]
theorem loadDashboardData_appended (rs : List DashboardStudent)
    (dashboardStudents : List DashboardStudent) (studentCount : Nat)
    (hK : rs.length ≤ MAX_STUDENTS) (harr : dashboardStudents.length = MAX_STUDENTS)
    (hslots : ∀ s ∈ dashboardStudents, s.responseTimes.length = NUM_EXAM_QUESTIONS)
    (hrs : ∀ r ∈ rs, reloadable r) :
    ∃ loaded : List DashboardStudent,
      loadDashboardData (some (rs.flatMap resultLine)) dashboardStudents studentCount =
        some (loaded, rs.length) ∧
      ∀ (i : Nat) (hi : i < rs.length), ∃ s : DashboardStudent,
        loaded[i]? = some s ∧ reloadedFrom rs[i] s := by
  obtain ⟨loaded, hload, -, -, hcontent⟩ :=
    loadLoop_appended rs ((rs.flatMap resultLine).length + 1) dashboardStudents 0
      (Nat.lt_succ_of_le (flatMap_resultLine_length rs)) (by omega) (by omega) hslots hrs
  refine ⟨loaded, ?_, ?_⟩
  · unfold loadDashboardData
    simp only
    rw [hload, Nat.zero_add]
  · intro i hi
    obtain ⟨s, hs, hf⟩ := hcontent i hi
    exact ⟨s, by rw [← hs, Nat.zero_add], hf⟩


/-! ## Ranking -/

theorem compareSwap_append (pre : List DashboardStudent) (x y : DashboardStudent)
    (r : List DashboardStudent) :
    compareSwap (pre ++ x :: y :: r) pre.length =
      pre ++ (if x.correctAnswers < y.correctAnswers then y :: x :: r else x :: y :: r) := by
  unfold compareSwap
  have h1 : (pre ++ x :: y :: r)[pre.length]? = some x := by
    rw [List.getElem?_append_right (Nat.le_refl _)]
    simp
  have h2 : (pre ++ x :: y :: r)[pre.length + 1]? = some y := by
    rw [List.getElem?_append_right (by omega)]
    simp
  rw [h1, h2]
  simp only
  split
  · rw [List.set_append_right _ _ (Nat.le_refl _)]
    simp only [Nat.sub_self, List.set_cons_zero]
    rw [List.set_append_right _ _ (by omega)]
    simp
  · rfl

theorem innerLoop_eq_bubbleFrom (post : List DashboardStudent) :
    ∀ (t : List DashboardStudent) (x : DashboardStudent) (pre : List DashboardStudent),
      innerLoop t.length pre.length (pre ++ x :: t ++ post) = pre ++ bubbleFrom x t ++ post
  | [], x, pre => by simp [innerLoop, bubbleFrom]
  | y :: t, x, pre => by
    simp only [List.length_cons, innerLoop, List.cons_append, List.append_assoc]
    rw [compareSwap_append]
    by_cases h : x.correctAnswers < y.correctAnswers
    · have ih := innerLoop_eq_bubbleFrom post t x (pre ++ [y])
      simp only [List.length_append, List.length_singleton, List.append_assoc,
        List.singleton_append, List.cons_append] at ih
      simp only [if_pos h, bubbleFrom, List.cons_append]
      exact ih
    · have ih := innerLoop_eq_bubbleFrom post t y (pre ++ [x])
      simp only [List.length_append, List.length_singleton, List.append_assoc,
        List.singleton_append, List.cons_append] at ih
      simp only [if_neg h, bubbleFrom, List.cons_append]
      exact ih

theorem bubbleFrom_perm : ∀ (t : List DashboardStudent) (x : DashboardStudent),
    (bubbleFrom x t).Perm (x :: t)
  | [], x => by simp [bubbleFrom]
  | y :: t, x => by
    unfold bubbleFrom
    split
    · exact ((bubbleFrom_perm t x).cons y).trans (List.Perm.swap x y t)
    · exact (bubbleFrom_perm t y).cons x

theorem bubbleFrom_filter (p : DashboardStudent → Bool)
    (hp : ∀ u v : DashboardStudent, p u = true → p v = true → u.correctAnswers = v.correctAnswers) :
    ∀ (t : List DashboardStudent) (x : DashboardStudent),
      (bubbleFrom x t).filter p = (x :: t).filter p
  | [], x => by simp [bubbleFrom]
  | y :: t, x => by
    unfold bubbleFrom
    split
    · rename_i h
      rw [List.filter_cons, bubbleFrom_filter p hp t x]
      by_cases hx : p x = true <;> by_cases hy : p y = true
      · have := hp x y hx hy
        omega
      · simp [List.filter_cons, hx, hy]
      · simp [List.filter_cons, hx, hy]
      · simp [List.filter_cons, hx, hy]
    · rw [List.filter_cons, bubbleFrom_filter p hp t y]
      simp [List.filter_cons]

theorem bubbleFrom_last : ∀ (t : List DashboardStudent) (x : DashboardStudent),
    ∃ (q : List DashboardStudent) (z : DashboardStudent),
      bubbleFrom x t = q ++ [z] ∧ (∀ w ∈ q, rankedBefore w z) ∧ rankedBefore x z
  | [], x => ⟨[], x, by simp [bubbleFrom], by simp, Int.le_refl _⟩
  | y :: t, x => by
    unfold bubbleFrom
    split
    · rename_i h
      obtain ⟨q, z, hq, hz, hx⟩ := bubbleFrom_last t x
      refine ⟨y :: q, z, by simp [hq], ?_, hx⟩
      intro w hw
      rcases List.mem_cons.mp hw with rfl | hw
      · unfold rankedBefore at hx ⊢
        omega
      · exact hz w hw
    · rename_i h
      obtain ⟨q, z, hq, hz, hy⟩ := bubbleFrom_last t y
      have hxz : rankedBefore x z := by
        unfold rankedBefore at hy ⊢
        omega
      refine ⟨x :: q, z, by simp [hq], ?_, hxz⟩
      intro w hw
      rcases List.mem_cons.mp hw with rfl | hw
      · exact hxz
      · exact hz w hw

theorem outerLoop_sorts (sc : Nat) (post : List DashboardStudent) :
    ∀ (n i : Nat) (p s : List DashboardStudent),
      p.length + i = sc → n + i = sc - 1 →
      s.Pairwise rankedBefore → (∀ u ∈ p, ∀ v ∈ s, rankedBefore u v) →
      ∃ r : List DashboardStudent,
        outerLoop sc n i (p ++ s ++ post) = r ++ post ∧ r.Pairwise rankedBefore ∧
        r.Perm (p ++ s) ∧
        ∀ f : DashboardStudent → Bool,
          (∀ u v : DashboardStudent, f u = true → f v = true →
            u.correctAnswers = v.correctAnswers) →
          r.filter f = (p ++ s).filter f
  | 0, i, p, s, hlen, hn, hs, hps => by
    refine ⟨p ++ s, by simp [outerLoop], ?_, List.Perm.refl _, fun _ _ => rfl⟩
    rw [List.pairwise_append]
    refine ⟨?_, hs, hps⟩
    have hp : p.length ≤ 1 := by omega
    match p, hp with
    | [], _ => exact List.Pairwise.nil
    | [x], _ => exact List.pairwise_singleton _ _
  | n + 1, i, p, s, hlen, hn, hs, hps => by
    match p, hlen with
    | [], hlen => simp at hlen; omega
    | x :: t, hlen =>
      have ht : sc - i - 1 = t.length := by simp at hlen; omega
      obtain ⟨q, z, hq, hz, _⟩ := bubbleFrom_last t x
      have hperm := bubbleFrom_perm t x
      have hstep : innerLoop (sc - i - 1) 0 (x :: t ++ s ++ post) = q ++ (z :: s) ++ post := by
        have h := innerLoop_eq_bubbleFrom (s ++ post) t x []
        simp only [List.length_nil, List.nil_append, ← List.append_assoc] at h
        rw [ht, h, hq]
        simp
      have hqlen : q.length = t.length := by
        have := hperm.length_eq
        rw [hq] at this
        simpa using this
      have hzmem : z ∈ x :: t := hperm.subset (by rw [hq]; simp)
      have hqmem : ∀ u ∈ q, u ∈ x :: t := fun u hu =>
        hperm.subset (by rw [hq]; exact List.mem_append_left _ hu)
      obtain ⟨r, hr, hsorted, hrperm, hrfilter⟩ :=
        outerLoop_sorts sc post n (i + 1) q (z :: s) (by simp at hlen; omega) (by omega)
          (List.pairwise_cons.mpr ⟨fun v hv => hps z hzmem v hv, hs⟩)
          (fun u hu v hv => by
            rcases List.mem_cons.mp hv with rfl | hv
            · exact hz u hu
            · exact hps u (hqmem u hu) v hv)
      have hqz : q ++ z :: s = bubbleFrom x t ++ s := by rw [hq]; simp
      refine ⟨r, ?_, hsorted, ?_, ?_⟩
      · rw [outerLoop, hstep, hr]
      · rw [hqz] at hrperm
        exact hrperm.trans (hperm.append_right s)
      · intro f hf
        rw [hrfilter f hf, hqz, List.filter_append, bubbleFrom_filter f hf, List.filter_append]

theorem assignRanks_eq_withRanks (post : List DashboardStudent) :
    ∀ (l pre : List DashboardStudent),
      assignRanks l.length pre.length (pre ++ l ++ post) = pre ++ withRanks pre.length l ++ post
  | [], pre => by simp [assignRanks, withRanks]
  | s :: l, pre => by
    have h1 : (pre ++ s :: l ++ post)[pre.length]? = some s := by
      rw [List.append_assoc, List.getElem?_append_right (Nat.le_refl _)]
      simp
    simp only [List.length_cons, assignRanks, h1]
    rw [List.append_assoc, List.set_append_right _ _ (Nat.le_refl _)]
    have ih := assignRanks_eq_withRanks post l (pre ++ [{ s with rank := (pre.length : Int) + 1 }])
    simp only [List.length_append, List.length_singleton, List.append_assoc,
      List.singleton_append] at ih
    simp only [Nat.sub_self, List.cons_append, List.set_cons_zero, withRanks, List.append_assoc]
    simpa using ih

theorem withRanks_length : ∀ (l : List DashboardStudent) (i : Nat), (withRanks i l).length = l.length
  | [], _ => rfl
  | _ :: l, i => by simp [withRanks, withRanks_length l (i + 1)]

theorem withRanks_eraseRank : ∀ (l : List DashboardStudent) (i : Nat),
    (withRanks i l).map eraseRank = l.map eraseRank
  | [], _ => rfl
  | s :: l, i => by simp [withRanks, withRanks_eraseRank l (i + 1), eraseRank]

theorem withRanks_getElem? : ∀ (l : List DashboardStudent) (i j : Nat),
    (withRanks i l)[j]? = (l[j]?).map (fun s => { s with rank := ((i + j : Nat) : Int) + 1 })
  | [], _, _ => by simp [withRanks]
  | s :: l, i, 0 => by simp [withRanks]
  | s :: l, i, j + 1 => by
    simp only [withRanks, List.getElem?_cons_succ, withRanks_getElem? l (i + 1) j]
    congr 2
    funext s
    congr 2
    omega

theorem withRanks_filter (f : DashboardStudent → Bool)
    (hf : ∀ (s : DashboardStudent) (k : Int), f { s with rank := k } = f s) :
    ∀ (l : List DashboardStudent) (i : Nat),
      ((withRanks i l).filter f).map eraseRank = (l.filter f).map eraseRank
  | [], _ => rfl
  | s :: l, i => by
    simp only [withRanks, List.filter_cons, hf]
    split
    · simp [withRanks_filter f hf l (i + 1), eraseRank]
    · exact withRanks_filter f hf l (i + 1)

theorem withRanks_rank : ∀ (l : List DashboardStudent) (i : Nat),
    (withRanks i l).map DashboardStudent.rank = (List.range' (i + 1) l.length).map (fun n => (n : Int))
  | [], _ => rfl
  | s :: l, i => by
    simp [withRanks, withRanks_rank l (i + 1), List.range'_succ]

theorem rankStudents_spec (a : List DashboardStudent) (sc : Nat) (h : sc ≤ a.length) :
    ∃ r : List DashboardStudent,
      rankStudents a sc = withRanks 0 r ++ a.drop sc ∧ r.length = sc ∧
      r.Pairwise rankedBefore ∧ r.Perm (a.take sc) ∧
      ∀ f : DashboardStudent → Bool,
        (∀ u v : DashboardStudent, f u = true → f v = true →
          u.correctAnswers = v.correctAnswers) →
        r.filter f = (a.take sc).filter f := by
  obtain ⟨r, hr, hsorted, hperm, hfilter⟩ :=
    outerLoop_sorts sc (a.drop sc) (sc - 1) 0 (a.take sc) []
      (by simp [List.length_take]; omega) (by omega) List.Pairwise.nil (by simp)
  simp only [List.append_nil, List.take_append_drop] at hr hperm hfilter
  have hlen : r.length = sc := by
    rw [hperm.length_eq, List.length_take]
    omega
  refine ⟨r, ?_, hlen, hsorted, hperm, hfilter⟩
  unfold rankStudents
  rw [hr]
  have := assignRanks_eq_withRanks (a.drop sc) r []
  simp only [List.length_nil, List.nil_append] at this
  rw [hlen] at this
  exact this

theorem rankStudents_take (a : List DashboardStudent) (sc : Nat) (r : List DashboardStudent)
    (hr : rankStudents a sc = withRanks 0 r ++ a.drop sc) (hlen : r.length = sc) :
    (rankStudents a sc).take sc = withRanks 0 r := by
  rw [hr, List.take_append_of_le_length (by rw [withRanks_length, hlen])]
  exact List.take_of_length_le (by rw [withRanks_length, hlen])

/-! ## The flag pass and the client registry -/

theorem flagLoop_eq (s : DashboardStudent) :
    ∀ (n j : Nat), j + n ≤ s.responseTimes.length →
      flagLoop s n j =
        some { s with
          flagged :=
            if ((s.responseTimes.drop j).take n).any (fun t => decide (t < 2)) then 1
            else s.flagged }
  | 0, _, _ => by simp [flagLoop]
  | n + 1, j, h => by
    have hj : j < s.responseTimes.length := by omega
    have hd : s.responseTimes.drop j = s.responseTimes[j] :: s.responseTimes.drop (j + 1) :=
      (List.getElem_cons_drop _ _ hj).symm
    rw [flagLoop, List.getElem?_eq_getElem hj, hd, List.take_succ_cons, List.any_cons]
    simp only
    by_cases ht : s.responseTimes[j] < 2
    · simp [ht]
    · rw [if_neg ht, flagLoop_eq s n (j + 1) (by omega)]
      simp [ht]

theorem flagLoop_flaggedRecord (s : DashboardStudent)
    (h : s.totalQuestions.toNat ≤ s.responseTimes.length) :
    flagLoop s s.totalQuestions.toNat 0 = some (flaggedRecord s) := by
  rw [flagLoop_eq s _ 0 (by omega)]
  rfl

theorem flagStudents_eq (post : List DashboardStudent) :
    ∀ (l pre : List DashboardStudent),
      (∀ s ∈ l, s.totalQuestions.toNat ≤ s.responseTimes.length) →
      flagStudents l.length pre.length (pre ++ l ++ post) =
        some (pre ++ l.map flaggedRecord ++ post)
  | [], pre, _ => by simp [flagStudents]
  | s :: l, pre, h => by
    have h1 : (pre ++ s :: l ++ post)[pre.length]? = some s := by
      rw [List.append_assoc, List.getElem?_append_right (Nat.le_refl _)]
      simp
    simp only [List.length_cons, flagStudents, h1,
      flagLoop_flaggedRecord s (h s (List.mem_cons_self _ _))]
    rw [List.append_assoc, List.set_append_right _ _ (Nat.le_refl _)]
    have ih := flagStudents_eq post l (pre ++ [flaggedRecord s])
      (fun x hx => h x (List.mem_cons_of_mem _ hx))
    simp only [List.length_append, List.length_singleton, List.append_assoc,
      List.singleton_append] at ih
    simp only [Nat.sub_self, List.cons_append, List.set_cons_zero, List.map_cons,
      List.append_assoc]
    simpa using ih

theorem flagSuspiciousActivity_eq (a : List DashboardStudent) (studentCount : Nat)
    (h : studentCount ≤ a.length)
    (hrec : ∀ s ∈ a.take studentCount, s.totalQuestions.toNat ≤ s.responseTimes.length) :
    flagSuspiciousActivity a studentCount =
      some ((a.take studentCount).map flaggedRecord ++ a.drop studentCount) := by
  have hlen : (a.take studentCount).length = studentCount := by
    rw [List.length_take]; omega
  have := flagStudents_eq (a.drop studentCount) (a.take studentCount) [] hrec
  simp only [List.length_nil, List.nil_append, List.take_append_drop, hlen] at this
  exact this

theorem shiftLeft_eq : ∀ (post pre : List Client) (x : Client),
    shiftLeft post.length pre.length (pre ++ x :: post) =
      pre ++ post ++ [(x :: post).getLast (List.cons_ne_nil _ _)]
  | [], pre, x => by simp [shiftLeft]
  | y :: post, pre, x => by
    have h1 : (pre ++ x :: y :: post)[pre.length + 1]? = some y := by
      rw [List.getElem?_append_right (by omega)]
      simp
    simp only [List.length_cons, shiftLeft, h1]
    rw [List.set_append_right _ _ (Nat.le_refl _)]
    have ih := shiftLeft_eq post (pre ++ [y]) y
    simp only [List.length_append, List.length_singleton, List.append_assoc,
      List.singleton_append] at ih
    simp only [Nat.sub_self, List.set_cons_zero]
    rw [ih]
    simp [List.getLast_cons]

theorem deregisterLoop_eq (client_sock : Int) :
    ∀ (l pre : List Client), (∀ c ∈ pre, c.sock ≠ client_sock) →
      deregisterLoop client_sock l.length pre.length (pre ++ l) =
        pre ++ l.eraseP (fun c => decide (c.sock = client_sock))
  | [], pre, _ => by simp [deregisterLoop]
  | x :: l, pre, hpre => by
    have h1 : (pre ++ x :: l)[pre.length]? = some x := by
      rw [List.getElem?_append_right (Nat.le_refl _)]
      simp
    simp only [List.length_cons, deregisterLoop, h1]
    by_cases hx : x.sock = client_sock
    · rw [if_pos hx, List.eraseP_cons_of_pos (by simpa using hx)]
      have hn : (pre ++ x :: l).length - 1 - pre.length = l.length := by simp
      rw [hn, shiftLeft_eq l pre x]
      have hl : (pre ++ x :: l).length - 1 = (pre ++ l).length := by simp
      rw [hl, List.take_append_of_le_length (Nat.le_refl _), List.take_length]
    · rw [if_neg hx, List.eraseP_cons_of_neg (by simpa using hx)]
      have ih := deregisterLoop_eq client_sock l (pre ++ [x]) (by
        intro c hc
        rcases List.mem_append.mp hc with hc | hc
        · exact hpre c hc
        · rw [List.mem_singleton.mp hc]; exact hx)
      simp only [List.length_append, List.length_singleton, List.append_assoc,
        List.singleton_append] at ih
      exact ih

theorem deregister_eq_eraseP (clients : List Client) (client_sock : Int) :
    deregister clients client_sock =
      clients.eraseP (fun c => decide (c.sock = client_sock)) := by
  have := deregisterLoop_eq client_sock clients [] (by simp)
  simpa [deregister] using this

/-! ## The start flag and the login -/

theorem eraseP_no_match_left (p : Client → Bool) :
    ∀ l : List Client, (l.filter p).length ≤ 1 → ∀ c ∈ l.eraseP p, ¬ (p c = true)
  | [], _ => by simp
  | x :: l, h => by
    by_cases hx : p x = true
    · rw [List.eraseP_cons_of_pos hx]
      rw [List.filter_cons_of_pos hx] at h
      have hnil : l.filter p = [] := List.length_eq_zero.mp (by simpa using h)
      intro c hc hpc
      have : c ∈ l.filter p := List.mem_filter.mpr ⟨hc, hpc⟩
      rw [hnil] at this
      exact absurd this (List.not_mem_nil c)
    · rw [List.eraseP_cons_of_neg hx]
      rw [List.filter_cons_of_neg hx] at h
      intro c hc
      rcases List.mem_cons.mp hc with rfl | hc
      · exact hx
      · exact eraseP_no_match_left p l h c hc

theorem start_exam_examStarted (st : Server) (ok : Nat → Bool) (rands : Nat → Nat → Nat)
    (h : st.examStarted = 1) : (start_exam st ok rands).1.examStarted = 1 := by
  unfold start_exam
  split
  · exact h
  · rfl

theorem handle_client_login_server (directory : Option (List StudentEntry)) (ok : Nat → Bool)
    (client_sock : Int) (n : Int) (buffer roll0 password0 : List Char) (sys sys1 : System)
    (b : Bool)
    (h : handle_client_login directory ok client_sock n buffer roll0 password0 sys =
      some (sys1, b)) :
    sys1.log = sys.log ∧ sys1.server.examStarted = sys.server.examStarted ∧
      sys1.server.questions = sys.server.questions := by
  unfold handle_client_login at h
  by_cases hn : n ≤ 0
  · simp only [hn, if_true, Option.some.injEq, Prod.mk.injEq] at h
    obtain ⟨rfl, -⟩ := h
    exact ⟨rfl, rfl, rfl⟩
  · simp only [hn, if_false] at h
    cases hv : verify_student directory (scanLogin buffer roll0 password0).1
        (scanLogin buffer roll0 password0).2 with
    | none =>
      simp only [hv, Option.some.injEq, Prod.mk.injEq] at h
      obtain ⟨rfl, -⟩ := h
      exact ⟨rfl, rfl, rfl⟩
    | some nr =>
      obtain ⟨name, reg_no⟩ := nr
      simp only [hv] at h
      by_cases hok : ok sys.trace.length = true
      · simp only [send, hok, Bool.not_true, Bool.false_eq_true, if_false] at h
        cases hr : register sys.server.clients client_sock (scanLogin buffer roll0 password0).1 with
        | none => simp [hr] at h
        | some cs =>
          simp only [hr, Option.some.injEq, Prod.mk.injEq] at h
          obtain ⟨rfl, -⟩ := h
          exact ⟨rfl, rfl, rfl⟩
      · simp only [send, hok, Bool.not_false, if_true, Option.some.injEq, Prod.mk.injEq] at h
        obtain ⟨rfl, -⟩ := h
        exact ⟨rfl, rfl, rfl⟩

theorem step_examStarted (sys sys1 : System) (op : Op) (h : step sys op = some sys1)
    (hs : sys.server.examStarted = 1) : sys1.server.examStarted = 1 := by
  cases op with
  | login directory ok client_sock n buffer roll0 password0 =>
    simp only [step, Option.map_eq_some'] at h
    obtain ⟨⟨s, b⟩, hl, rfl⟩ := h
    rw [(handle_client_login_server _ _ _ _ _ _ _ _ _ _ hl).2.1]
    exact hs
  | finish client_sock n result fopenOk =>
    simp only [step, handle_client_finish] at h
    split at h
    · exact absurd h (by simp)
    · simp only [Option.some.injEq] at h
      rw [← h]
      exact hs
  | startExam ok rands =>
    simp only [step, Option.some.injEq] at h
    rw [← h]
    exact start_exam_examStarted _ _ _ hs
  | viewDashboard fopenOk =>
    simp only [step] at h
    split at h
    · exact absurd h (by simp)
    · simp only [Option.some.injEq] at h
      rw [← h]
      exact hs
  | setTimeLimit new_time =>
    simp only [step, Option.some.injEq] at h
    rw [← h]
    exact hs
  | setMarkingScheme correct wrong =>
    simp only [step, Option.some.injEq] at h
    rw [← h]
    exact hs
  | addQuestion questions =>
    simp only [step, Option.some.injEq] at h
    rw [← h]
    exact hs

theorem run_examStarted : ∀ (ops : List Op) (sys sys1 : System), run sys ops = some sys1 →
    sys.server.examStarted = 1 → sys1.server.examStarted = 1
  | [], sys, sys1, h, hs => by
    simp only [run, Option.some.injEq] at h
    rw [← h]
    exact hs
  | op :: ops, sys, sys1, h, hs => by
    rw [run] at h
    split at h
    · exact absurd h (by simp)
    · rename_i s hstep
      exact run_examStarted ops s sys1 h (step_examStarted sys s op hstep hs)

/-! ## Delivery when calls of `send` fail -/

theorem sendQuestions_eq_sendEvents (ok : Nat → Bool) (qs : List Question) (idx : List Nat)
    (sock : Int) :
    ∀ (n i : Nat) (tr : List SendEvent),
      sendQuestions ok qs idx sock n i tr =
        tr ++ sendEvents ok sock
          ((List.range' i n).map (fun p => Msg.question (deliveredRecord qs (idx.getD p 0))))
          tr.length
  | 0, _, tr => by simp [sendQuestions, sendEvents]
  | n + 1, i, tr => by
    rw [sendQuestions]
    by_cases hok : ok tr.length = true
    · simp only [send, hok, if_true]
      rw [sendQuestions_eq_sendEvents ok qs idx sock n (i + 1)]
      simp [List.range'_succ, sendEvents, hok]
    · simp [send, hok, List.range'_succ, sendEvents]

theorem send_exam_data_eq_sendEvents (st : Server) (ok : Nat → Bool) (rand : Nat → Nat)
    (tr : List SendEvent) (sock : Int) :
    send_exam_data st ok rand tr sock =
      tr ++ sendEvents ok sock ((examMessages st rand).drop 1) tr.length := by
  have hq := selectedIndices_map rand st.totalQuestions
  unfold send_exam_data
  simp only [numQuestions_eq_min, send, examMessages, List.drop_succ_cons, List.drop_zero, List.cons_append,
    List.nil_append, sendEvents]
  by_cases h1 : ok tr.length = true
  · by_cases h2 : ok (tr.length + 1) = true
    · by_cases h3 : ok (tr.length + 1 + 1) = true
      · by_cases h4 : ok (tr.length + 1 + 1 + 1) = true
        · simp only [h1, h2, h3, h4, Bool.not_true, Bool.false_eq_true, if_false, if_true,
            List.length_append, List.length_singleton]
          rw [sendQuestions_eq_sendEvents]
          simp [selectedIndices, numQuestions_eq_min, List.range_eq_range', Function.comp_def]
        · simp [h1, h2, h3, h4]
      · simp [h1, h2, h3]
    · simp [h1, h2]
  · simp [h1]

theorem startLoop_eq_traceFrom (st : Server) (ok : Nat → Bool) (rands : Nat → Nat → Nat) :
    ∀ (cs : List Client) (i : Nat) (tr : List SendEvent),
      startLoop st ok rands cs i tr = tr ++ traceFrom st ok rands cs i tr.length
  | [], _, tr => by simp [startLoop, traceFrom]
  | c :: cs, i, tr => by
    obtain ⟨rest, hrest⟩ : ∃ rest, examMessages st (rands i) = Msg.bytes startMarker :: rest :=
      ⟨_, rfl⟩
    rw [startLoop, traceFrom]
    by_cases hok : ok tr.length = true
    · simp only [send, hok, if_true]
      rw [startLoop_eq_traceFrom st ok rands cs (i + 1), send_exam_data_eq_sendEvents, hrest]
      simp only [sendEvents, hok, if_true, List.drop_succ_cons, List.drop_zero,
        List.length_append, List.length_singleton, List.length_cons, List.append_assoc,
        List.singleton_append, List.cons_append]
      simp only [List.nil_append, List.length_nil, Nat.zero_add]
    · simp only [send, hok, if_false, Bool.false_eq_true]
      rw [startLoop_eq_traceFrom st ok rands cs (i + 1), hrest]
      simp [sendEvents, hok]

theorem sendEvents_sock (ok : Nat → Bool) (sock : Int) :
    ∀ (ms : List Msg) (k : Nat), ∀ e ∈ sendEvents ok sock ms k, e.sock = sock
  | [], _ => by simp [sendEvents]
  | m :: ms, k => by
    intro e he
    rw [sendEvents] at he
    rcases List.mem_cons.mp he with rfl | he
    · rfl
    · split at he
      · exact sendEvents_sock ok sock ms (k + 1) e he
      · exact absurd he (List.not_mem_nil e)

theorem sendEvents_all_ok (ok : Nat → Bool) (sock : Int) :
    ∀ (ms : List Msg) (k : Nat), (∀ e ∈ sendEvents ok sock ms k, e.ok = true) →
      sendEvents ok sock ms k = ms.map (fun m => { sock := sock, msg := m, ok := true })
  | [], _, _ => by simp [sendEvents]
  | m :: ms, k, h => by
    have hk : ok k = true := h { sock := sock, msg := m, ok := ok k } (by simp [sendEvents])
    have ih := sendEvents_all_ok ok sock ms (k + 1) (fun e he =>
      h e (by rw [sendEvents]; simp [hk, he]))
    simp [sendEvents, hk, ih]

theorem messagesTo_of_sock_ne (sock : Int) :
    ∀ evs : List SendEvent, (∀ e ∈ evs, e.sock ≠ sock) → messagesTo sock evs = []
  | [], _ => rfl
  | e :: evs, h => by
    have he : e.sock ≠ sock := h e (List.mem_cons_self _ _)
    have ih := messagesTo_of_sock_ne sock evs (fun x hx => h x (List.mem_cons_of_mem _ hx))
    unfold messagesTo at ih ⊢
    rw [List.filter_cons_of_neg (by simp [he])]
    exact ih

theorem messagesTo_traceFrom_other (st : Server) (ok : Nat → Bool) (rands : Nat → Nat → Nat)
    (sock : Int) :
    ∀ (cs : List Client) (i k : Nat), (∀ c ∈ cs, c.sock ≠ sock) →
      messagesTo sock (traceFrom st ok rands cs i k) = []
  | [], _, _, _ => rfl
  | c :: cs, i, k, h => by
    rw [traceFrom, messagesTo_append,
      messagesTo_of_sock_ne sock _ (fun e he => by
        rw [sendEvents_sock ok c.sock _ _ e he]
        exact h c (List.mem_cons_self _ _)),
      messagesTo_traceFrom_other st ok rands sock cs _ _
        (fun x hx => h x (List.mem_cons_of_mem _ hx))]
    rfl

theorem messagesTo_traceFrom (st : Server) (ok : Nat → Bool) (rands : Nat → Nat → Nat) :
    ∀ (cs : List Client) (i k j : Nat) (hj : j < cs.length),
      (∀ (m : Nat) (hm : m < cs.length), cs[m].sock = cs[j].sock → m = j) →
      (∀ e ∈ traceFrom st ok rands cs i k, e.sock = cs[j].sock → e.ok = true) →
      messagesTo cs[j].sock (traceFrom st ok rands cs i k) = examMessages st (rands (i + j))
  | [], _, _, j, hj, _, _ => by simp at hj
  | c :: cs, i, k, 0, _, huniq, hall => by
    simp only [List.getElem_cons_zero, Nat.add_zero] at hall ⊢
    have hblk : sendEvents ok c.sock (examMessages st (rands i)) k =
        (examMessages st (rands i)).map (fun m => { sock := c.sock, msg := m, ok := true }) :=
      sendEvents_all_ok ok c.sock _ k (fun e he =>
        hall e (by rw [traceFrom]; exact List.mem_append_left _ he)
          (sendEvents_sock ok c.sock _ _ e he))
    rw [traceFrom, messagesTo_append, hblk, messagesTo_block, if_pos rfl,
      messagesTo_traceFrom_other st ok rands c.sock cs _ _ (fun x hx hsock => by
        obtain ⟨m, hm, rfl⟩ := List.getElem_of_mem hx
        have h0 : m + 1 = 0 := huniq (m + 1) (by simpa using hm) (by simpa using hsock)
        omega)]
    simp
  | c :: cs, i, k, j + 1, hj, huniq, hall => by
    have hj' : j < cs.length := by simpa using hj
    have hc : c.sock ≠ cs[j].sock := by
      intro h
      have h0 : 0 = j + 1 := huniq 0 (by simp) (by simpa using h)
      omega
    simp only [List.getElem_cons_succ] at hall ⊢
    rw [traceFrom, messagesTo_append,
      messagesTo_of_sock_ne cs[j].sock _ (fun e he => by
        rw [sendEvents_sock ok c.sock _ _ e he]
        exact hc),
      messagesTo_traceFrom st ok rands cs (i + 1) _ j hj'
        (fun m hm h => by
          have h0 : m + 1 = j + 1 := huniq (m + 1) (by simpa using hm) (by simpa using h)
          omega)
        (fun e he hs => hall e (by rw [traceFrom]; exact List.mem_append_right _ he) hs)]
    rw [show i + 1 + j = i + (j + 1) by omega]
    rfl

theorem traceFrom_flag (st : Server) (ok : Nat → Bool) (rands : Nat → Nat → Nat) :
    ∀ (cs : List Client) (i k : Nat),
      traceFrom { st with examStarted := 1 } ok rands cs i k = traceFrom st ok rands cs i k
  | [], _, _ => rfl
  | c :: cs, i, k => by
    simp only [traceFrom, examMessages_flag, traceFrom_flag st ok rands cs]

theorem start_exam_eq_traceFrom (st : Server) (ok : Nat → Bool) (rands : Nat → Nat → Nat) :
    (start_exam st ok rands).2 = traceFrom st ok rands st.clients 0 0 := by
  unfold start_exam
  split
  · rename_i h
    have : st.clients = [] := List.length_eq_zero.mp h
    simp [this, traceFrom]
  · simp only [startLoop_eq_traceFrom, List.nil_append, List.length_nil, traceFrom_flag]

theorem verify_student_length (directory : Option (List StudentEntry)) (roll pass : List Char)
    (name reg_no : List Char) (h : verify_student directory roll pass = some (name, reg_no)) :
    name.length ≤ 49 ∧ reg_no.length ≤ 49 := by
  unfold verify_student at h
  split at h
  · exact absurd h (by simp)
  · split at h
    · exact absurd h (by simp)
    · simp only [Option.some.injEq, Prod.mk.injEq] at h
      obtain ⟨rfl, rfl⟩ := h
      simp [List.length_take]

/-! ## The weighted score of `conduct_exam` -/

theorem scoreSum_stop (questions : List Question) (indices : List Nat) (examTimeUp : Nat → Bool)
    (input : Nat → Outcome) (i : Nat) (rest : List Nat)
    (h : endsExam questions indices examTimeUp input i = true) :
    (((i :: rest).takeWhile (fun i => !endsExam questions indices examTimeUp input i)).map
      (pointsEarned questions indices input)).sum = 0 := by
  rw [List.takeWhile_cons_of_neg (by simp [h])]
  rfl

theorem scoreSum_go (questions : List Question) (indices : List Nat) (examTimeUp : Nat → Bool)
    (input : Nat → Outcome) (i : Nat) (rest : List Nat)
    (h : endsExam questions indices examTimeUp input i = false) :
    (((i :: rest).takeWhile (fun i => !endsExam questions indices examTimeUp input i)).map
      (pointsEarned questions indices input)).sum =
      pointsEarned questions indices input i +
        ((rest.takeWhile (fun i => !endsExam questions indices examTimeUp input i)).map
          (pointsEarned questions indices input)).sum := by
  rw [List.takeWhile_cons_of_pos (by simp [h])]
  rfl

theorem examLoop_score (questions : List Question) (indices : List Nat) (examTimeUp : Nat → Bool)
    (input : Nat → Outcome) :
    ∀ (n i : Nat) (s : ExamState), i + n ≤ s.responseTimes.length →
      ∃ s1 : ExamState, examLoop questions indices examTimeUp input n i s = some s1 ∧
        s1.weightedScore = s.weightedScore +
          (((List.range' i n).takeWhile
            (fun i => !endsExam questions indices examTimeUp input i)).map
            (pointsEarned questions indices input)).sum
  | 0, _, s, _ => ⟨s, rfl, by simp⟩
  | n + 1, i, s, h => by
    have hlen : ¬ (s.responseTimes.length ≤ i) := by omega
    have key : ∀ s0 : ExamState, s0.responseTimes.length = s.responseTimes.length →
        s0.weightedScore = s.weightedScore + pointsEarned questions indices input i →
        endsExam questions indices examTimeUp input i = false →
        ∃ s1 : ExamState, examLoop questions indices examTimeUp input n (i + 1) s0 = some s1 ∧
          s1.weightedScore = s.weightedScore +
            (((i :: List.range' (i + 1) n).takeWhile
              (fun i => !endsExam questions indices examTimeUp input i)).map
              (pointsEarned questions indices input)).sum := by
      intro s0 h0 hw hends
      obtain ⟨s1, h1, h2⟩ :=
        examLoop_score questions indices examTimeUp input n (i + 1) s0 (by rw [h0]; omega)
      refine ⟨s1, h1, ?_⟩
      rw [h2, scoreSum_go _ _ _ _ _ _ hends, hw, add_assoc]
    rw [examLoop, List.range'_succ]
    by_cases hup : examTimeUp i = true
    · refine ⟨s, by simp only [hup, if_true], ?_⟩
      rw [scoreSum_stop _ _ _ _ _ _ (by simp [endsExam, hup]), add_zero]
    · have hup' : examTimeUp i = false := by simpa using hup
      simp only [hup, if_false]
      by_cases hskip : questionSkipped (shownQuestion questions indices i) = true
      · simp only [hskip, if_true]
        exact key _ rfl (by simp [pointsEarned, hskip]) (by simp [endsExam, hup', hskip])
      · have hskip' : questionSkipped (shownQuestion questions indices i) = false := by
          simpa using hskip
        simp only [hskip, if_false, hlen]
        by_cases hgot : (input i).gotInput = true
        · simp only [hgot, Bool.not_true, Bool.false_eq_true, if_false]
          by_cases hexit : (input i).answerBuf.headD NUL = 'e' ∨
              (input i).answerBuf.headD NUL = 'E'
          · have hcl : classify (input i) = Answer.exit := by
              unfold classify
              simp only [hgot, Bool.not_true, Bool.false_eq_true, if_false, if_pos hexit]
            refine ⟨_, by rw [if_pos hexit], ?_⟩
            rw [scoreSum_stop _ _ _ _ _ _ (by simp [endsExam, hskip', hcl]), add_zero]
          · simp only [if_neg hexit]
            by_cases hvalid :
                strchr "ABCD".toList (toupper ((input i).answerBuf.headD NUL)) = true
            · have hcl : classify (input i) =
                  Answer.letter (toupper ((input i).answerBuf.headD NUL)) := by
                unfold classify
                simp only [hgot, Bool.not_true, Bool.false_eq_true, if_false, if_neg hexit,
                  hvalid]
              have hends : endsExam questions indices examTimeUp input i = false := by
                simp [endsExam, hup', hcl]
              simp only [hvalid, Bool.not_true, Bool.false_eq_true, if_false]
              by_cases hcorrect : toupper ((input i).answerBuf.headD NUL) =
                  (shownQuestion questions indices i).correct
              · simp only [hcorrect, if_true]
                have hpts : pointsEarned questions indices input i =
                    diffWeights (shownQuestion questions indices i).difficulty := by
                  unfold pointsEarned
                  rw [if_pos ⟨hskip', by rw [hcl, hcorrect]⟩]
                by_cases hfast : (input i).answerTime < MIN_ANSWER_TIME
                · simp only [hfast, if_true]
                  exact key _ (by simp) (by simp [hpts]) hends
                · simp only [hfast, if_false]
                  exact key _ (by simp) (by simp [hpts]) hends
              · simp only [hcorrect, if_false]
                have hpts : pointsEarned questions indices input i = 0 := by
                  unfold pointsEarned
                  rw [if_neg (by
                    rintro ⟨-, h2⟩
                    rw [hcl] at h2
                    exact hcorrect (Answer.letter.inj h2))]
                by_cases hfast : (input i).answerTime < MIN_ANSWER_TIME
                · simp only [hfast, if_true]
                  exact key _ (by simp) (by simp [hpts]) hends
                · simp only [hfast, if_false]
                  exact key _ (by simp) (by simp [hpts]) hends
            · have hcl : classify (input i) = Answer.invalid := by
                unfold classify
                simp only [hgot, Bool.not_true, Bool.false_eq_true, if_false, if_neg hexit,
                  hvalid, Bool.not_false, if_true]
              simp only [hvalid, Bool.not_false, if_true]
              exact key _ (by simp) (by simp [pointsEarned, hcl])
                (by simp [endsExam, hup', hcl])
        · have hcl : classify (input i) = Answer.timeout := by
            unfold classify
            simp only [hgot, Bool.not_false, if_true]
          simp only [hgot, Bool.not_false, if_true]
          exact key _ (by simp) (by simp [pointsEarned, hcl]) (by simp [endsExam, hup', hcl])

/-! ## The counters and the response times of `conduct_exam` -/

theorem iterationsFrom_stop (questions : List Question) (indices : List Nat)
    (examTimeUp : Nat → Bool) (input : Nat → Outcome) (i n : Nat)
    (h : endsExam questions indices examTimeUp input i = true) :
    iterationsFrom questions indices examTimeUp input i (n + 1) = [] := by
  unfold iterationsFrom
  rw [List.range'_succ, List.takeWhile_cons_of_neg (by simp [h])]

theorem iterationsFrom_go (questions : List Question) (indices : List Nat)
    (examTimeUp : Nat → Bool) (input : Nat → Outcome) (i n : Nat)
    (h : endsExam questions indices examTimeUp input i = false) :
    iterationsFrom questions indices examTimeUp input i (n + 1) =
      i :: iterationsFrom questions indices examTimeUp input (i + 1) n := by
  unfold iterationsFrom
  rw [List.range'_succ, List.takeWhile_cons_of_pos (by simp [h])]

theorem iterationsFrom_zero (questions : List Question) (indices : List Nat)
    (examTimeUp : Nat → Bool) (input : Nat → Outcome) :
    iterationsFrom questions indices examTimeUp input 0 questions.length =
      iterationsRun questions indices examTimeUp input := by
  unfold iterationsFrom iterationsRun
  rw [List.range_eq_range']

theorem iterationsFrom_mem (questions : List Question) (indices : List Nat)
    (examTimeUp : Nat → Bool) (input : Nat → Outcome) (i n m : Nat)
    (h : m ∈ iterationsFrom questions indices examTimeUp input i n) : i ≤ m ∧ m < i + n := by
  have h1 := List.mem_range'_1.mp ((List.takeWhile_sublist _).subset h)
  omega

theorem iterationsFrom_length (questions : List Question) (indices : List Nat)
    (examTimeUp : Nat → Bool) (input : Nat → Outcome) (i n : Nat) :
    (iterationsFrom questions indices examTimeUp input i n).length ≤ n := by
  unfold iterationsFrom
  have h := (List.takeWhile_sublist
    (fun i => !endsExam questions indices examTimeUp input i) (l := List.range' i n)).length_le
  simpa using h

theorem examLoop_counts (questions : List Question) (indices : List Nat)
    (examTimeUp : Nat → Bool) (input : Nat → Outcome) :
    ∀ (n i : Nat) (s : ExamState), i + n ≤ s.responseTimes.length →
      ∃ s1 : ExamState, examLoop questions indices examTimeUp input n i s = some s1 ∧
        s1.attempted = s.attempted +
          (iterationsFrom questions indices examTimeUp input i n).length ∧
        s1.attempted - s1.wrongCount = s.attempted - s.wrongCount +
          ((iterationsFrom questions indices examTimeUp input i n).filter
            (answeredCorrectly questions indices input)).length ∧
        s1.responseTimes.length = s.responseTimes.length ∧
        (∀ m, m < i ∨ i + n ≤ m → s1.responseTimes[m]? = s.responseTimes[m]?) ∧
        ∀ m ∈ iterationsFrom questions indices examTimeUp input i n,
          questionSkipped (shownQuestion questions indices m) = false →
            s1.responseTimes[m]? = some (input m).answerTime
  | 0, _, s, _ => ⟨s, rfl, by simp [iterationsFrom], by simp [iterationsFrom], rfl,
      fun _ _ => rfl, by simp [iterationsFrom]⟩
  | n + 1, i, s, h => by
    have hlen : ¬ (s.responseTimes.length ≤ i) := by omega
    have key : ∀ s0 : ExamState, s0.responseTimes.length = s.responseTimes.length →
        s0.attempted = s.attempted + 1 →
        s0.attempted - s0.wrongCount = s.attempted - s.wrongCount +
          (if answeredCorrectly questions indices input i = true then 1 else 0) →
        (∀ m, m ≠ i → s0.responseTimes[m]? = s.responseTimes[m]?) →
        (questionSkipped (shownQuestion questions indices i) = false →
          s0.responseTimes[i]? = some (input i).answerTime) →
        endsExam questions indices examTimeUp input i = false →
        ∃ s1 : ExamState, examLoop questions indices examTimeUp input n (i + 1) s0 = some s1 ∧
          s1.attempted = s.attempted +
            (iterationsFrom questions indices examTimeUp input i (n + 1)).length ∧
          s1.attempted - s1.wrongCount = s.attempted - s.wrongCount +
            ((iterationsFrom questions indices examTimeUp input i (n + 1)).filter
              (answeredCorrectly questions indices input)).length ∧
          s1.responseTimes.length = s.responseTimes.length ∧
          (∀ m, m < i ∨ i + (n + 1) ≤ m → s1.responseTimes[m]? = s.responseTimes[m]?) ∧
          ∀ m ∈ iterationsFrom questions indices examTimeUp input i (n + 1),
            questionSkipped (shownQuestion questions indices m) = false →
              s1.responseTimes[m]? = some (input m).answerTime := by
      intro s0 h0 ha hc hfr hrt hends
      obtain ⟨s1, h1, h2, h3, h4, h5, h6⟩ :=
        examLoop_counts questions indices examTimeUp input n (i + 1) s0 (by rw [h0]; omega)
      rw [iterationsFrom_go _ _ _ _ _ _ hends]
      refine ⟨s1, h1, ?_, ?_, by rw [h4, h0], ?_, ?_⟩
      · rw [h2, ha, List.length_cons]
        push_cast
        ring
      · rw [h3, hc, List.filter_cons]
        cases hac : answeredCorrectly questions indices input i
        · simp
        · simp only [if_true, List.length_cons]
          push_cast
          ring
      · intro m hm
        rw [h5 m (by omega), hfr m (by omega)]
      · intro m hm hskip
        rcases List.mem_cons.mp hm with rfl | hm
        · rw [h5 m (by omega)]
          exact hrt hskip
        · exact h6 m hm hskip
    have stop : ∀ s0 : ExamState, s0.responseTimes.length = s.responseTimes.length →
        s0.attempted = s.attempted → s0.wrongCount = s.wrongCount →
        (∀ m, m ≠ i → s0.responseTimes[m]? = s.responseTimes[m]?) →
        endsExam questions indices examTimeUp input i = true →
          s0.attempted = s.attempted +
            (iterationsFrom questions indices examTimeUp input i (n + 1)).length ∧
          s0.attempted - s0.wrongCount = s.attempted - s.wrongCount +
            ((iterationsFrom questions indices examTimeUp input i (n + 1)).filter
              (answeredCorrectly questions indices input)).length ∧
          s0.responseTimes.length = s.responseTimes.length ∧
          (∀ m, m < i ∨ i + (n + 1) ≤ m → s0.responseTimes[m]? = s.responseTimes[m]?) ∧
          ∀ m ∈ iterationsFrom questions indices examTimeUp input i (n + 1),
            questionSkipped (shownQuestion questions indices m) = false →
              s0.responseTimes[m]? = some (input m).answerTime := by
      intro s0 h0 ha hw hfr hends
      rw [iterationsFrom_stop _ _ _ _ _ _ hends]
      refine ⟨by simp [ha], by simp [ha, hw], h0, fun m hm => hfr m (by omega), by simp⟩
    rw [examLoop]
    by_cases hup : examTimeUp i = true
    · exact ⟨s, by simp only [hup, if_true],
        stop s rfl rfl rfl (fun _ _ => rfl) (by simp [endsExam, hup])⟩
    · have hup' : examTimeUp i = false := by simpa using hup
      simp only [hup, if_false]
      by_cases hskip : questionSkipped (shownQuestion questions indices i) = true
      · simp only [hskip, if_true]
        exact key _ rfl rfl (by simp [answeredCorrectly, hskip]) (fun _ _ => rfl)
          (by simp [hskip]) (by simp [endsExam, hup', hskip])
      · have hskip' : questionSkipped (shownQuestion questions indices i) = false := by
          simpa using hskip
        have hi : i < s.responseTimes.length := by omega
        have hset : ∀ m, m ≠ i →
            (s.responseTimes.set i (input i).answerTime)[m]? = s.responseTimes[m]? := by
          intro m hm
          rw [List.getElem?_set_ne (Ne.symm hm)]
        have hget : (s.responseTimes.set i (input i).answerTime)[i]? =
            some (input i).answerTime := by
          rw [List.getElem?_set_self]
          simp [hi]
        simp only [hskip, if_false, hlen]
        by_cases hgot : (input i).gotInput = true
        · simp only [hgot, Bool.not_true, Bool.false_eq_true, if_false]
          by_cases hexit : (input i).answerBuf.headD NUL = 'e' ∨
              (input i).answerBuf.headD NUL = 'E'
          · have hcl : classify (input i) = Answer.exit := by
              unfold classify
              simp only [hgot, Bool.not_true, Bool.false_eq_true, if_false, if_pos hexit]
            refine ⟨_, by rw [if_pos hexit], ?_⟩
            exact stop _ (by simp) rfl rfl hset (by simp [endsExam, hskip', hcl])
          · simp only [if_neg hexit]
            by_cases hvalid :
                strchr "ABCD".toList (toupper ((input i).answerBuf.headD NUL)) = true
            · have hcl : classify (input i) =
                  Answer.letter (toupper ((input i).answerBuf.headD NUL)) := by
                unfold classify
                simp only [hgot, Bool.not_true, Bool.false_eq_true, if_false, if_neg hexit,
                  hvalid]
              have hends : endsExam questions indices examTimeUp input i = false := by
                simp [endsExam, hup', hcl]
              simp only [hvalid, Bool.not_true, Bool.false_eq_true, if_false]
              by_cases hcorrect : toupper ((input i).answerBuf.headD NUL) =
                  (shownQuestion questions indices i).correct
              · simp only [hcorrect, if_true]
                have hac : answeredCorrectly questions indices input i = true := by
                  rw [answeredCorrectly, hskip', hcl, hcorrect, decide_eq_true rfl]
                  rfl
                by_cases hfast : (input i).answerTime < MIN_ANSWER_TIME
                · simp only [hfast, if_true]
                  exact key _ (by simp) rfl (by simp [hac]; ring) hset (fun _ => hget) hends
                · simp only [hfast, if_false]
                  exact key _ (by simp) rfl (by simp [hac]; ring) hset (fun _ => hget) hends
              · simp only [hcorrect, if_false]
                have hac : answeredCorrectly questions indices input i = false := by
                  rw [answeredCorrectly, hcl,
                    decide_eq_false (fun h => hcorrect (Answer.letter.inj h)), Bool.and_false]
                by_cases hfast : (input i).answerTime < MIN_ANSWER_TIME
                · simp only [hfast, if_true]
                  exact key _ (by simp) rfl (by simp [hac]) hset (fun _ => hget) hends
                · simp only [hfast, if_false]
                  exact key _ (by simp) rfl (by simp [hac]) hset (fun _ => hget) hends
            · have hcl : classify (input i) = Answer.invalid := by
                unfold classify
                simp only [hgot, Bool.not_true, Bool.false_eq_true, if_false, if_neg hexit,
                  hvalid, Bool.not_false, if_true]
              simp only [hvalid, Bool.not_false, if_true]
              exact key _ (by simp) rfl (by simp [answeredCorrectly, hcl]) hset (fun _ => hget)
                (by simp [endsExam, hup', hcl])
        · have hcl : classify (input i) = Answer.timeout := by
            unfold classify
            simp only [hgot, Bool.not_false, if_true]
          simp only [hgot, Bool.not_false, if_true]
          exact key _ (by simp) rfl (by simp [answeredCorrectly, hcl]) hset (fun _ => hget)
            (by simp [endsExam, hup', hcl])

theorem conduct_exam_counts (roll name : List Char) (questions : List Question)
    (answerTimeout : Int) (rand : Nat → Nat) (examTimeUp : Nat → Bool)
    (input : Int → Nat → Outcome) (h : questions.length ≤ NUM_EXAM_QUESTIONS) :
    ∃ (r : ExamResult) (score : ℚ),
      conduct_exam roll name questions answerTimeout rand examTimeUp input = some (r, score) ∧
      r.totalQuestions =
        (iterationsRun questions (clientIndices rand questions.length) examTimeUp
          (input answerTimeout)).length ∧
      r.correctAnswers =
        ((iterationsRun questions (clientIndices rand questions.length) examTimeUp
          (input answerTimeout)).filter
          (answeredCorrectly questions (clientIndices rand questions.length)
            (input answerTimeout))).length ∧
      score =
        ((iterationsRun questions (clientIndices rand questions.length) examTimeUp
            (input answerTimeout)).map
          (pointsEarned questions (clientIndices rand questions.length)
            (input answerTimeout))).sum ∧
      r.responseTimes.length = NUM_EXAM_QUESTIONS ∧
      (∀ m, questions.length ≤ m →
        r.responseTimes[m]? = (List.replicate NUM_EXAM_QUESTIONS (0 : Int))[m]?) ∧
      ∀ m ∈ iterationsRun questions (clientIndices rand questions.length) examTimeUp
          (input answerTimeout),
        questionSkipped (shownQuestion questions (clientIndices rand questions.length) m) =
            false →
          r.responseTimes[m]? = some (input answerTimeout m).answerTime := by
  have hlen : 0 + questions.length ≤ initialExamState.responseTimes.length := by
    simpa [initialExamState] using h
  obtain ⟨s1, h1, h2, h3, h4, h5, h6⟩ := examLoop_counts questions
    (clientIndices rand questions.length) examTimeUp (input answerTimeout) questions.length 0
    initialExamState hlen
  obtain ⟨s2, k1, k2⟩ := examLoop_score questions (clientIndices rand questions.length)
    examTimeUp (input answerTimeout) questions.length 0 initialExamState hlen
  have hs : s2 = s1 := Option.some.inj (k1.symm.trans h1)
  subst hs
  rw [iterationsFrom_zero] at h2 h3 h6
  unfold conduct_exam
  simp only [h1]
  refine ⟨_, _, rfl, ?_, ?_, ?_, ?_, ?_, ?_⟩
  · simpa [initialExamState] using h2
  · simpa [initialExamState] using h3
  · simp only [k2]
    simp [initialExamState, iterationsRun, List.range_eq_range']
  · simpa [initialExamState] using h4
  · intro m hm
    have := h5 m (Or.inr (by omega))
    simpa [initialExamState] using this
  · exact h6

theorem clientNumQuestions_le (num_questions : Int) :
    1 ≤ clientNumQuestions num_questions ∧
      clientNumQuestions num_questions ≤ NUM_EXAM_QUESTIONS := by
  unfold clientNumQuestions NUM_EXAM_QUESTIONS
  split
  · decide
  · omega

theorem receiveQuestions_length (received : Nat → Option Question) :
    ∀ (n i : Nat) (qs : List Question), receiveQuestions received n i = some qs → qs.length = n
  | 0, _, qs, h => by
    simp only [receiveQuestions, Option.some.injEq] at h
    rw [← h]
    rfl
  | n + 1, i, qs, h => by
    rw [receiveQuestions] at h
    cases hr : received i with
    | none => simp [hr] at h
    | some q =>
      cases hq : receiveQuestions received n (i + 1) with
      | none => simp [hr, hq] at h
      | some qs1 =>
        simp only [hr, hq, Option.some.injEq] at h
        rw [← h, List.length_cons, receiveQuestions_length received n (i + 1) qs1 hq]

/-! ## The positions reached by the shuffle of `send_exam_data` -/

theorem swapIndices_getD (l : List Nat) (i j q : Nat) (hi : i < l.length) (hj : j < l.length) :
    (swapIndices l i j).getD q 0 =
      if q = j then l.getD i 0 else if q = i then l.getD j 0 else l.getD q 0 := by
  unfold swapIndices
  simp only [List.getD_eq_getElem?_getD, List.getElem?_set]
  by_cases h1 : q = j
  · subst h1
    simp [hi, hj]
  · by_cases h2 : q = i
    · subst h2
      simp [hi, hj, h1, Ne.symm h1]
    · simp [h1, h2, Ne.symm h1, Ne.symm h2]

theorem shuffleLoop_tail (rand : Nat → Nat) (lo : Nat) :
    ∀ (i k : Nat) (l : List Nat), i < l.length →
      (∀ q, q < lo → l.getD q 0 = q ∨ lo ≤ l.getD q 0) →
      (∀ q, lo ≤ q → q ≤ i → lo ≤ l.getD q 0) →
      ∀ q, q < lo → (shuffleLoop rand lo i k l).getD q 0 = q ∨
        lo ≤ (shuffleLoop rand lo i k l).getD q 0
  | 0, _, l, _, h1, _ => by
    intro q hq
    rw [shuffleLoop]
    exact h1 q hq
  | i + 1, k, l, hi, h1, h2 => by
    intro q hq
    rw [shuffleLoop]
    by_cases hlo : lo ≤ i + 1
    · simp only [hlo, if_true]
      have hj : rand k % (i + 1 + 1) < i + 1 + 1 := Nat.mod_lt _ (by omega)
      have hjl : rand k % (i + 1 + 1) < l.length := by omega
      have hlen : (swapIndices l (i + 1) (rand k % (i + 1 + 1))).length = l.length :=
        (swapIndices_perm l _ _ hi hjl).length_eq
      have htop : lo ≤ l.getD (i + 1) 0 := h2 (i + 1) hlo (Nat.le_refl _)
      refine shuffleLoop_tail rand lo i (k + 1) _ (by rw [hlen]; omega) ?_ ?_ q hq
      · intro p hp
        rw [swapIndices_getD l _ _ p hi hjl]
        by_cases hpj : p = rand k % (i + 1 + 1)
        · rw [if_pos hpj]
          exact Or.inr htop
        · rw [if_neg hpj, if_neg (by omega)]
          exact h1 p hp
      · intro p hp1 hp2
        rw [swapIndices_getD l _ _ p hi hjl]
        by_cases hpj : p = rand k % (i + 1 + 1)
        · rw [if_pos hpj]
          exact htop
        · rw [if_neg hpj, if_neg (by omega)]
          exact h2 p hp1 (by omega)
    · simp only [hlo, if_false]
      exact h1 q hq

theorem shuffledIndices_tail (rand : Nat → Nat) (T : Nat) (q : Nat)
    (hq : q < T - numQuestions T) :
    (shuffledIndices rand T).getD q 0 = q ∨
      T - numQuestions T ≤ (shuffledIndices rand T).getD q 0 := by
  unfold shuffledIndices
  have hrange : ∀ p, p < T → (List.range T).getD p 0 = p := by
    intro p hp
    simp [List.getD_eq_getElem?_getD, List.getElem?_range hp]
  refine shuffleLoop_tail rand _ _ _ _ (by simp; omega) ?_ ?_ q hq
  · intro p hp
    exact Or.inl (hrange p (by omega))
  · intro p hp1 hp2
    rw [hrange p (by omega)]
    exact hp1

theorem selectedIndices_getD (rand : Nat → Nat) (T p : Nat) (hp : p < numQuestions T) :
    (selectedIndices rand T).getD p 0 = (shuffledIndices rand T).getD p 0 := by
  unfold selectedIndices
  simp [List.getD_eq_getElem?_getD, List.getElem?_range hp]

/-! ## A log of more lines than the dashboard has slots -/

theorem loadLoop_leading : ∀ (rs : List DashboardStudent) (fuel : Nat)
    (arr : List DashboardStudent) (cnt : Nat) (tail : List Char),
    rs.length ≤ fuel → cnt + rs.length ≤ MAX_STUDENTS → cnt + rs.length ≤ arr.length →
    (∀ s ∈ arr, s.responseTimes.length = NUM_EXAM_QUESTIONS) → (∀ r ∈ rs, reloadable r) →
    ∃ arr1 : List DashboardStudent,
      loadLoop fuel (rs.flatMap resultLine ++ tail) arr cnt =
        loadLoop (fuel - rs.length) tail arr1 (cnt + rs.length) ∧
      arr1.length = arr.length ∧ (∀ m : Nat, m < cnt → arr1[m]? = arr[m]?) ∧
      (∀ s ∈ arr1, s.responseTimes.length = NUM_EXAM_QUESTIONS) ∧
      ∀ (j : Nat) (hj : j < rs.length), ∃ s : DashboardStudent,
        arr1[cnt + j]? = some s ∧ reloadedFrom rs[j] s
  | [], fuel, arr, cnt, tail, _, _, _, harr, _ =>
    ⟨arr, by simp, rfl, fun _ _ => rfl, harr, by simp⟩
  | r :: rs, 0, _, _, _, h, _, _, _, _ => by simp at h
  | r :: rs, fuel + 1, arr, cnt, tail, hfuel, hmax, hlen, harr, hrs => by
    simp only [List.length_cons] at hfuel hmax hlen
    have hr := hrs r (List.mem_cons_self _ _)
    have hcnt : cnt < arr.length := by omega
    obtain ⟨s1, hparse, hs1, hfrom⟩ := parseResultLine_resultLine r arr[cnt] hr
      (harr _ (List.getElem_mem hcnt))
    obtain ⟨arr1, hload, hl, hframe, hslots, hcontent⟩ :=
      loadLoop_leading rs fuel (arr.set cnt s1) (cnt + 1) tail (by omega) (by omega)
        (by rw [List.length_set]; omega)
        (fun s hs => by
          rcases List.mem_or_eq_of_mem_set hs with h | h
          · exact harr s h
          · exact h ▸ hs1)
        (fun x hx => hrs x (List.mem_cons_of_mem _ hx))
    refine ⟨arr1, ?_, by simpa using hl, ?_, hslots, ?_⟩
    · rw [List.flatMap_cons, List.append_assoc, loadLoop, fgets_resultLine r hr]
      simp only [if_pos (show cnt < MAX_STUDENTS by omega), List.getElem?_eq_getElem hcnt, hparse]
      rw [hload]
      congr 1
      · simp only [List.length_cons]
        omega
      · simp only [List.length_cons]
        omega
    · intro m hm
      rw [hframe m (by omega), List.getElem?_set_ne (by omega)]
    · intro j hj
      match j, hj with
      | 0, _ =>
        refine ⟨s1, ?_, hfrom⟩
        rw [Nat.add_zero, hframe cnt (by omega), List.getElem?_set_self hcnt]
      | j + 1, hj =>
        obtain ⟨s, hs, hsf⟩ := hcontent j (by simpa using hj)
        refine ⟨s, ?_, hsf⟩
        rw [show cnt + (j + 1) = cnt + 1 + j by omega, hs]

theorem loadLoop_full (fuel : Nat) (file : List Char) (arr : List DashboardStudent) :
    loadLoop (fuel + 1) file arr MAX_STUDENTS = some (arr, MAX_STUDENTS) := by
  rw [loadLoop]
  cases fgets MAX_LINE file with
  | none => rfl
  | some p => simp

theorem loadDashboardData_first_slots (rs : List DashboardStudent)
    (dashboardStudents : List DashboardStudent) (studentCount : Nat)
    (harr : dashboardStudents.length = MAX_STUDENTS)
    (hslots : ∀ s ∈ dashboardStudents, s.responseTimes.length = NUM_EXAM_QUESTIONS)
    (hrs : ∀ r ∈ rs, reloadable r) :
    ∃ loaded : List DashboardStudent,
      loadDashboardData (some (rs.flatMap resultLine)) dashboardStudents studentCount =
        some (loaded, min rs.length MAX_STUDENTS) ∧
      loaded.length = MAX_STUDENTS ∧
      ∀ (i : Nat) (hi : i < rs.length), i < MAX_STUDENTS → ∃ s : DashboardStudent,
        loaded[i]? = some s ∧ reloadedFrom rs[i] s := by
  have hsplit : rs.flatMap resultLine =
      (rs.take MAX_STUDENTS).flatMap resultLine ++ (rs.drop MAX_STUDENTS).flatMap resultLine := by
    rw [← List.flatMap_append, List.take_append_drop]
  have htake : (rs.take MAX_STUDENTS).length = min rs.length MAX_STUDENTS := by
    rw [List.length_take, Nat.min_comm]
  have hfile : rs.length ≤ (rs.flatMap resultLine).length := flatMap_resultLine_length rs
  obtain ⟨arr1, hload, hlen, -, -, hcontent⟩ :=
    loadLoop_leading (rs.take MAX_STUDENTS) ((rs.flatMap resultLine).length + 1) dashboardStudents 0
      ((rs.drop MAX_STUDENTS).flatMap resultLine)
      (by rw [htake]; omega) (by rw [htake]; omega) (by rw [htake]; omega) hslots
      (fun r hr => hrs r (List.mem_of_mem_take hr))
  refine ⟨arr1, ?_, by rw [hlen, harr], ?_⟩
  · unfold loadDashboardData
    simp only
    have hfile1 : loadLoop ((rs.flatMap resultLine).length + 1) (rs.flatMap resultLine)
        dashboardStudents 0 =
        loadLoop ((rs.flatMap resultLine).length + 1)
          ((rs.take MAX_STUDENTS).flatMap resultLine ++
            (rs.drop MAX_STUDENTS).flatMap resultLine) dashboardStudents 0 := by
      rw [← hsplit]
    obtain ⟨f, hf⟩ : ∃ f, (rs.flatMap resultLine).length + 1 -
        (rs.take MAX_STUDENTS).length = f + 1 :=
      ⟨(rs.flatMap resultLine).length - (rs.take MAX_STUDENTS).length, by rw [htake]; omega⟩
    rw [hfile1, hload, hf, Nat.zero_add, htake]
    by_cases hK : rs.length ≤ MAX_STUDENTS
    · rw [List.drop_eq_nil_of_le hK, Nat.min_eq_left hK]
      simp [loadLoop, fgets]
    · rw [Nat.min_eq_right (by omega)]
      exact loadLoop_full f _ arr1
  · intro i hi hi100
    obtain ⟨s, hs, hf⟩ := hcontent i (by rw [htake]; omega)
    refine ⟨s, by rw [← hs, Nat.zero_add], ?_⟩
    rw [List.getElem_take] at hf
    exact hf

/-! ## The question store after `load_questions` -/

theorem fgetsChars_length : ∀ (n : Nat) (file : List Char),
    (fgetsChars n file).1.length + (fgetsChars n file).2.length = file.length
  | 0, file => by simp [fgetsChars]
  | _ + 1, [] => by simp [fgetsChars]
  | n + 1, c :: cs => by
    unfold fgetsChars
    split
    · simp
      omega
    · have := fgetsChars_length n cs
      simp only [List.length_cons]
      omega

theorem fgetsChars_pos (n : Nat) (c : Char) (cs : List Char) :
    0 < (fgetsChars (n + 1) (c :: cs)).1.length := by
  unfold fgetsChars
  split <;> simp

theorem fgets_rest_lt (fp buffer rest : List Char)
    (h : fgets MAX_LINE fp = some (buffer, rest)) : rest.length < fp.length := by
  unfold fgets at h
  cases fp with
  | nil => simp at h
  | cons c cs =>
    simp only [Option.some.injEq] at h
    have h1 := fgetsChars_length (MAX_LINE - 1) (c :: cs)
    have h2 := fgetsChars_pos (MAX_LINE - 2) c cs
    rw [show MAX_LINE - 2 + 1 = MAX_LINE - 1 from rfl] at h2
    rw [h] at h1 h2
    simp only at h1 h2
    omega

theorem read_nonempty_line_spec : ∀ (fuel : Nat) (fp : List Char), fp.length < fuel →
    read_nonempty_line fuel fp = some none ∨
      ∃ line rest, read_nonempty_line fuel fp = some (some (line, rest)) ∧ line ≠ [] ∧
        (∀ c ∈ line, c ≠ NUL) ∧ rest.length < fp.length
  | 0, _, h => by omega
  | fuel + 1, fp, h => by
    rw [read_nonempty_line]
    cases hf : fgets MAX_LINE fp with
    | none => exact Or.inl rfl
    | some p =>
      obtain ⟨buffer, rest⟩ := p
      have hlt := fgets_rest_lt fp buffer rest hf
      simp only
      by_cases hs : (buffer.takeWhile
          (fun c => decide (c ≠ NL) && decide (c ≠ NUL))).dropWhile isspace = []
      · rw [if_neg (by simpa using hs)]
        rcases read_nonempty_line_spec fuel rest (by omega) with h1 | ⟨line, rest1, h1, h2, h3, h4⟩
        · exact Or.inl h1
        · exact Or.inr ⟨line, rest1, h1, h2, h3, by omega⟩
      · rw [if_pos hs]
        refine Or.inr ⟨_, rest, rfl, hs, ?_, hlt⟩
        intro c hc
        have h1 := (List.dropWhile_sublist isspace).subset hc
        have h2 := List.mem_takeWhile_imp h1
        simp only [Bool.and_eq_true, decide_eq_true_eq] at h2
        exact h2.2

theorem readFields_spec : ∀ (n : Nat) (fp : List Char),
    readFields n fp = some none ∨
      ∃ lines rest, readFields n fp = some (some (lines, rest)) ∧ lines.length = n ∧
        (∀ l ∈ lines, l ≠ [] ∧ ∀ c ∈ l, c ≠ NUL) ∧ rest.length + n ≤ fp.length
  | 0, fp => Or.inr ⟨[], fp, rfl, rfl, by simp, by simp⟩
  | n + 1, fp => by
    rw [readFields]
    rcases read_nonempty_line_spec (fp.length + 1) fp (Nat.lt_succ_self _) with
      h1 | ⟨line, rest, h1, h2, h3, h4⟩
    · rw [h1]
      exact Or.inl rfl
    · rw [h1]
      simp only
      rcases readFields_spec n rest with k1 | ⟨lines, rest1, k1, k2, k3, k4⟩
      · rw [k1]
        exact Or.inl rfl
      · rw [k1]
        refine Or.inr ⟨line :: lines, rest1, rfl, by simp [k2], ?_, by omega⟩
        intro l hl
        rcases List.mem_cons.mp hl with rfl | hl
        · exact ⟨h2, h3⟩
        · exact k3 l hl

theorem toupper_ne_NUL (c : Char) (h : c ≠ NUL) : toupper c ≠ NUL := by
  unfold toupper Char.toUpper
  simp only
  split
  · rename_i hc
    intro heq
    have h1 : (Char.ofNat (c.toNat - 32)).toNat = 0 := by rw [heq]; rfl
    have h2 : (c.toNat - 32).isValidChar := by
      left
      omega
    rw [Char.ofNat, dif_pos h2] at h1
    have h3 : (Char.ofNatAux (c.toNat - 32) h2).toNat = c.toNat - 32 := rfl
    omega
  · exact h

theorem questionOfLines_valid (lines : List (List Char)) (hlen : lines.length = 7)
    (hlines : ∀ l ∈ lines, l ≠ [] ∧ ∀ c ∈ l, c ≠ NUL)
    (hvalid : loadInvalid (questionOfLines lines) = false) :
    questionInvariant (questionOfLines lines) := by
  unfold loadInvalid at hvalid
  simp only [Bool.or_eq_false_iff, decide_eq_false_iff_not, Bool.not_eq_false', not_lt] at hvalid
  obtain ⟨⟨⟨⟨⟨⟨⟨h1, h2⟩, h3⟩, h4⟩, h5⟩, h6⟩, h7⟩, h8⟩ := hvalid
  refine ⟨h1, h2, h3, h4, h5, ?_, h7, by simpa using h8⟩
  have hl5 : lines.getD 5 [] ∈ lines := by
    rw [List.getD_eq_getElem _ _ (by omega)]
    exact List.getElem_mem _
  obtain ⟨hne, hnul⟩ := hlines _ hl5
  have hhead : (lines.getD 5 []).headD NUL ≠ NUL := by
    cases hl : lines.getD 5 [] with
    | nil => exact absurd hl hne
    | cons c cs => exact hnul c (by rw [hl]; exact List.mem_cons_self _ _)
  have hc : (questionOfLines lines).correct ≠ NUL := toupper_ne_NUL _ hhead
  unfold strchr at h6
  simp only [Bool.or_eq_true, decide_eq_true_eq] at h6
  rcases h6 with h6 | h6
  · exact h6
  · exact absurd h6 hc

theorem loadQuestionsLoop_spec : ∀ (fuel : Nat) (fp : List Char) (questions : List Question),
    fp.length < fuel → (∀ q ∈ questions, questionInvariant q) →
    questions.length ≤ MAX_QUESTIONS →
    ∃ loaded, loadQuestionsLoop fuel fp questions = some loaded ∧
      (∀ q ∈ loaded, questionInvariant q) ∧ loaded.length ≤ MAX_QUESTIONS
  | 0, _, _, h, _, _ => by omega
  | fuel + 1, fp, questions, h, hinv, hlen => by
    rw [loadQuestionsLoop]
    by_cases hfull : questions.length < MAX_QUESTIONS
    · rw [if_pos hfull]
      rcases readFields_spec 7 fp with h1 | ⟨lines, rest, h1, h2, h3, h4⟩
      · rw [h1]
        exact ⟨questions, rfl, hinv, hlen⟩
      · rw [h1]
        simp only
        by_cases hv : loadInvalid (questionOfLines lines) = true
        · rw [if_pos hv]
          exact loadQuestionsLoop_spec fuel rest questions (by omega) hinv hlen
        · rw [if_neg hv]
          refine loadQuestionsLoop_spec fuel rest _ (by omega) ?_ (by simp; omega)
          intro q hq
          rcases List.mem_append.mp hq with hq | hq
          · exact hinv q hq
          · rw [List.mem_singleton.mp hq]
            exact questionOfLines_valid lines h2 h3 (by simpa using hv)
    · rw [if_neg hfull]
      exact ⟨questions, rfl, hinv, hlen⟩

theorem padQuestions_eq : ∀ (n : Nat) (questions : List Question),
    NUM_EXAM_QUESTIONS ≤ questions.length + n →
    padQuestions n questions =
      questions ++ List.replicate (NUM_EXAM_QUESTIONS - questions.length) default_q
  | 0, questions, h => by
    rw [padQuestions, Nat.sub_eq_zero_of_le (by omega)]
    simp
  | n + 1, questions, h => by
    rw [padQuestions]
    by_cases hq : questions.length < NUM_EXAM_QUESTIONS
    · rw [if_pos ⟨hq, by unfold NUM_EXAM_QUESTIONS at hq; unfold MAX_QUESTIONS; omega⟩,
        padQuestions_eq n _ (by simp; omega)]
      rw [List.length_append, List.length_singleton, List.append_assoc,
        show NUM_EXAM_QUESTIONS - questions.length =
          (NUM_EXAM_QUESTIONS - (questions.length + 1)) + 1 by omega,
        List.replicate_succ]
      simp
    · rw [if_neg (fun h => hq h.1), Nat.sub_eq_zero_of_le (by omega)]
      simp

theorem load_questions_spec (file : Option (List Char)) :
    ∃ loaded : List Question,
      load_questions file =
        some (loaded ++ List.replicate (NUM_EXAM_QUESTIONS - loaded.length) default_q) ∧
      (∀ q ∈ loaded, questionInvariant q) ∧ loaded.length ≤ MAX_QUESTIONS := by
  unfold load_questions
  simp only
  obtain ⟨loaded, h1, h2, h3⟩ := loadQuestionsLoop_spec
    ((match file with | none => defaultQuestionFile | some content => content).length + 1)
    (match file with | none => defaultQuestionFile | some content => content) []
    (Nat.lt_succ_self _) (by simp) (by simp)
  rw [h1]
  simp only
  exact ⟨loaded, by rw [padQuestions_eq _ _ (by omega)], h2, h3⟩

/-! ## The claims -/

/-- C1 (failing input): the delivery check of `send_exam_data` (line 657) does
not look at the four option texts. With a store of five records of which one
has an empty option A, that record passes the check and is handed to `send`
unchanged (here as the fifth record, all draws being 0), although it violates
the question invariant. -/
theorem send_exam_data_sends_empty_option :
    questionsSent (send_exam_data emptyOptionServer (fun _ => true) (fun _ => 0) [] 7) =
      [default_q, default_q, default_q, default_q, emptyOptionQuestion] ∧
    deliveryInvalid emptyOptionQuestion = false ∧
    ¬ questionInvariant emptyOptionQuestion := by
  decide

/-- C2: when every `send` succeeds, `start_exam` performs, registry entry by
registry entry, exactly the sends of `expectedTrace`; and for the `i`-th
registry entry, no other entry having its socket, the messages written to
that socket are in this order: the 6 bytes `START` with terminator, the
validated timeout, the validated marks for a correct answer, the validated
marks deducted for a wrong answer, the question count
`min NUM_EXAM_QUESTIONS totalQuestions`, and then that many question records
(the records at the selected store indices, each replaced by the default
record when the delivery check rejects it). -/
theorem start_exam_message_sequence (st : Server) (ok : Nat → Bool) (rands : Nat → Nat → Nat)
    (hok : ∀ k, ok k = true) (i : Nat) (hi : i < st.clients.length)
    (huniq : ∀ (j : Nat) (hj : j < st.clients.length),
      st.clients[j].sock = st.clients[i].sock → j = i) :
    (start_exam st ok rands).2 = expectedTrace st rands st.clients 0 ∧
    messagesTo st.clients[i].sock (start_exam st ok rands).2 =
      [Msg.bytes ['S', 'T', 'A', 'R', 'T', NUL], Msg.int (validAnswerTimeout st),
        Msg.float (validMarksForCorrectAnswer st),
        Msg.float (validMarksDeductedForWrongAnswer st),
        Msg.int (min NUM_EXAM_QUESTIONS st.totalQuestions : Nat)] ++
      (selectedIndices (rands i) st.totalQuestions).map
        (fun idx => Msg.question (deliveredRecord st.questions idx)) ∧
    (selectedIndices (rands i) st.totalQuestions).length =
      min NUM_EXAM_QUESTIONS st.totalQuestions := by
  refine ⟨start_exam_trace st ok rands hok, ?_, ?_⟩
  · rw [start_exam_trace st ok rands hok, messagesTo_expectedTrace st rands st.clients 0 i hi huniq,
      Nat.zero_add]
    rfl
  · simp [selectedIndices, numQuestions_eq_min]

/-- The message sequence of C2 for the second client of `demoServer`, all
draws being 0: the two stored questions arrive exchanged. -/
theorem start_exam_message_sequence_witness :
    (∀ k, (fun _ : Nat => true) k = true) ∧
    messagesTo 8 (start_exam demoServer (fun _ => true) (fun _ _ => 0)).2 =
      [Msg.bytes ['S', 'T', 'A', 'R', 'T', NUL], Msg.int 30, Msg.float 1, Msg.float (1 / 4),
        Msg.int 2,
        Msg.question { default_q with question := "2 + 2 = ?".toList, correct := 'B' },
        Msg.question default_q] := by
  refine ⟨fun _ => rfl, ?_⟩
  have h := (start_exam_message_sequence demoServer (fun _ => true) (fun _ _ => 0)
    (fun _ => rfl) 1 (by decide) (by decide)).2.1
  rw [show demoServer.clients[1].sock = 8 from rfl] at h
  rw [h]
  have h1 : validAnswerTimeout demoServer = 30 := by decide
  have h2 : validMarksForCorrectAnswer demoServer = 1 := by
    norm_num [validMarksForCorrectAnswer, demoServer]
  have h3 : validMarksDeductedForWrongAnswer demoServer = 1 / 4 := by
    norm_num [validMarksDeductedForWrongAnswer, demoServer]
  have h4 : (selectedIndices (fun _ => 0) demoServer.totalQuestions).map
      (fun idx => Msg.question (deliveredRecord demoServer.questions idx)) =
      [Msg.question { default_q with question := "2 + 2 = ?".toList, correct := 'B' },
        Msg.question default_q] := by
    decide
  rw [h1, h2, h3, h4]
  rfl

/-- C3: for every number `T` of stored questions (in particular for
`1 ≤ T ≤ MAX_QUESTIONS`) and every sequence of values of `rand()`, the index
array after the shuffle loop is a permutation of `0, ..., T - 1`; the indices
selected for delivery are its first `num_questions` entries, they are
pairwise distinct and all below `T`. -/
theorem shuffle_selects_distinct (rand : Nat → Nat) (T : Nat) :
    (shuffledIndices rand T).Perm (List.range T) ∧
    selectedIndices rand T = (shuffledIndices rand T).take (numQuestions T) ∧
    (selectedIndices rand T).length = numQuestions T ∧
    (selectedIndices rand T).Nodup ∧ ∀ x ∈ selectedIndices rand T, x < T := by
  have hperm := shuffledIndices_perm rand T
  have hlen : (shuffledIndices rand T).length = T := by rw [hperm.length_eq, List.length_range]
  have htake : selectedIndices rand T = (shuffledIndices rand T).take (numQuestions T) :=
    map_getD_range_eq_take _ _ (by rw [hlen]; exact numQuestions_le T)
  refine ⟨hperm, htake, by simp [selectedIndices], ?_, ?_⟩
  · rw [htake]
    exact ((hperm.nodup_iff).mpr (List.nodup_range T)).sublist (List.take_sublist _ _)
  · intro x hx
    rw [htake] at hx
    exact List.mem_range.mp (hperm.subset (List.mem_of_mem_take hx))

/-- C4 (failing input): with 7 stored questions (5 are delivered) the
selection is not uniform. Two different sequences of draws, each draw within
`0..i` at its step `i`, select the same indices `0, 1, 2, 3, 4`, while no
sequence of draws at all selects `1, 0, 2, 3, 4`: the loop shuffles the
positions 2 to 6 of the index array, and delivery reads the positions 0 to 4. -/
theorem selection_not_uniform :
    selectedIndices (drawsOf 6 5 4 3 2) 7 = [0, 1, 2, 3, 4] ∧
    selectedIndices (drawsOf 5 5 4 3 2) 7 = [0, 1, 2, 3, 4] ∧
    ∀ rand : Nat → Nat, selectedIndices rand 7 ≠ [1, 0, 2, 3, 4] := by
  refine ⟨by decide, by decide, ?_⟩
  intro rand
  rw [selectedIndices_seven rand]
  exact selection_never_swapped ⟨rand 0 % 7, Nat.mod_lt _ (by decide)⟩
    ⟨rand 1 % 6, Nat.mod_lt _ (by decide)⟩ ⟨rand 2 % 5, Nat.mod_lt _ (by decide)⟩
    ⟨rand 3 % 4, Nat.mod_lt _ (by decide)⟩ ⟨rand 4 % 3, Nat.mod_lt _ (by decide)⟩

/-- C5 (failing input): a receive that returns 1060 bytes, fewer than the
`sizeof(DashboardStudent)` = 1064 bytes of a complete record, still makes
`handle_client` append a line for the receive buffer to the result log; only
`n <= 0` suppresses the append. -/
theorem receive_result_appends_on_short_read :
    (0 : Int) < 1060 ∧ (1060 : Int) < (sizeofDashboardStudent : Int) ∧
    handle_client_receive_result 1060 demoResult true [] = some (resultLine demoResult) ∧
    resultLine demoResult = "r1|Al|1|3|0|48|10,30,8,".toList ++ [NL] := by
  decide

/-- C6: for a record whose `totalQuestions` is at most `NUM_EXAM_QUESTIONS`
(the response-time array having its `NUM_EXAM_QUESTIONS` entries),
`append_result` with a successful `fopen` extends the log by exactly the
line: roll, `|`, name, `|`, decimal correct answers, `|`, decimal total
questions, `|`, decimal flag, `|`, decimal total time, `|`, each of the first
`totalQuestions` response times in decimal followed by `,`, and a line
terminator. Whether `fopen` succeeds or not, the new log is the old log with
text added at its end. Negative `totalQuestions` need not be excluded: no
response time is written then. -/
theorem append_result_line (log : List Char) (s : DashboardStudent)
    (hrt : s.responseTimes.length = NUM_EXAM_QUESTIONS)
    (h1 : s.totalQuestions ≤ NUM_EXAM_QUESTIONS) :
    append_result true log s =
      some (log ++ (s.roll ++ ['|'] ++ s.name ++ ['|'] ++ fmt_d s.correctAnswers ++ ['|'] ++
        fmt_d s.totalQuestions ++ ['|'] ++ fmt_d s.flagged ++ ['|'] ++ fmt_d s.totalTime ++ ['|'] ++
        (s.responseTimes.take s.totalQuestions.toNat).flatMap (fun t => fmt_d t ++ [',']) ++
        [NL])) ∧
    ∀ fopenOk : Bool, ∃ added : List Char, append_result fopenOk log s = some (log ++ added) := by
  have hle : s.totalQuestions.toNat ≤ s.responseTimes.length := by
    rw [hrt]
    have : s.totalQuestions ≤ 5 := h1
    unfold NUM_EXAM_QUESTIONS
    omega
  refine ⟨append_result_eq log s hle, ?_⟩
  intro fopenOk
  cases fopenOk with
  | true => exact ⟨resultLine s, append_result_eq log s hle⟩
  | false => exact ⟨[], by simp [append_result]⟩

/-- The line of C6 for `demoResult` appended to a log that already holds a
line. -/
theorem append_result_line_witness :
    demoResult.responseTimes.length = NUM_EXAM_QUESTIONS ∧
    demoResult.totalQuestions ≤ NUM_EXAM_QUESTIONS ∧
    append_result true ("r0|Cy|0|0|0|0|".toList ++ [NL]) demoResult =
      some ("r0|Cy|0|0|0|0|".toList ++ [NL] ++ ("r1|Al|1|3|0|48|10,30,8,".toList ++ [NL])) := by
  refine ⟨by decide, by decide, ?_⟩
  rw [(append_result_line ("r0|Cy|0|0|0|0|".toList ++ [NL]) demoResult (by decide)
    (by decide)).1]
  decide

/-- C7: reload undoes append. For a list `rs` of at most `MAX_STUDENTS` records,
each with non-empty roll and name free of the field delimiter and the line
terminator, `totalQuestions` between 0 and `NUM_EXAM_QUESTIONS` and a line
that fits the line buffer (`reloadable`), appending them in order to an empty
log succeeds, and `loadDashboardData` on that log returns
`studentCount = rs.length` and, at every index `i` below it, a record with
the roll, name, correct answers, total questions, flag, total time and first
`totalQuestions` response times of `rs[i]`, whatever the array held before. -/
theorem reload_undoes_append (rs : List DashboardStudent)
    (dashboardStudents : List DashboardStudent) (studentCount : Nat)
    (hK : rs.length ≤ MAX_STUDENTS) (harr : dashboardStudents.length = MAX_STUDENTS)
    (hslots : ∀ s ∈ dashboardStudents, s.responseTimes.length = NUM_EXAM_QUESTIONS)
    (hrs : ∀ r ∈ rs, reloadable r) :
    ∃ (log : List Char) (loaded : List DashboardStudent),
      appendAll [] rs = some log ∧
      loadDashboardData (some log) dashboardStudents studentCount = some (loaded, rs.length) ∧
      ∀ (i : Nat) (hi : i < rs.length), ∃ s : DashboardStudent,
        loaded[i]? = some s ∧
        s.roll = rs[i].roll ∧ s.name = rs[i].name ∧
        s.correctAnswers = rs[i].correctAnswers ∧ s.totalQuestions = rs[i].totalQuestions ∧
        s.flagged = rs[i].flagged ∧ s.totalTime = rs[i].totalTime ∧
        s.responseTimes.take rs[i].totalQuestions.toNat =
          rs[i].responseTimes.take rs[i].totalQuestions.toNat := by
  obtain ⟨loaded, hload, hcontent⟩ :=
    loadDashboardData_appended rs dashboardStudents studentCount hK harr hslots hrs
  have happ : appendAll [] rs = some (rs.flatMap resultLine) := by
    rw [appendAll_eq rs [] (fun r hr => by
      obtain ⟨-, -, -, -, -, h5, hrt, -⟩ := hrs r hr
      have : r.totalQuestions ≤ 5 := h5
      rw [hrt]
      unfold NUM_EXAM_QUESTIONS
      omega)]
    rfl
  exact ⟨rs.flatMap resultLine, loaded, happ, hload, hcontent⟩

/-- The round trip of C7 for the two records of `demoDashboard` and the
zero-initialised array. -/
theorem reload_undoes_append_witness :
    demoDashboard.length ≤ MAX_STUDENTS ∧ emptyDashboard.length = MAX_STUDENTS ∧
    (∀ r ∈ demoDashboard, reloadable r) ∧
    ∃ (log : List Char) (loaded : List DashboardStudent),
      appendAll [] demoDashboard = some log ∧
      loadDashboardData (some log) emptyDashboard 0 = some (loaded, demoDashboard.length) ∧
      ∀ (i : Nat) (hi : i < demoDashboard.length), ∃ s : DashboardStudent,
        loaded[i]? = some s ∧
        s.roll = demoDashboard[i].roll ∧ s.name = demoDashboard[i].name ∧
        s.correctAnswers = demoDashboard[i].correctAnswers ∧
        s.totalQuestions = demoDashboard[i].totalQuestions ∧
        s.flagged = demoDashboard[i].flagged ∧ s.totalTime = demoDashboard[i].totalTime ∧
        s.responseTimes.take demoDashboard[i].totalQuestions.toNat =
          demoDashboard[i].responseTimes.take demoDashboard[i].totalQuestions.toNat :=
  ⟨by decide, by decide, by decide,
    reload_undoes_append demoDashboard emptyDashboard 0 (by decide) (by decide)
      (fun s hs => by rw [List.eq_of_mem_replicate hs]; rfl) (by decide)⟩

/-- C8: for a dashboard array whose first `studentCount` slots are in use,
`rankStudents` keeps the length of the array, and afterwards for all positions
`i < j < studentCount` the record at `i` has at least as many correct answers
as the record at `j`. -/
theorem rankStudents_descending (a : List DashboardStudent) (studentCount : Nat)
    (h : studentCount ≤ a.length) :
    (rankStudents a studentCount).length = a.length ∧
    ∀ (i j : Nat) (x y : DashboardStudent), i < j → j < studentCount →
      (rankStudents a studentCount)[i]? = some x →
      (rankStudents a studentCount)[j]? = some y →
      y.correctAnswers ≤ x.correctAnswers := by
  obtain ⟨r, hr, hlen, hsorted, -, -⟩ := rankStudents_spec a studentCount h
  constructor
  · rw [hr, List.length_append, withRanks_length, hlen, List.length_drop]
    omega
  · intro i j x y hij hj hx hy
    have hget : ∀ (m : Nat) (w : DashboardStudent), m < studentCount →
        (rankStudents a studentCount)[m]? = some w →
        ∃ hm : m < r.length, w.correctAnswers = r[m].correctAnswers := by
      intro m w hm hw
      have hm' : m < r.length := by omega
      rw [hr, List.getElem?_append_left (by rw [withRanks_length]; exact hm'),
        withRanks_getElem?, List.getElem?_eq_getElem hm'] at hw
      simp only [Option.map_some', Option.some.injEq] at hw
      exact ⟨hm', by rw [← hw]⟩
    obtain ⟨hi', hxe⟩ := hget i x (by omega) hx
    obtain ⟨hj', hye⟩ := hget j y hj hy
    rw [hxe, hye]
    exact List.pairwise_iff_getElem.mp hsorted i j hi' hj' hij

/-- The order of C8 for the two records of `demoDashboard`. -/
theorem rankStudents_descending_witness :
    2 ≤ demoDashboard.length ∧
    ∀ (i j : Nat) (x y : DashboardStudent), i < j → j < 2 →
      (rankStudents demoDashboard 2)[i]? = some x →
      (rankStudents demoDashboard 2)[j]? = some y →
      y.correctAnswers ≤ x.correctAnswers :=
  ⟨by decide, (rankStudents_descending demoDashboard 2 (by decide)).2⟩

/-- C9: `rankStudents` is stable. For every number `k` of correct answers, the
records with `k` correct answers appear among the first `studentCount` slots
after ranking in the same order as before ranking (the order in which they
were loaded), the rank field, which ranking overwrites, being left out of
the comparison. -/
theorem rankStudents_stable (a : List DashboardStudent) (studentCount : Nat)
    (h : studentCount ≤ a.length) (k : Int) :
    (((rankStudents a studentCount).take studentCount).filter
        (fun s => decide (s.correctAnswers = k))).map eraseRank =
      (((a.take studentCount)).filter (fun s => decide (s.correctAnswers = k))).map eraseRank := by
  obtain ⟨r, hr, hlen, -, -, hfilter⟩ := rankStudents_spec a studentCount h
  rw [rankStudents_take a studentCount r hr hlen,
    withRanks_filter (fun s => decide (s.correctAnswers = k)) (fun _ _ => rfl),
    hfilter (fun s => decide (s.correctAnswers = k))]
  intro u v hu hv
  simp only [decide_eq_true_eq] at hu hv
  rw [hu, hv]

/-- The stability of C9 on three records of which the first and the last both
have one correct answer: they keep their order. -/
theorem rankStudents_stable_witness :
    3 ≤ (demoResult :: demoDashboard).length ∧
    (((rankStudents (demoResult :: demoDashboard) 3).take 3).filter
        (fun s => decide (s.correctAnswers = 1))).map eraseRank =
      (((demoResult :: demoDashboard).take 3).filter
        (fun s => decide (s.correctAnswers = 1))).map eraseRank :=
  ⟨by decide, rankStudents_stable (demoResult :: demoDashboard) 3 (by decide) 1⟩

/-- C10: `rankStudents` only rearranges the first `studentCount` records and
overwrites their rank. With the rank field left out, the records in use after
ranking are a permutation of those before (the same multiset); the record at
position `i` has rank `i + 1`, so the ranks are `1, ..., studentCount` in
this order; the slots from `studentCount` on are untouched. -/
theorem rankStudents_rearranges (a : List DashboardStudent) (studentCount : Nat)
    (h : studentCount ≤ a.length) :
    (((rankStudents a studentCount).take studentCount).map eraseRank).Perm
      ((a.take studentCount).map eraseRank) ∧
    (∀ i : Nat, i < studentCount →
      ((rankStudents a studentCount)[i]?).map DashboardStudent.rank = some ((i : Int) + 1)) ∧
    ((rankStudents a studentCount).take studentCount).map DashboardStudent.rank =
      (List.range' 1 studentCount).map (fun n => (n : Int)) ∧
    (rankStudents a studentCount).drop studentCount = a.drop studentCount := by
  obtain ⟨r, hr, hlen, -, hperm, -⟩ := rankStudents_spec a studentCount h
  refine ⟨?_, ?_, ?_, ?_⟩
  · rw [rankStudents_take a studentCount r hr hlen, withRanks_eraseRank]
    exact hperm.map eraseRank
  · intro i hi
    have hi' : i < r.length := by omega
    rw [hr, List.getElem?_append_left (by rw [withRanks_length]; exact hi'),
      withRanks_getElem?, List.getElem?_eq_getElem hi']
    simp
  · rw [rankStudents_take a studentCount r hr hlen, withRanks_rank, hlen]
  · rw [hr, List.drop_append_of_le_length (by rw [withRanks_length, hlen])]
    rw [List.drop_of_length_le (by rw [withRanks_length, hlen])]
    rfl

/-- The ranks of C10 for the two records of `demoDashboard`. -/
theorem rankStudents_rearranges_witness :
    2 ≤ demoDashboard.length ∧
    ((rankStudents demoDashboard 2).take 2).map DashboardStudent.rank = [1, 2] :=
  ⟨by decide, (rankStudents_rearranges demoDashboard 2 (by decide)).2.2.1⟩

/-- C11: for a dashboard array whose first `studentCount` records have
`totalQuestions` at most `NUM_EXAM_QUESTIONS` (the response-time arrays having
their `NUM_EXAM_QUESTIONS` entries), `flagSuspiciousActivity` returns the
array in which each of these records has its flag set to 1 when one of its
first `totalQuestions` response times is below 2, whatever the flag was, and
is otherwise left as it was, flag included; no other field and no other slot
changes. Negative `totalQuestions` need not be excluded: no response time is
looked at then. -/
theorem flagSuspiciousActivity_flags (a : List DashboardStudent) (studentCount : Nat)
    (h : studentCount ≤ a.length)
    (hrec : ∀ s ∈ a.take studentCount,
      s.totalQuestions ≤ NUM_EXAM_QUESTIONS ∧ s.responseTimes.length = NUM_EXAM_QUESTIONS) :
    flagSuspiciousActivity a studentCount =
      some ((a.take studentCount).map
          (fun s =>
            { s with
              flagged :=
                if (s.responseTimes.take s.totalQuestions.toNat).any (fun t => decide (t < 2))
                then 1 else s.flagged }) ++
        a.drop studentCount) :=
  flagSuspiciousActivity_eq a studentCount h (fun s hs => by
    obtain ⟨h5, hrt⟩ := hrec s hs
    have : s.totalQuestions ≤ 5 := h5
    rw [hrt]
    unfold NUM_EXAM_QUESTIONS
    omega)

/-- The flag pass of C11 on two loaded records, the second with a response
time of one second and no flag reported: only its flag changes. -/
theorem flagSuspiciousActivity_flags_witness :
    2 ≤ [demoResult, { demoResult2 with responseTimes := [9, 1, 9, 9, 9] }].length ∧
    flagSuspiciousActivity [demoResult, { demoResult2 with responseTimes := [9, 1, 9, 9, 9] }] 2 =
      some [demoResult, { demoResult2 with responseTimes := [9, 1, 9, 9, 9], flagged := 1 }] := by
  refine ⟨by decide, ?_⟩
  rw [flagSuspiciousActivity_flags _ 2 (by decide) (by decide)]
  decide

/-- C12: the start flag is 0 in the initial state, and from a state in which
it is 1 every sequence of operations of the server (logins and ends of
sessions, `start_exam`, dashboard views, rule and question edits) that the
program carries out leads to a state in which it is 1. -/
theorem examStarted_never_reset (ops : List Op) (sys sys1 : System)
    (hs : sys.server.examStarted = 1) (hrun : run sys ops = some sys1) :
    sys1.server.examStarted = 1 ∧ initialSystem.server.examStarted = 0 :=
  ⟨run_examStarted ops sys sys1 hrun hs, rfl⟩

/-- The invariance of C12 along `laterOps` from `startedSystem`. -/
theorem examStarted_never_reset_witness :
    startedSystem.server.examStarted = 1 ∧
    ∃ sys1 : System, run startedSystem laterOps = some sys1 ∧ sys1.server.examStarted = 1 := by
  refine ⟨rfl, ?_⟩
  have hsome : (run startedSystem laterOps).isSome = true := by decide
  obtain ⟨sys1, hrun⟩ := Option.isSome_iff_exists.mp hsome
  exact ⟨sys1, hrun, (examStarted_never_reset laterOps startedSystem sys1 rfl hrun).1⟩

/-- C13: with an empty registry `start_exam` returns the state as it was
(start flag, registry and question store included) and makes no call of
`send`. -/
theorem start_exam_empty_registry (st : Server) (ok : Nat → Bool) (rands : Nat → Nat → Nat)
    (h : st.clientCount = 0) : start_exam st ok rands = (st, []) := by
  unfold start_exam
  rw [if_pos h]

/-- The no-op of C13 on the initial state of the server. -/
theorem start_exam_empty_registry_witness :
    initialSystem.server.clientCount = 0 ∧
    start_exam initialSystem.server (fun _ => true) (fun _ _ => 0) =
      (initialSystem.server, []) :=
  ⟨rfl, start_exam_empty_registry _ _ _ rfl⟩

/-- C14 (counterexample): in a registry in which two entries have socket 7,
deregistering socket 7 twice removes both entries, deregistering it once
removes only the first. -/
theorem deregister_twice_differs :
    deregister (deregister duplicateRegistry 7) 7 = [] ∧
    deregister duplicateRegistry 7 = [{ sock := 7, roll := "r2".toList }] ∧
    deregister (deregister duplicateRegistry 7) 7 ≠ deregister duplicateRegistry 7 := by
  decide

/-- C14 (amended): for every registry and every socket the deregistration
removes the first entry with that socket and keeps all other entries in their
order, `clientCount` decreasing by one; when no entry has the socket the
registry is unchanged; and when at most one entry has the socket,
deregistering twice equals deregistering once. -/
theorem deregister_erases_first (clients : List Client) (client_sock : Int) :
    deregister clients client_sock =
      clients.eraseP (fun c => decide (c.sock = client_sock)) ∧
    (∀ (pre post : List Client) (c : Client), clients = pre ++ c :: post →
      c.sock = client_sock → (∀ x ∈ pre, x.sock ≠ client_sock) →
      deregister clients client_sock = pre ++ post ∧
        (deregister clients client_sock).length + 1 = clients.length) ∧
    ((∀ c ∈ clients, c.sock ≠ client_sock) → deregister clients client_sock = clients) ∧
    ((clients.filter (fun c => decide (c.sock = client_sock))).length ≤ 1 →
      deregister (deregister clients client_sock) client_sock =
        deregister clients client_sock) := by
  refine ⟨deregister_eq_eraseP clients client_sock, ?_, ?_, ?_⟩
  · intro pre post c hcs hc hpre
    have hd : deregister clients client_sock = pre ++ post := by
      rw [deregister_eq_eraseP, hcs,
        List.eraseP_append_right _ (fun x hx => by simpa using hpre x hx),
        List.eraseP_cons_of_pos (by simpa using hc)]
    refine ⟨hd, ?_⟩
    rw [hd, hcs]
    simp only [List.length_append, List.length_cons]
    omega
  · intro hno
    rw [deregister_eq_eraseP]
    exact List.eraseP_of_forall_not (fun c hc => by simpa using hno c hc)
  · intro hone
    rw [deregister_eq_eraseP, deregister_eq_eraseP]
    exact List.eraseP_of_forall_not (eraseP_no_match_left _ clients hone)

/-- The deregistration of C14 on the registry of `demoServer`: socket 7 is
removed, then nothing more. -/
theorem deregister_erases_first_witness :
    (demoServer.clients.filter (fun c => decide (c.sock = 7))).length ≤ 1 ∧
    deregister demoServer.clients 7 = [{ sock := 8, roll := "r2".toList }] ∧
    deregister (deregister demoServer.clients 7) 7 = deregister demoServer.clients 7 := by
  refine ⟨by decide, ?_, (deregister_erases_first demoServer.clients 7).2.2.2 (by decide)⟩
  rw [(deregister_erases_first demoServer.clients 7).1]
  decide

set_option maxRecDepth 100000 in
/-- C15 (failing input): the registration makes no test on `clientCount`.
After 100 registrations the registry fills the array `clients`
(`clientCount` = `MAX_STUDENTS`), and the next registration writes to index
100, outside the array. -/
theorem register_beyond_capacity :
    (List.range 100).foldl
        (fun r k => r.bind (fun cs => register cs (k : Int) "r".toList)) (some []) =
      some ((List.range 100).map (fun k => { sock := (k : Int), roll := "r".toList })) ∧
    ((List.range 100).map
      (fun k => ({ sock := (k : Int), roll := "r".toList } : Client))).length = MAX_STUDENTS ∧
    register ((List.range 100).map (fun k => { sock := (k : Int), roll := "r".toList })) 100
      "r".toList = none := by
  decide

/-- C16: when the directory lookup rejects the credentials of a login message,
`handle_client` calls `send` once, with the 8 bytes `INVALID` and terminator,
and returns: the registry, the other globals and the result file are
unchanged. And whenever the first part of `handle_client` changes the
registry, the lookup succeeded with some name and registration number, the
reply `name|reg_no` with terminator was sent in full, and the registry has
grown by the entry of this session at its end; the result file is never
touched. -/
theorem handle_client_login_rejected (directory : Option (List StudentEntry)) (ok : Nat → Bool)
    (client_sock : Int) (sys : System) :
    (∀ (n : Int) (buffer roll0 password0 : List Char), 0 < n →
      verify_student directory (scanLogin buffer roll0 password0).1
        (scanLogin buffer roll0 password0).2 = none →
      handle_client_login directory ok client_sock n buffer roll0 password0 sys =
        some ({ sys with
                trace := sys.trace ++
                  [{ sock := client_sock,
                     msg := Msg.bytes ['I', 'N', 'V', 'A', 'L', 'I', 'D', NUL],
                     ok := ok sys.trace.length }] }, false)) ∧
    (∀ (n : Int) (buffer roll0 password0 : List Char) (sys1 : System) (b : Bool),
      handle_client_login directory ok client_sock n buffer roll0 password0 sys =
        some (sys1, b) →
      sys1.log = sys.log ∧
      (sys1.server.clients ≠ sys.server.clients →
        ∃ name reg_no : List Char,
          verify_student directory (scanLogin buffer roll0 password0).1
            (scanLogin buffer roll0 password0).2 = some (name, reg_no) ∧
          sys1.trace = sys.trace ++
            [{ sock := client_sock, msg := Msg.bytes (name ++ ['|'] ++ reg_no ++ [NUL]),
               ok := true }] ∧
          sys1.server.clients = sys.server.clients ++
            [{ sock := client_sock,
               roll := (scanLogin buffer roll0 password0).1.take (MAX_LINE - 1) }])) := by
  constructor
  · intro n buffer roll0 password0 hn hrej
    unfold handle_client_login
    rw [if_neg (by omega)]
    simp only [hrej, send]
    rfl
  · intro n buffer roll0 password0 sys1 b hlogin
    refine ⟨(handle_client_login_server _ _ _ _ _ _ _ _ _ _ hlogin).1, ?_⟩
    intro hchanged
    unfold handle_client_login at hlogin
    by_cases hn : n ≤ 0
    · simp only [hn, if_true, Option.some.injEq, Prod.mk.injEq] at hlogin
      exact absurd (by rw [← hlogin.1]) hchanged
    · simp only [hn, if_false] at hlogin
      cases hv : verify_student directory (scanLogin buffer roll0 password0).1
          (scanLogin buffer roll0 password0).2 with
      | none =>
        simp only [hv, Option.some.injEq, Prod.mk.injEq] at hlogin
        exact absurd (by rw [← hlogin.1]) hchanged
      | some nr =>
        obtain ⟨name, reg_no⟩ := nr
        obtain ⟨hname, hreg⟩ := verify_student_length _ _ _ _ _ hv
        have htake : (name ++ ['|'] ++ reg_no).take 99 = name ++ ['|'] ++ reg_no :=
          List.take_of_length_le (by simp; omega)
        simp only [hv, htake] at hlogin
        by_cases hok : ok sys.trace.length = true
        · simp only [send, hok, Bool.not_true, Bool.false_eq_true, if_false] at hlogin
          cases hr : register sys.server.clients client_sock
              (scanLogin buffer roll0 password0).1 with
          | none => simp [hr] at hlogin
          | some cs =>
            simp only [hr, Option.some.injEq, Prod.mk.injEq] at hlogin
            obtain ⟨rfl, -⟩ := hlogin
            refine ⟨name, reg_no, rfl, rfl, ?_⟩
            unfold register at hr
            split at hr
            · simp only [Option.some.injEq] at hr
              exact hr.symm
            · exact absurd hr (by simp)
        · simp only [send, hok, Bool.not_false, if_true, Option.some.injEq,
            Prod.mk.injEq] at hlogin
          exact absurd (by rw [← hlogin.1]) hchanged

/-- The rejection of C16 for a login with a wrong password, the send of the
marker succeeding. -/
theorem handle_client_login_rejected_witness :
    (0 : Int) < 5 ∧
    verify_student demoDirectory (scanLogin "r1|no".toList [] []).1
      (scanLogin "r1|no".toList [] []).2 = none ∧
    handle_client_login demoDirectory (fun _ => true) 9 5 "r1|no".toList [] [] startedSystem =
      some ({ startedSystem with
              trace := startedSystem.trace ++
                [{ sock := 9, msg := Msg.bytes ['I', 'N', 'V', 'A', 'L', 'I', 'D', NUL],
                   ok := true }] }, false) :=
  ⟨by decide, by decide,
    (handle_client_login_rejected demoDirectory (fun _ => true) 9 startedSystem).1 5
      "r1|no".toList [] [] (by decide) (by decide)⟩

/-- C17: with at least one registered client and whatever calls of `send`
fail, `start_exam` sets the start flag; and for the `i`-th registry entry, no
other entry having its socket, if every call of `send` made on that socket
succeeds, the messages written to it are the start marker followed by the
full exam data: the four configuration values and the
`min NUM_EXAM_QUESTIONS totalQuestions` question records. -/
theorem start_exam_failure_is_local (st : Server) (ok : Nat → Bool) (rands : Nat → Nat → Nat)
    (hne : st.clients ≠ []) (i : Nat) (hi : i < st.clients.length)
    (huniq : ∀ (j : Nat) (hj : j < st.clients.length),
      st.clients[j].sock = st.clients[i].sock → j = i)
    (hall : ∀ e ∈ (start_exam st ok rands).2, e.sock = st.clients[i].sock → e.ok = true) :
    (start_exam st ok rands).1.examStarted = 1 ∧
    messagesTo st.clients[i].sock (start_exam st ok rands).2 =
      [Msg.bytes ['S', 'T', 'A', 'R', 'T', NUL], Msg.int (validAnswerTimeout st),
        Msg.float (validMarksForCorrectAnswer st),
        Msg.float (validMarksDeductedForWrongAnswer st),
        Msg.int (min NUM_EXAM_QUESTIONS st.totalQuestions : Nat)] ++
      (selectedIndices (rands i) st.totalQuestions).map
        (fun idx => Msg.question (deliveredRecord st.questions idx)) := by
  constructor
  · unfold start_exam
    rw [if_neg (by
      intro h
      exact hne (List.length_eq_zero.mp h))]
  · rw [start_exam_eq_traceFrom] at hall ⊢
    rw [messagesTo_traceFrom st ok rands st.clients 0 0 i hi huniq hall, Nat.zero_add]
    rfl

/-- The locality of C17 on `demoServer` when the second call of `send`, the
timeout sent to the first client, fails: the second client still gets the
start marker and the full exam data. -/
theorem start_exam_failure_is_local_witness :
    demoServer.clients ≠ [] ∧
    (start_exam demoServer (fun k => decide (k ≠ 1)) (fun _ _ => 1)).1.examStarted = 1 ∧
    messagesTo 7 (start_exam demoServer (fun k => decide (k ≠ 1)) (fun _ _ => 1)).2 =
      [Msg.bytes ['S', 'T', 'A', 'R', 'T', NUL]] ∧
    messagesTo 8 (start_exam demoServer (fun k => decide (k ≠ 1)) (fun _ _ => 1)).2 =
      [Msg.bytes ['S', 'T', 'A', 'R', 'T', NUL], Msg.int (validAnswerTimeout demoServer),
        Msg.float (validMarksForCorrectAnswer demoServer),
        Msg.float (validMarksDeductedForWrongAnswer demoServer),
        Msg.int (min NUM_EXAM_QUESTIONS demoServer.totalQuestions : Nat)] ++
      (selectedIndices (fun _ => 1) demoServer.totalQuestions).map
        (fun idx => Msg.question (deliveredRecord demoServer.questions idx)) := by
  have h := start_exam_failure_is_local demoServer (fun k => decide (k ≠ 1)) (fun _ _ => 1)
    (by decide) 1 (by decide) (by decide) (by decide)
  exact ⟨by decide, h.1, by decide, h.2⟩

/-- C18: the calls of `send` that `send_exam_data` makes are, up to the first
failing one, those for the timeout, the two marks, the question count and the
questions, where the timeout is `answerTimeout` when it lies in 1..3600 and
30 otherwise, the marks for a correct answer are `marksForCorrectAnswer` when
`0 < m ≤ 100` and 1 otherwise, and the marks deducted are
`marksDeductedForWrongAnswer` when `0 ≤ m ≤ 100` and 1/4 otherwise (marks as
exact rationals); these three values always lie in their ranges. -/
theorem send_exam_data_config (st : Server) (ok : Nat → Bool) (rand : Nat → Nat)
    (tr : List SendEvent) (sock : Int) :
    send_exam_data st ok rand tr sock =
      tr ++ sendEvents ok sock
        ([Msg.int (if 1 ≤ st.answerTimeout ∧ st.answerTimeout ≤ 3600 then st.answerTimeout
            else 30),
          Msg.float (if 0 < st.marksForCorrectAnswer ∧ st.marksForCorrectAnswer ≤ 100
            then st.marksForCorrectAnswer else 1),
          Msg.float (if 0 ≤ st.marksDeductedForWrongAnswer ∧
              st.marksDeductedForWrongAnswer ≤ 100
            then st.marksDeductedForWrongAnswer else 1 / 4),
          Msg.int (min NUM_EXAM_QUESTIONS st.totalQuestions : Nat)] ++
          (selectedIndices rand st.totalQuestions).map
            (fun idx => Msg.question (deliveredRecord st.questions idx)))
        tr.length ∧
    (1 ≤ validAnswerTimeout st ∧ validAnswerTimeout st ≤ 3600) ∧
    (0 < validMarksForCorrectAnswer st ∧ validMarksForCorrectAnswer st ≤ 100) ∧
    (0 ≤ validMarksDeductedForWrongAnswer st ∧ validMarksDeductedForWrongAnswer st ≤ 100) := by
  refine ⟨?_, ?_, ?_, ?_⟩
  · rw [send_exam_data_eq_sendEvents]
    have ht : validAnswerTimeout st =
        if 1 ≤ st.answerTimeout ∧ st.answerTimeout ≤ 3600 then st.answerTimeout else 30 := by
      unfold validAnswerTimeout
      by_cases h : 0 < st.answerTimeout ∧ st.answerTimeout ≤ 3600
      · rw [if_pos h, if_pos ⟨by omega, h.2⟩]
      · rw [if_neg h, if_neg (fun h1 => h ⟨by omega, h1.2⟩)]
    rw [← ht]
    rfl
  · unfold validAnswerTimeout
    split
    · rename_i h
      exact ⟨by omega, h.2⟩
    · exact ⟨by decide, by decide⟩
  · unfold validMarksForCorrectAnswer
    split
    · rename_i h
      exact h
    · norm_num
  · unfold validMarksDeductedForWrongAnswer
    split
    · rename_i h
      exact h
    · norm_num

/-- C19 (failing input): the record of the client has no rank field, so it is
4 bytes shorter than the record of the server and its flag lies where the
server has the rank. For the record that `conduct_exam` sends after one
question answered in one second (flag 1), the server finds the flag of the
client in `rank`, and its own `flagged` keeps what the receive buffer held
(here 0). -/
theorem result_record_layout_differs :
    (conduct_exam "r1".toList "Al".toList [default_q] 30 (fun _ => 0) (fun _ => false)
      fastInput).map Prod.fst = some fastResult ∧
    sizeofExamResult = 1060 ∧ sizeofDashboardStudent = 1064 ∧
    fastResult.flagged = 1 ∧
    (recvResult fastResult zeroStudent).flagged = 0 ∧
    (recvResult fastResult zeroStudent).rank = 1 := by
  decide

/-- C20: for every run of `conduct_exam` on at most `NUM_EXAM_QUESTIONS`
questions, `conduct_exam` returns, and the weighted score is the sum, over
the iterations run before the exam ends, of the points of the iteration: the
difficulty weight (1, 3/2 or 2 for difficulty 1, 2 or 3) when the question is
answered with the letter equal to its correct tag, and nothing for a
question skipped, timed out, or answered with another letter or with no
option letter. -/
theorem conduct_exam_weighted_score (roll name : List Char) (questions : List Question)
    (answerTimeout : Int) (rand : Nat → Nat) (examTimeUp : Nat → Bool)
    (input : Int → Nat → Outcome) (h : questions.length ≤ NUM_EXAM_QUESTIONS) :
    (∃ r : ExamResult,
      conduct_exam roll name questions answerTimeout rand examTimeUp input =
        some (r,
          ((iterationsRun questions (clientIndices rand questions.length) examTimeUp
              (input answerTimeout)).map
            (pointsEarned questions (clientIndices rand questions.length)
              (input answerTimeout))).sum)) ∧
    diffWeights 1 = 1 ∧ diffWeights 2 = 3 / 2 ∧ diffWeights 3 = 2 ∧
    ∀ i : Nat,
      classify (input answerTimeout i) = Answer.timeout ∨
        classify (input answerTimeout i) = Answer.invalid →
      pointsEarned questions (clientIndices rand questions.length) (input answerTimeout) i =
        0 := by
  refine ⟨?_, by norm_num [diffWeights], by norm_num [diffWeights], by norm_num [diffWeights], ?_⟩
  · obtain ⟨s1, h1, h2⟩ := examLoop_score questions (clientIndices rand questions.length)
      examTimeUp (input answerTimeout) questions.length 0 initialExamState (by
        simpa [initialExamState] using h)
    unfold conduct_exam
    simp only [h1]
    refine ⟨_, congrArg some (Prod.ext rfl ?_)⟩
    simp only [h2]
    simp [initialExamState, iterationsRun, List.range_eq_range']
  · intro i hi
    unfold pointsEarned
    rw [if_neg]
    rintro ⟨-, h2⟩
    rcases hi with hi | hi <;> rw [hi] at h2 <;> exact Answer.noConfusion h2

/-- The scenario of C20: three questions of difficulty 1, 2 and 3, the first
answered correctly in 10 seconds, the second timed out, the third answered
wrongly in 8 seconds: weighted score 1. -/
theorem conduct_exam_weighted_score_witness :
    sampleQuestions.length ≤ NUM_EXAM_QUESTIONS ∧
    ∃ r : ExamResult,
      conduct_exam "r1".toList "Al".toList sampleQuestions 30 identityDraws (fun _ => false)
        sampleInput = some (r, 1) := by
  refine ⟨by decide, ?_⟩
  obtain ⟨r, hr⟩ := (conduct_exam_weighted_score "r1".toList "Al".toList sampleQuestions 30
    identityDraws (fun _ => false) sampleInput (by decide)).1
  refine ⟨r, ?_⟩
  rw [hr]
  have hidx : clientIndices identityDraws sampleQuestions.length = [0, 1, 2] := by decide
  have hrun : iterationsRun sampleQuestions [0, 1, 2] (fun _ => false) (sampleInput 30) =
      [0, 1, 2] := by decide
  rw [hidx, hrun]
  have h0 : pointsEarned sampleQuestions [0, 1, 2] (sampleInput 30) 0 = 1 := by
    unfold pointsEarned
    rw [if_pos (by decide)]
    norm_num [diffWeights, shownQuestion, sampleQuestions]
  have h1 : pointsEarned sampleQuestions [0, 1, 2] (sampleInput 30) 1 = 0 := by
    unfold pointsEarned
    rw [if_neg (by decide)]
  have h2 : pointsEarned sampleQuestions [0, 1, 2] (sampleInput 30) 2 = 0 := by
    unfold pointsEarned
    rw [if_neg (by decide)]
  simp [h0, h1, h2]

/-- C21 (counterexample): with a time limit of 30 seconds per question, the
second question of `lateInput` gets no answer in time, the wait being
measured as 31 seconds; `conduct_exam` records 31 as its response time, not
the time limit. -/
theorem conduct_exam_timeout_records_measured_time :
    classify (lateInput 30 1) = Answer.timeout ∧
    (conduct_exam "r1".toList "Al".toList sampleQuestions 30 identityDraws (fun _ => false)
      lateInput).map (fun p => p.1.responseTimes) = some [10, 31, 8, 0, 0] := by
  decide

/-- C21 (amended): for every run of `conduct_exam` on at most
`NUM_EXAM_QUESTIONS` questions and every iteration `i` run in which the
question is shown and no answer arrives in time, `conduct_exam` returns, the
attempted count sent is the number of iterations run (iteration `i` counts
once), the correct count sent is the number of iterations answered
correctly, of which `i` is none, iteration `i` adds nothing to the weighted
score, and the response time recorded at index `i` is the time measured
around the wait for the answer. -/
theorem conduct_exam_timeout (roll name : List Char) (questions : List Question)
    (answerTimeout : Int) (rand : Nat → Nat) (examTimeUp : Nat → Bool)
    (input : Int → Nat → Outcome) (i : Nat) (h : questions.length ≤ NUM_EXAM_QUESTIONS)
    (hi : i ∈ iterationsRun questions (clientIndices rand questions.length) examTimeUp
      (input answerTimeout))
    (hshown :
      questionSkipped (shownQuestion questions (clientIndices rand questions.length) i) = false)
    (htimeout : classify (input answerTimeout i) = Answer.timeout) :
    ∃ (r : ExamResult) (score : ℚ),
      conduct_exam roll name questions answerTimeout rand examTimeUp input = some (r, score) ∧
      r.totalQuestions =
        (iterationsRun questions (clientIndices rand questions.length) examTimeUp
          (input answerTimeout)).length ∧
      r.correctAnswers =
        ((iterationsRun questions (clientIndices rand questions.length) examTimeUp
          (input answerTimeout)).filter
          (answeredCorrectly questions (clientIndices rand questions.length)
            (input answerTimeout))).length ∧
      answeredCorrectly questions (clientIndices rand questions.length) (input answerTimeout)
        i = false ∧
      score =
        ((iterationsRun questions (clientIndices rand questions.length) examTimeUp
            (input answerTimeout)).map
          (pointsEarned questions (clientIndices rand questions.length)
            (input answerTimeout))).sum ∧
      pointsEarned questions (clientIndices rand questions.length) (input answerTimeout) i =
        0 ∧
      r.responseTimes[i]? = some (input answerTimeout i).answerTime := by
  obtain ⟨r, score, h1, h2, h3, h4, -, -, h7⟩ :=
    conduct_exam_counts roll name questions answerTimeout rand examTimeUp input h
  refine ⟨r, score, h1, h2, h3, ?_, h4, ?_, h7 i hi hshown⟩
  · rw [answeredCorrectly, htimeout, decide_eq_false (fun h => Answer.noConfusion h),
      Bool.and_false]
  · unfold pointsEarned
    rw [if_neg]
    rintro ⟨-, h2⟩
    rw [htimeout] at h2
    exact Answer.noConfusion h2

/-- The scenario of C21: time limit 30, three questions, the first answered
correctly in 10 seconds, the second timed out, the third answered wrongly in
8 seconds: three questions attempted, one correct, and 30 seconds recorded
for the second, as measured. -/
theorem conduct_exam_timeout_witness :
    ∃ (r : ExamResult) (score : ℚ),
      conduct_exam "r1".toList "Al".toList sampleQuestions 30 identityDraws (fun _ => false)
        sampleInput = some (r, score) ∧
      r.totalQuestions = 3 ∧ r.correctAnswers = 1 ∧ r.responseTimes[1]? = some 30 := by
  have hidx : clientIndices identityDraws sampleQuestions.length = [0, 1, 2] := by decide
  have hrun : iterationsRun sampleQuestions [0, 1, 2] (fun _ => false) (sampleInput 30) =
      [0, 1, 2] := by decide
  obtain ⟨r, score, h1, h2, h3, -, -, -, h7⟩ :=
    conduct_exam_timeout "r1".toList "Al".toList sampleQuestions 30 identityDraws
      (fun _ => false) sampleInput 1 (by decide) (by rw [hidx, hrun]; decide) (by decide)
      (by decide)
  rw [hidx, hrun] at h2 h3
  exact ⟨r, score, h1, h2, h3, h7⟩

/-- C22 (failing input): on `sampleQuestions` the student answers the first
question with `x`, no option letter, after one second, and the other two
correctly after 30 and 14 seconds. `conduct_exam` records the response time
1 for the first question and sends the flag 0: the check of the answer time
(line 219) comes after the `continue` of the invalid-answer branch (line
207), and the average 45 / 3 is not below 5. -/
theorem conduct_exam_fast_invalid_answer_not_flagged :
    classify (fastInvalidInput 30 0) = Answer.invalid ∧
    (fastInvalidInput 30 0).answerTime < MIN_ANSWER_TIME ∧
    (conduct_exam "r1".toList "Al".toList sampleQuestions 30 identityDraws (fun _ => false)
      fastInvalidInput).map Prod.fst = some fastInvalidResult ∧
    fastInvalidResult.flagged = 0 := by
  decide

/-- C28: the received marking scheme has no influence on the exam: for all
received marks, two runs of the client that differ only in them send the
same record and compute the same weighted score (the marks enter the rules
summary only). -/
theorem client_main_ignores_marks (roll name : List Char) (answerTimeout : Int)
    (marks1 deducted1 marks2 deducted2 : ℚ) (num_questions : Int)
    (received : Nat → Option Question) (rand : Nat → Nat) (examTimeUp : Nat → Bool)
    (input : Int → Nat → Outcome) :
    (client_main roll name answerTimeout marks1 deducted1 num_questions received rand
        examTimeUp input).map (fun run => (run.result, run.weightedScore)) =
      (client_main roll name answerTimeout marks2 deducted2 num_questions received rand
        examTimeUp input).map (fun run => (run.result, run.weightedScore)) := by
  unfold client_main
  dsimp only
  cases receiveQuestions received (clientNumQuestions num_questions) 0 with
  | none => rfl
  | some questions =>
    dsimp only
    cases conduct_exam roll name questions (clientAnswerTimeout answerTimeout) rand examTimeUp
      input with
    | none => rfl
    | some p => rfl

/-- C30: for every run of `conduct_exam` on `n` questions with `n` at most
`NUM_EXAM_QUESTIONS`, `conduct_exam` returns a record with
0 ≤ correctAnswers ≤ totalQuestions ≤ n, whose response times are the
`NUM_EXAM_QUESTIONS` entries of the array, those at indices from `n` on
still 0 as initialised; and the number of questions that `main` passes to
`conduct_exam` is in 1..`NUM_EXAM_QUESTIONS` for every received count. -/
theorem conduct_exam_result_bounds (roll name : List Char) (questions : List Question)
    (answerTimeout : Int) (rand : Nat → Nat) (examTimeUp : Nat → Bool)
    (input : Int → Nat → Outcome) (h : questions.length ≤ NUM_EXAM_QUESTIONS) :
    (∃ (r : ExamResult) (score : ℚ),
      conduct_exam roll name questions answerTimeout rand examTimeUp input = some (r, score) ∧
      0 ≤ r.correctAnswers ∧ r.correctAnswers ≤ r.totalQuestions ∧
      r.totalQuestions ≤ questions.length ∧
      r.responseTimes.length = NUM_EXAM_QUESTIONS ∧
      ∀ m, questions.length ≤ m → m < NUM_EXAM_QUESTIONS → r.responseTimes[m]? = some 0) ∧
    ∀ (num_questions : Int) (received : Nat → Option Question) (qs : List Question),
      receiveQuestions received (clientNumQuestions num_questions) 0 = some qs →
        1 ≤ qs.length ∧ qs.length ≤ NUM_EXAM_QUESTIONS := by
  constructor
  · obtain ⟨r, score, h1, h2, h3, -, h5, h6, -⟩ :=
      conduct_exam_counts roll name questions answerTimeout rand examTimeUp input h
    refine ⟨r, score, h1, ?_, ?_, ?_, h5, ?_⟩
    · rw [h3]
      exact Int.natCast_nonneg _
    · rw [h2, h3]
      exact Int.ofNat_le.mpr (List.length_filter_le _ _)
    · rw [h2, ← iterationsFrom_zero]
      exact Int.ofNat_le.mpr (iterationsFrom_length _ _ _ _ _ _)
    · intro m hm hm5
      rw [h6 m hm]
      simp [hm5]
  · intro num_questions received qs hqs
    rw [receiveQuestions_length received _ _ qs hqs]
    exact clientNumQuestions_le num_questions

/-- The scenario of C30: three questions, the first answered correctly, the
second timed out, the third answered wrongly. -/
theorem conduct_exam_result_bounds_witness :
    sampleQuestions.length ≤ NUM_EXAM_QUESTIONS ∧
    ∃ (r : ExamResult) (score : ℚ),
      conduct_exam "r1".toList "Al".toList sampleQuestions 30 identityDraws (fun _ => false)
        sampleInput = some (r, score) ∧
      0 ≤ r.correctAnswers ∧ r.correctAnswers ≤ r.totalQuestions ∧
      r.totalQuestions ≤ sampleQuestions.length ∧
      r.responseTimes.length = NUM_EXAM_QUESTIONS ∧
      ∀ m, sampleQuestions.length ≤ m → m < NUM_EXAM_QUESTIONS → r.responseTimes[m]? = some 0 :=
  ⟨by decide, (conduct_exam_result_bounds "r1".toList "Al".toList sampleQuestions 30
    identityDraws (fun _ => false) sampleInput (by decide)).1⟩

set_option maxRecDepth 100000 in
/-- C24 (failing input): the record `overlongResult` has `totalQuestions` 6
and the five response times of its array. The loop of `append_result`
(line 390) runs while `i < s->totalQuestions` and reads `responseTimes[5]`,
outside the array; and after the line `overlongLine` with attempted count 6
is reloaded, the loop of `flagSuspiciousActivity` (line 444) runs while
`j < totalQuestions` and, no response time being below 2, reads
`responseTimes[5]` as well. -/
theorem append_result_reads_beyond_array :
    overlongResult.totalQuestions = 6 ∧
    overlongResult.responseTimes.length = NUM_EXAM_QUESTIONS ∧
    overlongResult.responseTimes[5]? = none ∧
    writeTimes overlongResult 5 0 [] = some "10,30,8,9,9,".toList ∧
    writeTimes overlongResult 6 0 [] = none ∧
    append_result true [] overlongResult = none ∧
    (loadDashboardData (some overlongLine) emptyDashboard 0).map
        (fun p => (p.2, p.1.head?.map (fun s => (s.totalQuestions, s.responseTimes)))) =
      some (1, some (6, [10, 30, 8, 9, 9])) ∧
    (loadDashboardData (some overlongLine) emptyDashboard 0).bind
        (fun p => flagSuspiciousActivity p.1 p.2) = none := by
  decide

/-- C26: for every number `T` of stored questions with
`T ≥ 2 * NUM_EXAM_QUESTIONS` and all values of `rand()`, the store index
delivered at position `p < NUM_EXAM_QUESTIONS` is `p` itself or one of the
last `NUM_EXAM_QUESTIONS` indices `T - NUM_EXAM_QUESTIONS, ..., T - 1`; no
index from `NUM_EXAM_QUESTIONS` to `T - NUM_EXAM_QUESTIONS - 1` is ever
delivered. -/
theorem selection_skips_middle (rand : Nat → Nat) (T : Nat)
    (h : 2 * NUM_EXAM_QUESTIONS ≤ T) :
    (∀ p, p < NUM_EXAM_QUESTIONS →
      (selectedIndices rand T).getD p 0 = p ∨
        (T - NUM_EXAM_QUESTIONS ≤ (selectedIndices rand T).getD p 0 ∧
          (selectedIndices rand T).getD p 0 < T)) ∧
    ∀ x ∈ selectedIndices rand T, ¬ (NUM_EXAM_QUESTIONS ≤ x ∧ x < T - NUM_EXAM_QUESTIONS) := by
  have hn : numQuestions T = NUM_EXAM_QUESTIONS := by
    rw [numQuestions_eq_min]
    exact Nat.min_eq_left (by omega)
  have hperm := shuffledIndices_perm rand T
  have hlen : (shuffledIndices rand T).length = T := by rw [hperm.length_eq, List.length_range]
  have key : ∀ p, p < NUM_EXAM_QUESTIONS →
      (selectedIndices rand T).getD p 0 = p ∨
        (T - NUM_EXAM_QUESTIONS ≤ (selectedIndices rand T).getD p 0 ∧
          (selectedIndices rand T).getD p 0 < T) := by
    intro p hp
    rw [selectedIndices_getD rand T p (by rw [hn]; exact hp)]
    have hpT : p < (shuffledIndices rand T).length := by rw [hlen]; omega
    have hlt : (shuffledIndices rand T).getD p 0 < T := by
      rw [List.getD_eq_getElem _ _ hpT]
      exact List.mem_range.mp (hperm.subset (List.getElem_mem hpT))
    rcases shuffledIndices_tail rand T p (by rw [hn]; omega) with h1 | h1
    · exact Or.inl h1
    · exact Or.inr ⟨by rw [hn] at h1; exact h1, hlt⟩
  refine ⟨key, ?_⟩
  intro x hx
  obtain ⟨p, hp, rfl⟩ : ∃ p, p < NUM_EXAM_QUESTIONS ∧ (selectedIndices rand T).getD p 0 = x := by
    unfold selectedIndices at hx
    obtain ⟨p, hp, hpx⟩ := List.mem_map.mp hx
    have hp' : p < numQuestions T := List.mem_range.mp hp
    refine ⟨p, by rw [← hn]; exact hp', ?_⟩
    rw [selectedIndices_getD rand T p hp']
    exact hpx
  rcases key p hp with h1 | h1
  · rw [h1]
    omega
  · omega

/-- A store of twelve questions, the draws being 0, 1, 2, ...: no delivered
index is 5 or 6. -/
theorem selection_skips_middle_witness :
    2 * NUM_EXAM_QUESTIONS ≤ 12 ∧
    ∀ x ∈ selectedIndices (fun k => k) 12, ¬ (NUM_EXAM_QUESTIONS ≤ x ∧ x < 12 - NUM_EXAM_QUESTIONS) :=
  ⟨by decide, (selection_skips_middle (fun k => k) 12 (by decide)).2⟩

/-- C27: the selection of a delivery is a function of the store and of the
seed `time(NULL)` only: when every `send` succeeds and the deliveries to the
registry entries `i` and `j` of one `start_exam` call, of distinct sockets,
are seeded in the same clock second, each of the two sockets is written the
messages fixed by the store and that seed, so both clients are sent the same
store indices in the same order and the same messages. -/
theorem start_exam_same_second (st : Server) (ok : Nat → Bool) (prng : Nat → Nat → Nat)
    (time : Nat → Nat) (hok : ∀ k, ok k = true) (i j : Nat) (hi : i < st.clients.length)
    (hj : j < st.clients.length)
    (huniq : (st.clients.map (fun c => c.sock)).Nodup) (htime : time i = time j) :
    selectedIndices (prng (time i)) st.totalQuestions =
      selectedIndices (prng (time j)) st.totalQuestions ∧
    messagesTo st.clients[i].sock (start_exam_at st ok prng time).2 =
      examMessages st (prng (time i)) ∧
    messagesTo st.clients[j].sock (start_exam_at st ok prng time).2 =
      examMessages st (prng (time i)) := by
  have hinj : ∀ (m n : Nat) (hm : m < st.clients.length) (hn : n < st.clients.length),
      st.clients[m].sock = st.clients[n].sock → m = n := by
    intro m n hm hn h
    have hm1 : m < (st.clients.map (fun c => c.sock)).length := by simpa using hm
    have hn1 : n < (st.clients.map (fun c => c.sock)).length := by simpa using hn
    have key : (st.clients.map (fun c => c.sock))[m] = (st.clients.map (fun c => c.sock))[n] ↔
        m = n := List.Nodup.getElem_inj_iff huniq
    exact key.mp (by simpa using h)
  refine ⟨by rw [htime], ?_, ?_⟩
  · unfold start_exam_at
    rw [start_exam_trace st ok _ hok,
      messagesTo_expectedTrace st _ st.clients 0 i hi (fun m hm h => hinj m i hm hi h),
      Nat.zero_add]
  · unfold start_exam_at
    rw [start_exam_trace st ok _ hok,
      messagesTo_expectedTrace st _ st.clients 0 j hj (fun m hm h => hinj m j hm hj h),
      Nat.zero_add, htime]

/-- Two clients of `demoServer` served in the clock second 1000: both are
sent the same messages. -/
theorem start_exam_same_second_witness :
    messagesTo 7 (start_exam_at demoServer (fun _ => true) demoGenerator (fun _ => 1000)).2 =
      messagesTo 8 (start_exam_at demoServer (fun _ => true) demoGenerator (fun _ => 1000)).2 := by
  have h := start_exam_same_second demoServer (fun _ => true) demoGenerator (fun _ => 1000)
    (fun _ => rfl) 0 1 (by decide) (by decide) (by decide) rfl
  exact h.2.1.trans h.2.2.symm

/-- C29: for every log of `K` well-formed lines, read into the array of
`MAX_STUDENTS` slots, `loadDashboardData` returns with
`studentCount = min K MAX_STUDENTS`, and slot `i` holds the record of line
`i` for every `i < min K MAX_STUDENTS`: the first `min K MAX_STUDENTS` lines
are loaded in file order and the later ones have no slot. -/
theorem loadDashboardData_capacity (rs : List DashboardStudent)
    (dashboardStudents : List DashboardStudent) (studentCount : Nat)
    (harr : dashboardStudents.length = MAX_STUDENTS)
    (hslots : ∀ s ∈ dashboardStudents, s.responseTimes.length = NUM_EXAM_QUESTIONS)
    (hrs : ∀ r ∈ rs, reloadable r) :
    ∃ loaded : List DashboardStudent,
      loadDashboardData (some (rs.flatMap resultLine)) dashboardStudents studentCount =
        some (loaded, min rs.length MAX_STUDENTS) ∧
      loaded.length = MAX_STUDENTS ∧
      ∀ (i : Nat) (hi : i < rs.length), i < MAX_STUDENTS → ∃ s : DashboardStudent,
        loaded[i]? = some s ∧ reloadedFrom rs[i] s :=
  loadDashboardData_first_slots rs dashboardStudents studentCount harr hslots hrs

/-- A log of 101 lines read into the empty dashboard: 100 records are
loaded. -/
theorem loadDashboardData_capacity_witness :
    emptyDashboard.length = MAX_STUDENTS ∧
    (∀ s ∈ emptyDashboard, s.responseTimes.length = NUM_EXAM_QUESTIONS) ∧
    (∀ r ∈ List.replicate 101 demoResult, reloadable r) ∧
    ∃ loaded : List DashboardStudent,
      loadDashboardData (some ((List.replicate 101 demoResult).flatMap resultLine))
        emptyDashboard 0 = some (loaded, 100) := by
  have h1 : emptyDashboard.length = MAX_STUDENTS := by simp [emptyDashboard]
  have h2 : ∀ s ∈ emptyDashboard, s.responseTimes.length = NUM_EXAM_QUESTIONS := by
    intro s hs
    rw [List.eq_of_mem_replicate hs]
    rfl
  have h3 : ∀ r ∈ List.replicate 101 demoResult, reloadable r := by
    intro r hr
    rw [List.eq_of_mem_replicate hr]
    decide
  obtain ⟨loaded, hl, -, -⟩ :=
    loadDashboardData_capacity (List.replicate 101 demoResult) emptyDashboard 0 h1 h2 h3
  exact ⟨h1, h2, h3, loaded, by rw [hl]; rfl⟩

set_option maxRecDepth 100000 in
/-- C25 (failing input): a finished session of `project.c` with score 2,
two wrong answers among three attempted (one correct), no flag, total time
48 and response times 10, 30 and 8. `append_result` of `project.c` writes
the line `r1|Al|2.00|2|3|0|48|10,30,8,` of seven fields, not the persisted
line `r1|Al|1|3|0|48|10,30,8,`; and `loadDashboardData` of `project.c` reads
back from it the correct count 2, the attempted count 2, the flag 3, the
total time 0 and the response times 0, 0, 0, 0, 0. -/
theorem project_append_result_format_differs :
    Project.append_result true [] "Al".toList "r1".toList 2 2 3 0 [10, 30, 8, 0, 0] 48 =
      some "r1|Al|2.00|2|3|0|48|10,30,8,\n".toList ∧
    resultLine { roll := "r1".toList, name := "Al".toList, responseTimes := [10, 30, 8, 0, 0],
                 totalTime := 48, correctAnswers := 1, totalQuestions := 3, rank := 0,
                 flagged := 0 } = "r1|Al|1|3|0|48|10,30,8,\n".toList ∧
    (Project.loadDashboardData (some "r1|Al|2.00|2|3|0|48|10,30,8,\n".toList) emptyDashboard
        0).map (fun p => (p.2, p.1.head?)) =
      some (1, some { roll := "r1".toList, name := "Al".toList, responseTimes := [0, 0, 0, 0, 0],
                      totalTime := 0, correctAnswers := 2, totalQuestions := 2, rank := 0,
                      flagged := 3 }) := by
  decide

set_option maxRecDepth 100000 in
/-- C23: for every content of the question file, and when the file is
missing, `load_questions` returns, and the question store it leaves is the
list of the records stored by the reading loop followed by copies of the
canonical default record `default_q` up to `NUM_EXAM_QUESTIONS` records;
every record of the store satisfies the question invariant, and the store
holds between `NUM_EXAM_QUESTIONS` and `MAX_QUESTIONS` records. On
`sampleQuestionFile` the group of seven lines with difficulty 7 is skipped,
the well-formed group is stored and four default records are added. -/
theorem load_questions_invariant (file : Option (List Char)) :
    (∃ loaded store : List Question,
      load_questions file = some store ∧
      store = loaded ++ List.replicate (NUM_EXAM_QUESTIONS - loaded.length) default_q ∧
      (∀ q ∈ store, questionInvariant q) ∧
      NUM_EXAM_QUESTIONS ≤ store.length ∧ store.length ≤ MAX_QUESTIONS) ∧
    load_questions (some sampleQuestionFile) =
      some ({ question := "2 + 2 = ?".toList, optionA := "3".toList, optionB := "4".toList,
              optionC := "5".toList, optionD := "6".toList, correct := 'B', difficulty := 2 } ::
        List.replicate 4 default_q) := by
  refine ⟨?_, by decide⟩
  obtain ⟨loaded, h1, h2, h3⟩ := load_questions_spec file
  refine ⟨loaded, _, h1, rfl, ?_, ?_, ?_⟩
  · intro q hq
    rcases List.mem_append.mp hq with hq | hq
    · exact h2 q hq
    · rw [List.eq_of_mem_replicate hq]
      decide
  · rw [List.length_append, List.length_replicate]
    omega
  · rw [List.length_append, List.length_replicate]
    unfold NUM_EXAM_QUESTIONS MAX_QUESTIONS at *
    omega

end ExamSystem
